import Mathlib

/-!
# sflag: binding command-line flags onto struct fields

A shallow embedding of `sflag.Parse` (src/sflag.go) together with the parts of the Go
standard library it calls (`strings`, `strconv`, `reflect`, `flag`), and theorems about it.

Go strings are byte sequences; a byte is a natural number below 256.
-/

set_option autoImplicit false

namespace Sflag

/-- A Go string: its sequence of bytes. -/
abbrev GoString := List Nat

/-- UTF-8 encoding of one code point, as Go source text encodes a string literal. -/
def utf8Char (c : Char) : List Nat :=
  let n := c.toNat
  if n < 0x80 then [n]
  else if n < 0x800 then [0xC0 + n / 0x40, 0x80 + n % 0x40]
  else if n < 0x10000 then [0xE0 + n / 0x1000, 0x80 + n / 0x40 % 0x40, 0x80 + n % 0x40]
  else [0xF0 + n / 0x40000, 0x80 + n / 0x1000 % 0x40, 0x80 + n / 0x40 % 0x40, 0x80 + n % 0x40]

/-- The Go string written as the literal `s`. -/
def B (s : String) : GoString := s.toList.flatMap utf8Char

/-! ## strings -/

/-- The encodings of the runes for which `unicode.IsSpace` holds: the six ASCII spaces,
U+0085, U+00A0, U+1680, U+2000..U+200A, U+2028, U+2029, U+202F, U+205F, U+3000. -/
def spaceRunes : List GoString :=
  [[0x09], [0x0A], [0x0B], [0x0C], [0x0D], [0x20],
   [0xC2, 0x85], [0xC2, 0xA0], [0xE1, 0x9A, 0x80],
   [0xE2, 0x80, 0x80], [0xE2, 0x80, 0x81], [0xE2, 0x80, 0x82], [0xE2, 0x80, 0x83],
   [0xE2, 0x80, 0x84], [0xE2, 0x80, 0x85], [0xE2, 0x80, 0x86], [0xE2, 0x80, 0x87],
   [0xE2, 0x80, 0x88], [0xE2, 0x80, 0x89], [0xE2, 0x80, 0x8A],
   [0xE2, 0x80, 0xA8], [0xE2, 0x80, 0xA9], [0xE2, 0x80, 0xAF], [0xE2, 0x81, 0x9F],
   [0xE3, 0x80, 0x80]]

/-- Width in bytes of the white-space rune that `s` starts with, `0` when the first rune of
`s` is not white space. The space runes are encoded in shortest form, so `s` decodes to one
of them at its front exactly when it starts with that encoding. -/
def leadingSpace (s : GoString) : Nat :=
  match spaceRunes.find? (fun r => r.isPrefixOf s) with
  | some r => r.length
  | none => 0

/-- `strings.TrimLeftFunc(s, unicode.IsSpace)`; `fuel` bounds the number of runes removed. -/
def trimLeftFuel : Nat → GoString → GoString
  | 0, s => s
  | fuel + 1, s =>
    match leadingSpace s with
    | 0 => s
    | w => trimLeftFuel fuel (s.drop w)

/-- `strings.TrimLeftFunc(s, unicode.IsSpace)`. -/
def TrimLeft (s : GoString) : GoString := trimLeftFuel s.length s

/-- `strings.TrimRightFunc(s, unicode.IsSpace)`: a rune is decoded at the end of `s` exactly
when `s` ends with its encoding, so the reversed text is trimmed against the reversed
encodings. -/
def trimRightFuel : Nat → GoString → GoString
  | 0, r => r
  | fuel + 1, r =>
    match spaceRunes.find? (fun e => e.reverse.isPrefixOf r) with
    | some e => trimRightFuel fuel (r.drop e.length)
    | none => r

/-- `strings.TrimRightFunc(s, unicode.IsSpace)`. -/
def TrimRight (s : GoString) : GoString := (trimRightFuel s.length s.reverse).reverse

/-- `strings.TrimSpace`: leading and trailing Unicode white space removed. -/
def TrimSpace (s : GoString) : GoString := TrimRight (TrimLeft s)

/-- The text of `s` before the first byte `sep`, together with the pieces of what follows
that byte. Every occurrence of `sep` separates two pieces. -/
def splitAux (sep : Nat) : GoString → GoString × List GoString
  | [] => ([], [])
  | b :: s =>
    let r := splitAux sep s
    if b = sep then ([], r.1 :: r.2) else (b :: r.1, r.2)

/-- `strings.Split(s, sep)` for a separator `sep` that is a single byte, the only kind
`Parse` passes: the pieces of `s` between all occurrences of `sep`, never fewer than one. -/
def Split (s : GoString) (sep : Nat) : List GoString :=
  (splitAux sep s).1 :: (splitAux sep s).2

/-- `strings.Contains(s, substr)`. -/
def Contains : GoString → GoString → Bool
  | [], substr => substr.isEmpty
  | b :: s, substr => substr.isPrefixOf (b :: s) || Contains s substr

/-- Lower-casing of one ASCII byte. -/
def lowerByte (c : Nat) : Nat := if 65 ≤ c ∧ c ≤ 90 then c + 32 else c

/-! ## strconv -/

/-- The two errors of `strconv`'s number parsers. -/
inductive NumError
  | ErrSyntax
  | ErrRange
  deriving DecidableEq, Repr

/-- Loop of `strconv.ParseUint(s, 10, 64)` over the bytes of `s`, `n` the value so far.
A letter is a digit of a larger base and so a syntax error, like any other non-digit;
overflow returns `maxVal` at once, before the remaining bytes are looked at. -/
def parseUintLoop : GoString → Nat → Nat × Option NumError
  | [], n => (n, none)
  | c :: cs, n =>
    if 48 ≤ c ∧ c ≤ 57 then
      let d := c - 48
      if n ≥ (2 ^ 64 - 1) / 10 + 1 then (2 ^ 64 - 1, some .ErrRange)
      else
        let n10 := n * 10 % 2 ^ 64
        let n1 := (n10 + d) % 2 ^ 64
        if n1 < n10 ∨ n1 > 2 ^ 64 - 1 then (2 ^ 64 - 1, some .ErrRange)
        else parseUintLoop cs n1
    else (0, some .ErrSyntax)

/-- `strconv.ParseUint(s, 10, 64)`. -/
def ParseUint (s : GoString) : Nat × Option NumError :=
  if s = [] then (0, some .ErrSyntax) else parseUintLoop s 0

/-- `strconv.ParseInt(s, 10, 64)`: the value returned and the error. -/
def ParseInt (s : GoString) : Int × Option NumError :=
  match s with
  | [] => (0, some .ErrSyntax)
  | c :: rest =>
    let neg := decide (c = 45)
    let digits := if c = 43 ∨ c = 45 then rest else c :: rest
    let r := ParseUint digits
    if r.2 = some .ErrSyntax then (0, some .ErrSyntax)
    else if !neg ∧ r.1 ≥ 2 ^ 63 then ((2 : Int) ^ 63 - 1, some .ErrRange)
    else if neg ∧ r.1 > 2 ^ 63 then (-(2 : Int) ^ 63, some .ErrRange)
    else (if neg then -(r.1 : Int) else (r.1 : Int), none)

/-- `strconv.ParseBool`: the value returned and whether the text was accepted. -/
def ParseBool (s : GoString) : Bool × Bool :=
  if s ∈ [B "1", B "t", B "T", B "true", B "TRUE", B "True"] then (true, true)
  else if s ∈ [B "0", B "f", B "F", B "false", B "FALSE", B "False"] then (false, true)
  else (false, false)

/-- Standard-library functions that are taken as given: floating-point parsing, integer
parsing with base prefixes (used by the flag package for argument values) and Unicode
lower-casing of text that is not pure ASCII. -/
structure Lib where
  /-- `strconv.ParseFloat(s, 64)`: the bits of the value returned and whether `err == nil`. -/
  ParseFloat : GoString → Nat × Bool
  /-- `strconv.ParseInt(s, 0, 64)`: the value returned and whether `err == nil`. -/
  ParseIntBase0 : GoString → Int × Bool
  /-- `strings.ToLower(s)` for `s` with a byte of `0x80` or above. -/
  ToLowerUnicode : GoString → GoString

/-- `strings.ToLower`: pure ASCII text is lower-cased byte by byte. -/
def ToLower (lib : Lib) (s : GoString) : GoString :=
  if s.all (fun c => decide (c < 0x80)) then s.map lowerByte else lib.ToLowerUnicode s

/-! ## reflect: the struct passed to `Parse` -/

/-- The value held by a struct field; the constructor fixes the field's declared type. -/
inductive Value
  /-- A field of type `string`. -/
  | string (s : GoString)
  /-- A field of type `int` (64 bits wide). -/
  | int (n : Int)
  /-- A field of type `bool`. -/
  | bool (b : Bool)
  /-- A field of type `int64`. -/
  | int64 (n : Int)
  /-- A field of type `float64`, as the bits of its value. -/
  | float64 (bits : Nat)
  /-- A field of type `[]string`. -/
  | strings (l : List GoString)
  /-- A field of a defined type named `typ` whose kind is `String`. -/
  | namedString (typ : GoString) (s : GoString)
  /-- A field of any other type, named `typ`; such a value is never read or written. -/
  | other (typ : GoString)
  deriving DecidableEq, Repr

/-- `pp.Type.String()`. -/
def Value.TypeString : Value → GoString
  | .string _ => B "string"
  | .int _ => B "int"
  | .bool _ => B "bool"
  | .int64 _ => B "int64"
  | .float64 _ => B "float64"
  | .strings _ => B "[]string"
  | .namedString typ _ => typ
  | .other typ => typ

/-- One field of the struct: `reflect.StructField` (`pp`) and the field's value (`vv`).
`PkgPath` is empty exactly for exported fields. -/
structure StructField where
  Name : GoString
  PkgPath : GoString
  Tag : GoString
  Anonymous : Bool
  val : Value
  deriving DecidableEq, Repr

/-- The struct behind the pointer given to `Parse`: its fields in declaration order. -/
abbrev Record := List StructField

/-- What `Parse` can be handed as `ss interface{}`. -/
inductive Arg
  /-- The nil interface value. -/
  | nilInterface
  /-- A value whose kind is not `Ptr`. -/
  | notPointer
  /-- A pointer to something that is not a struct. -/
  | pointerToOther
  /-- A nil pointer of pointer-to-struct type; `fields` describes the struct type. -/
  | nilPointerToStruct (fields : Record)
  /-- A pointer to the struct `r`. -/
  | pointerToStruct (r : Record)
  deriving DecidableEq, Repr

/-- Errors returned by `flag.FlagSet.parseOne`. -/
inductive FlagError
  | ErrHelp
  | badFlagSyntax
  | notDefined
  | invalidBooleanValue
  | needsArgument
  | invalidValue
  deriving DecidableEq, Repr

/-- The panics that can end `Parse`. -/
inductive Panic
  /-- Method call on the nil `reflect.Type` of a nil interface. -/
  | nilType
  /-- "sflag.Parse was not provided a pointer arg". -/
  | notPointer
  /-- "sflag.Parse was not provided a pointer to a struct". -/
  | notStruct
  /-- A `reflect.Value` method called on the zero Value. -/
  | reflectZeroValue
  /-- A `reflect.Value` setter used on a value obtained from an unexported field. -/
  | reflectUnexported
  /-- `reflect.Value.SetString` on a value whose kind is not `String`. -/
  | reflectKind
  /-- "flag redefined" from `flag.FlagSet.Var`. -/
  | flagRedefined
  /-- "Golang flag package requires "--Foo=bar" instead of "--Foo bar" syntax for bool
  args". -/
  | boolSyntax
  /-- The error of the flag set, which was created with `flag.PanicOnError`. -/
  | flagError (e : FlagError)
  deriving DecidableEq, Repr

/-- `rec` with the value of field `i` replaced by `v`: a store through the field's
address. -/
def store : Record → Nat → Value → Record
  | [], _, _ => []
  | pp :: r, 0, v => { pp with val := v } :: r
  | pp :: r, i + 1, v => pp :: store r i v

/-- `FieldByName(name)` among the struct's own fields: the index and descriptor of the
field named `name` (field names of a struct are distinct, the blank name `_` apart).
`reflect` also finds a field that an embedded struct promotes; a `Record` does not hold the
contents of embedded structs, so this lookup is that of `reflect` for the structs in which
no embedded struct promotes a field of that name, and what is proved of an embedded field
or of a struct without a field `Usage` is stated for those structs only. -/
def FieldByName (name : GoString) : Record → Option (Nat × StructField)
  | [] => none
  | pp :: r =>
    if pp.Name = name then some (0, pp)
    else (FieldByName name r).map (fun p => (p.1 + 1, p.2))

/-! ## flag -/

/-- The five `flag.Value` implementations that `Parse` registers. -/
inductive FlagKind
  | stringValue
  | intValue
  | boolValue
  | int64Value
  | float64Value
  deriving DecidableEq, Repr

/-- A registered flag (`flag.Flag`): `target` is the index of the field whose address the
flag's value holds, `Default` the default it was registered with. -/
structure Flag where
  Name : GoString
  Usage : GoString
  kind : FlagKind
  target : Nat
  Default : Value
  deriving DecidableEq, Repr

/-- A `flag.FlagSet`: `formal` are the registered flags in registration order, `actual`
the names of the flags set while parsing, `args` the arguments left after the flags. -/
structure FlagSet where
  name : GoString
  parsed : Bool
  actual : List GoString
  formal : List Flag
  args : List GoString
  deriving DecidableEq, Repr

/-- `flag.NewFlagSet(name, flag.PanicOnError)`. -/
def NewFlagSet (name : GoString) : FlagSet :=
  { name := name, parsed := false, actual := [], formal := [], args := [] }

/-- `f.formal[name]`. -/
def FlagSet.lookup (f : FlagSet) (name : GoString) : Option Flag :=
  f.formal.find? (fun fl => decide (fl.Name = name))

/-! ## The field walk of `Parse` (lines 29-113) -/

/-- The local variables of `Parse` during the walk over the fields, the struct behind the
pointer (`ssvalue`) and the panic that ended the walk, if any. -/
structure WalkState where
  ssvalue : Record
  moreusage : GoString
  flags : FlagSet
  argsptr : Option Nat
  hasBoolArg : Bool
  panic : Option Panic
  deriving DecidableEq, Repr

/-- `vv.SetString`, `vv.SetInt`, `vv.SetBool`, `vv.SetFloat` on field `ii`: reflect refuses
to set a value obtained from an unexported field. -/
def WalkState.SetValue (st : WalkState) (ii : Nat) (v : Value) : WalkState :=
  if st.panic.isSome then st
  else
    match st.ssvalue[ii]? with
    | none => st
    | some pp =>
      if pp.PkgPath = [] then { st with ssvalue := store st.ssvalue ii v }
      else { st with panic := some .reflectUnexported }

/-- `flags.StringVar`, `IntVar`, `BoolVar`, `Int64Var`, `Float64Var` with the address of
field `ii`: the default is stored through the pointer, then `FlagSet.Var` registers the
flag and panics when a flag of that name exists already. (`Var` also rejects a name that
starts with `-` or contains `=`; a field name is an identifier and has neither.) -/
def WalkState.flagVar (st : WalkState) (kind : FlagKind) (ii : Nat) (name : GoString)
    (value : Value) (usage : GoString) : WalkState :=
  if st.panic.isSome then st
  else
    let st1 := { st with ssvalue := store st.ssvalue ii value }
    if (st.flags.lookup name).isSome then { st1 with panic := some .flagRedefined }
    else
      { st1 with flags := { st.flags with
          formal := st.flags.formal ++ [⟨name, usage, kind, ii, value⟩] } }

/-- The statement `hasBoolArg = true` that follows `flags.BoolVar`. -/
def WalkState.markBool (st : WalkState) : WalkState :=
  if st.panic.isSome then st else { st with hasBoolArg := true }

/-- Lines 72-87, the switch taken when `len(parts) == 1`: the flag is registered with the
field's current value as default. -/
def registerCurrent (ii : Nat) (pp : StructField) (part0 : GoString) (st : WalkState) :
    WalkState :=
  match pp.val with
  | .string s =>
    st.flagVar .stringValue ii pp.Name (.string s) (B " <--default, string # " ++ part0)
  | .int n => st.flagVar .intValue ii pp.Name (.int n) (B " <--default, int # " ++ part0)
  | .bool b =>
    (st.flagVar .boolValue ii pp.Name (.bool b) (B " <--default, bool # " ++ part0)).markBool
  | .int64 n =>
    st.flagVar .int64Value ii pp.Name (.int64 n) (B " <--default, int64 # " ++ part0)
  | .float64 x =>
    st.flagVar .float64Value ii pp.Name (.float64 x) (B " <--default, float64 # " ++ part0)
  | _ => st

/-- Lines 88-112, the switch taken when `len(parts) == 2`: the default text is converted,
conversion errors are dropped, the field is set and the flag registered. -/
def registerDefault (lib : Lib) (ii : Nat) (pp : StructField) (part0 part1 : GoString)
    (st : WalkState) : WalkState :=
  match pp.val with
  | .string _ =>
    (st.SetValue ii (.string part1)).flagVar .stringValue ii pp.Name (.string part1)
      (B " <--default, string # " ++ part0)
  | .int _ =>
    let inum := (ParseInt part1).1
    (st.SetValue ii (.int inum)).flagVar .intValue ii pp.Name (.int inum)
      (B " <--default, int # " ++ part0)
  | .bool _ =>
    let bnum := (ParseBool part1).1
    ((st.SetValue ii (.bool bnum)).flagVar .boolValue ii pp.Name (.bool bnum)
      (B " <--default, bool # " ++ part0)).markBool
  | .int64 _ =>
    let jnum := (ParseInt part1).1
    (st.SetValue ii (.int64 jnum)).flagVar .int64Value ii pp.Name (.int64 jnum)
      (B " <--default, int64 # " ++ part0)
  | .float64 _ =>
    let fnum := (lib.ParseFloat part1).1
    (st.SetValue ii (.float64 fnum)).flagVar .float64Value ii pp.Name (.float64 fnum)
      (B " <--default, float64 # " ++ part0)
  | _ => st

/-- The ASCII letters of line 55. -/
def letters : GoString := B "abcdefghijklmnopqrstuvwxyzABCDEFGHIJKLMNOPQRSTUVWXYZ"

/-- Lines 54-56: `splitChar` for the trimmed, non-empty tag `c :: rest`, where `tag[0:1]`
is the one-byte string `[c]`; byte 124 is the pipe. -/
def splitChar (c : Nat) : Nat :=
  if Contains letters [c] then 124 else c

/-- Lines 55-59: `tag` as it is handed to `strings.Split`; `tag[1:]` is `rest`. -/
def splitTag (c : Nat) (rest : GoString) : GoString :=
  if Contains letters [c] then c :: rest else rest

/-- Line 60: `parts` for the trimmed, non-empty tag `c :: rest`. -/
def tagSplit (c : Nat) (rest : GoString) : List GoString :=
  Split (splitTag c rest) (splitChar c)

/-- Lines 50-60: `parts` for a field's raw tag, `none` when the trimmed tag is empty. -/
def tagParts (rawTag : GoString) : Option (List GoString) :=
  match TrimSpace rawTag with
  | [] => none
  | c :: rest => some (tagSplit c rest)

/-- Lines 61-68: `part0`. -/
def partZero (parts : List GoString) : GoString :=
  if parts.length > 0 then TrimSpace (parts.getD 0 []) else []

/-- Lines 61-68: `part1`. -/
def partOne (parts : List GoString) : GoString :=
  if parts.length > 1 then TrimSpace (parts.getD 1 []) else []

/-- Line 70: the usage line of one field. -/
def usageLine (pp : StructField) (parts : List GoString) : GoString :=
  B "\n\t--" ++ pp.Name ++ B ": " ++ partOne parts ++ B " <-- Default, " ++
    pp.val.TypeString ++ B " # " ++ partZero parts

/-- Lines 61-112: what the loop body does with `parts`. -/
def bindField (lib : Lib) (ii : Nat) (pp : StructField) (parts : List GoString)
    (st : WalkState) : WalkState :=
  let st1 := if parts.length > 0 then
      { st with moreusage := st.moreusage ++ usageLine pp parts } else st
  let st2 := if parts.length = 1 then registerCurrent ii pp (partZero parts) st1 else st1
  if parts.length = 2 then registerDefault lib ii pp (partZero parts) (partOne parts) st2
  else st2

/-- One iteration of the loop of lines 36-113, for index `ii`. -/
def walkField (lib : Lib) (ii : Nat) (st : WalkState) : WalkState :=
  if st.panic.isSome then st
  else
    match st.ssvalue[ii]? with
    | none => st
    | some pp =>
      if pp.Anonymous then st
      else if pp.Name = B "Usage" then st
      else
        match pp.val with
        | .strings _ => { st with argsptr := some ii }
        | _ =>
          match tagParts pp.Tag with
          | none => st
          | some parts => bindField lib ii pp parts st

/-- The state in which the loop starts (lines 29-34). -/
def initState (prog : GoString) (r : Record) : WalkState :=
  { ssvalue := r, moreusage := [], flags := NewFlagSet prog, argsptr := none,
    hasBoolArg := false, panic := none }

/-- The loop run over the first `n` fields. -/
def walkUpTo (lib : Lib) (prog : GoString) (r : Record) (n : Nat) : WalkState :=
  (List.range n).foldl (fun st ii => walkField lib ii st) (initState prog r)

/-- Lines 29-113: the loop over all `sstype.NumField()` fields. -/
def walk (lib : Lib) (prog : GoString) (r : Record) : WalkState :=
  walkUpTo lib prog r r.length

/-! ## After the walk (lines 115-130) -/

/-- Lines 115-117: the usage text is stored in the field named `Usage` with
`reflect.Value.SetString`, which panics on the zero Value (no such field), on an unexported
field and on a field whose kind is not `String`. -/
def writeUsage (prog : GoString) (st : WalkState) : WalkState :=
  if st.panic.isSome then st
  else
    match FieldByName (B "Usage") st.ssvalue with
    | none => { st with panic := some .reflectZeroValue }
    | some (k, pp) =>
      let text := B "\n Usage of " ++ prog ++ B " # " ++ pp.Tag ++ B "\n ARGS:" ++ st.moreusage
      if pp.PkgPath = [] then
        match pp.val with
        | .string _ => { st with ssvalue := store st.ssvalue k (.string text) }
        | .namedString typ _ => { st with ssvalue := store st.ssvalue k (.namedString typ text) }
        | _ => { st with panic := some .reflectKind }
      else { st with panic := some .reflectUnexported }

/-- The test of lines 120-121 on one argument. -/
def isBoolWord (lib : Lib) (arg : GoString) : Bool :=
  ToLower lib arg = B "true" ∨ ToLower lib arg = B "false"

/-- Lines 118-125: the scan of `os.Args[1:]` when a bool flag was registered. -/
def boolGuard (lib : Lib) (args : List GoString) (st : WalkState) : WalkState :=
  if st.panic.isSome then st
  else if st.hasBoolArg ∧ args.any (isBoolWord lib) then { st with panic := some .boolSyntax }
  else st

/-- `flag.Value.Set(value)` of a registered flag: the parsed value is stored through the
flag's pointer; the result says whether `Set` returned no error. -/
def Flag.Set (lib : Lib) (fl : Flag) (value : GoString) (rec : Record) : Record × Bool :=
  match fl.kind with
  | .stringValue => (store rec fl.target (.string value), true)
  | .intValue =>
    (store rec fl.target (.int (lib.ParseIntBase0 value).1), (lib.ParseIntBase0 value).2)
  | .boolValue => (store rec fl.target (.bool (ParseBool value).1), (ParseBool value).2)
  | .int64Value =>
    (store rec fl.target (.int64 (lib.ParseIntBase0 value).1), (lib.ParseIntBase0 value).2)
  | .float64Value =>
    (store rec fl.target (.float64 (lib.ParseFloat value).1), (lib.ParseFloat value).2)

/-- What `parseOne` returns, with the flag set and the struct as it leaves them. -/
structure ParseStep where
  seen : Bool
  err : Option FlagError
  f : FlagSet
  ssvalue : Record
  deriving DecidableEq, Repr

/-- The second half of `flag.FlagSet.parseOne`, from the lookup `f.formal[name]` on:
`f` is the flag set after the flag's own argument was removed from `f.args`. -/
def setFlag (lib : Lib) (f : FlagSet) (rec : Record) (name : GoString) (hasValue : Bool)
    (value : GoString) : ParseStep :=
  match f.lookup name with
  | none =>
    if name = B "help" ∨ name = B "h" then ⟨false, some .ErrHelp, f, rec⟩
    else ⟨false, some .notDefined, f, rec⟩
  | some fl =>
    if fl.kind = .boolValue then
      let r := fl.Set lib (if hasValue then value else B "true") rec
      if r.2 then ⟨true, none, { f with actual := name :: f.actual }, r.1⟩
      else ⟨false, some .invalidBooleanValue, f, r.1⟩
    else
      match hasValue, f.args with
      | false, [] => ⟨false, some .needsArgument, f, rec⟩
      | false, next :: rest1 =>
        let r := fl.Set lib next rec
        if r.2 then ⟨true, none, { f with args := rest1, actual := name :: f.actual }, r.1⟩
        else ⟨false, some .invalidValue, { f with args := rest1 }, r.1⟩
      | true, _ =>
        let r := fl.Set lib value rec
        if r.2 then ⟨true, none, { f with actual := name :: f.actual }, r.1⟩
        else ⟨false, some .invalidValue, f, r.1⟩

/-- `flag.FlagSet.parseOne`: one flag, with its value, is taken from the front of
`f.args`. Byte 45 is the minus sign, byte 61 the equals sign. -/
def parseOne (lib : Lib) (f : FlagSet) (rec : Record) : ParseStep :=
  match f.args with
  | [] => ⟨false, none, f, rec⟩
  | s :: rest =>
    if s.length < 2 ∨ s.head? ≠ some 45 then ⟨false, none, f, rec⟩
    else
      let numMinuses := if s[1]? = some 45 then 2 else 1
      if numMinuses = 2 ∧ s.length = 2 then ⟨false, none, { f with args := rest }, rec⟩
      else
        let name := s.drop numMinuses
        if name.length = 0 ∨ name.head? = some 45 ∨ name.head? = some 61 then
          ⟨false, some .badFlagSyntax, f, rec⟩
        else
          let cut := (name.drop 1).span (fun c => c != 61)
          setFlag lib { f with args := rest } rec (name.take 1 ++ cut.1) (decide (cut.2 ≠ []))
            (cut.2.drop 1)

/-- The loop of `flag.FlagSet.Parse`: `parseOne` is repeated while it reports a flag;
`fuel` bounds the number of flags, each of which takes at least one argument. -/
def parseLoop (lib : Lib) : Nat → FlagSet → Record → ParseStep
  | 0, f, rec => ⟨false, none, f, rec⟩
  | fuel + 1, f, rec =>
    let r := parseOne lib f rec
    if r.seen then parseLoop lib fuel r.f r.ssvalue else r

/-- `flag.FlagSet.Parse(arguments)`. -/
def FlagSet.Parse (lib : Lib) (f : FlagSet) (rec : Record) (arguments : List GoString) :
    ParseStep :=
  parseLoop lib (arguments.length + 1) { f with parsed := true, args := arguments } rec

/-- How a call of `Parse` ends: the struct behind the pointer, the flag set, and the panic
if the call panicked. -/
structure Result where
  ssvalue : Record
  flags : FlagSet
  panic : Option Panic
  deriving DecidableEq, Repr

/-- Lines 29-117: the walk followed by the write of the usage text. -/
def preParse (lib : Lib) (prog : GoString) (r : Record) : WalkState :=
  writeUsage prog (walk lib prog r)

/-- Lines 118-130 for a struct: guard, `flags.Parse`, copy of the leftover arguments. -/
def finish (lib : Lib) (args : List GoString) (st : WalkState) : Result :=
  match (boolGuard lib args st).panic with
  | some p => ⟨st.ssvalue, st.flags, some p⟩
  | none =>
    let r := st.flags.Parse lib st.ssvalue args
    match r.err with
    | some e => ⟨r.ssvalue, r.f, some (.flagError e)⟩
    | none =>
      match st.argsptr with
      | some k => ⟨store r.ssvalue k (.strings r.f.args), r.f, none⟩
      | none => ⟨r.ssvalue, r.f, none⟩

/-- The function `Parse` of src/sflag.go, called with `os.Args = prog :: args`. When the
argument is no pointer to a struct the panic comes before line 31: the result then has no
struct and an empty flag set. -/
def Parse (lib : Lib) (prog : GoString) (args : List GoString) (ss : Arg) : Result :=
  match ss with
  | .nilInterface => ⟨[], NewFlagSet prog, some .nilType⟩
  | .notPointer => ⟨[], NewFlagSet prog, some .notPointer⟩
  | .pointerToOther => ⟨[], NewFlagSet prog, some .notStruct⟩
  | .nilPointerToStruct _ => ⟨[], NewFlagSet prog, some .reflectZeroValue⟩
  | .pointerToStruct r => finish lib args (preParse lib prog r)

/-! ## The delimiter rule as the specification words it -/

/-- Width in bytes of the first UTF-8 character of `s` (1 for a byte that starts no valid
encoding, as Go decodes it). -/
def firstCharWidth : GoString → Nat
  | [] => 0
  | b0 :: rest =>
    let cont := fun (b : Nat) => decide (0x80 ≤ b ∧ b ≤ 0xBF)
    match rest with
    | b1 :: b2 :: b3 :: _ =>
      if 0xC2 ≤ b0 ∧ b0 ≤ 0xDF ∧ cont b1 then 2
      else if 0xE0 ≤ b0 ∧ b0 ≤ 0xEF ∧ cont b1 ∧ cont b2 ∧ (b0 = 0xE0 → 0xA0 ≤ b1) ∧
        (b0 = 0xED → b1 ≤ 0x9F) then 3
      else if 0xF0 ≤ b0 ∧ b0 ≤ 0xF4 ∧ cont b1 ∧ cont b2 ∧ cont b3 ∧ (b0 = 0xF0 → 0x90 ≤ b1) ∧
        (b0 = 0xF4 → b1 ≤ 0x8F) then 4
      else 1
    | [b1, b2] =>
      if 0xC2 ≤ b0 ∧ b0 ≤ 0xDF ∧ cont b1 then 2
      else if 0xE0 ≤ b0 ∧ b0 ≤ 0xEF ∧ cont b1 ∧ cont b2 ∧ (b0 = 0xE0 → 0xA0 ≤ b1) ∧
        (b0 = 0xED → b1 ≤ 0x9F) then 3
      else 1
    | [b1] => if 0xC2 ≤ b0 ∧ b0 ≤ 0xDF ∧ cont b1 then 2 else 1
    | [] => 1

/-- `strings.Split(s, sep)` for a separator of any positive length: `cur` holds, reversed,
the bytes of the piece being read. -/
def splitOnFuel (sep : GoString) : Nat → GoString → GoString → List GoString
  | 0, cur, _ => [cur.reverse]
  | _ + 1, cur, [] => [cur.reverse]
  | fuel + 1, cur, b :: s =>
    if sep.isPrefixOf (b :: s) then
      cur.reverse :: splitOnFuel sep fuel [] ((b :: s).drop sep.length)
    else splitOnFuel sep fuel (b :: cur) s

/-- `strings.Split(s, sep)` for a non-empty separator. -/
def SplitOn (s sep : GoString) : List GoString := splitOnFuel sep (s.length + 1) [] s

/-- Whether the character `ch` is a single ASCII letter. -/
def isASCIILetter (ch : GoString) : Bool :=
  match ch with
  | [c] => decide ((65 ≤ c ∧ c ≤ 90) ∨ (97 ≤ c ∧ c ≤ 122))
  | _ => false

/-- The delimiter rule as the specification words it, on characters: when the first
character of the trimmed tag is an ASCII letter the whole text is split on the pipe,
otherwise the first character is the delimiter and the text after it is split. -/
def claimedTagParts (rawTag : GoString) : Option (List GoString) :=
  let tag := TrimSpace rawTag
  if tag = [] then none
  else
    let w := firstCharWidth tag
    if isASCIILetter (tag.take w) then some (SplitOn tag [124])
    else some (SplitOn (tag.drop w) (tag.take w))

/-! ## Vocabulary of the proofs -/

/-- The part of a field that no store changes. -/
def descOf (pp : StructField) : GoString × GoString × GoString × Bool :=
  (pp.Name, pp.PkgPath, pp.Tag, pp.Anonymous)

/-- What the processing of field `ii` may change in the state of the walk. -/
structure Frame (ii : Nat) (st st' : WalkState) : Prop where
  others : ∀ j, j ≠ ii → st'.ssvalue[j]? = st.ssvalue[j]?
  desc : st'.ssvalue.map descOf = st.ssvalue.map descOf
  formal_new : ∀ fl ∈ st'.flags.formal, fl ∈ st.flags.formal ∨
    (fl.target = ii ∧ (st.ssvalue[ii]?).map (·.Name) = some fl.Name)
  formal_old : ∀ fl ∈ st.flags.formal, fl ∈ st'.flags.formal
  actual : st'.flags.actual = st.flags.actual
  parsed : st'.flags.parsed = st.flags.parsed
  argsptr : st'.argsptr = st.argsptr
  bool : st.hasBoolArg = true → st'.hasBoolArg = true
  sticky : ∀ p, st.panic = some p → st' = st

/-- Whether a field of this type is bound to a flag by the two switches of `Parse`. -/
def Value.bindable : Value → Bool
  | .string _ => true
  | .int _ => true
  | .bool _ => true
  | .int64 _ => true
  | .float64 _ => true
  | _ => false

/-- The `flag.Value` implementation registered for a field of this type. -/
def Value.flagKind : Value → FlagKind
  | .int _ => .intValue
  | .bool _ => .boolValue
  | .int64 _ => .int64Value
  | .float64 _ => .float64Value
  | _ => .stringValue

/-- The default-value text `text` converted to the type of the field that holds `v`
(lines 91-110); conversion errors are dropped. -/
def convertDefault (lib : Lib) (v : Value) (text : GoString) : Value :=
  match v with
  | .string _ => .string text
  | .int _ => .int (ParseInt text).1
  | .bool _ => .bool (ParseBool text).1
  | .int64 _ => .int64 (ParseInt text).1
  | .float64 _ => .float64 (lib.ParseFloat text).1
  | w => w

/-- The flag that the switches register for field `ii` with default `v`. -/
def flagFor (ii : Nat) (pp : StructField) (part0 : GoString) (v : Value) : Flag :=
  ⟨pp.Name, B " <--default, " ++ pp.val.TypeString ++ B " # " ++ part0, pp.val.flagKind, ii, v⟩

/-- Whether the field is of type `bool`. -/
def Value.isBool : Value → Bool
  | .bool _ => true
  | _ => false

/-- What holds of the state after the first `n` fields of `r` were processed. -/
structure WalkInv (r : Record) (n : Nat) (st : WalkState) : Prop where
  later : ∀ j, n ≤ j → st.ssvalue[j]? = r[j]?
  desc : st.ssvalue.map descOf = r.map descOf
  formal : ∀ fl ∈ st.flags.formal,
    fl.target < n ∧ (r[fl.target]?).map (·.Name) = some fl.Name
  actual : st.flags.actual = []
  parsed : st.flags.parsed = false
  argsptr : ∀ k, st.argsptr = some k →
    k < n ∧ ∃ pp l, r[k]? = some pp ∧ pp.val = .strings l

/-- What one call of `parseOne` may change. -/
structure StepFrame (i : Nat) (name : GoString) (f : FlagSet) (rec : Record)
    (r : ParseStep) : Prop where
  formal : r.f.formal = f.formal
  parsed : r.f.parsed = f.parsed
  actual : ∀ n ∈ f.actual, n ∈ r.f.actual
  shorter : r.seen = true → r.f.args.length < f.args.length
  suffix : r.f.args <:+ f.args
  desc : r.ssvalue.map descOf = rec.map descOf
  noerr : r.seen = true → r.err = none
  untouched : (∀ fl ∈ f.formal, fl.target = i → fl.Name = name) → r.err = none →
    name ∉ r.f.actual → r.ssvalue[i]? = rec[i]?

/-! ## Concrete calls -/

/-- The library functions used where a theorem is applied to a concrete call. -/
def lib0 : Lib :=
  { ParseFloat := fun _ => (0, false), ParseIntBase0 := fun _ => (0, false),
    ToLowerUnicode := fun s => s }

/-- A struct with a usage field and one int field whose tag has no default. -/
def recAge : Record :=
  [⟨B "Usage", [], B "demo", false, .string []⟩,
   ⟨B "Age", [], B "in years", false, .int 7⟩]

/-- A struct with a string field whose default text holds the delimiter. -/
def recCmd : Record :=
  [⟨B "Usage", [], B "demo", false, .string []⟩,
   ⟨B "Cmd", [], B "cmd | a | b", false, .string []⟩]

/-- A struct with an int field whose default text holds the delimiter. -/
def recCount : Record :=
  [⟨B "Usage", [], B "demo", false, .string []⟩,
   ⟨B "Count", [], B "count | 4 | 2", false, .int 9⟩]

/-- A struct with a string field whose tag has the delimiter once. -/
def recName : Record :=
  [⟨B "Usage", [], B "demo", false, .string []⟩,
   ⟨B "Name", [], B "n | bob", false, .string []⟩]

/-- `vv.Int()` for a field of type `int` or `int64`. -/
def Value.asInt : Value → Option Int
  | .int n => some n
  | .int64 n => some n
  | _ => none

/-- A struct with an int64 field whose default text is one above the largest int64. -/
def recBig : Record :=
  [⟨B "Usage", [], B "demo", false, .string []⟩,
   ⟨B "Age", [], B "age | 9223372036854775808", false, .int64 5⟩]

/-- A struct with an int field whose default text is not a number. -/
def recIQ : Record :=
  [⟨B "Usage", [], B "demo", false, .string []⟩,
   ⟨B "IQ", [], B "iq | high", false, .int 5⟩]

/-- The state of the walk over `recName` after the loop. -/
def walkedName (prog : GoString) : WalkState :=
  ⟨[⟨B "Usage", [], B "demo", false, .string []⟩,
      ⟨B "Name", [], B "n | bob", false, .string (B "bob")⟩],
    B "\n\t--Name: bob <-- Default, string # n",
    ⟨prog, false, [],
      [⟨B "Name", B " <--default, string # n", .stringValue, 1, .string (B "bob")⟩], []⟩,
    none, false, none⟩

/-- The state of `Parse` on `recName` when the usage text has been written. -/
def preParsedName (prog : GoString) : WalkState :=
  { walkedName prog with
    ssvalue := [⟨B "Usage", [], B "demo", false,
        .string (B "\n Usage of " ++ prog ++ B " # " ++ B "demo" ++ B "\n ARGS:" ++
          B "\n\t--Name: bob <-- Default, string # n")⟩,
      ⟨B "Name", [], B "n | bob", false, .string (B "bob")⟩] }

/-- The struct whose only field is `Name string "n | bob"`. -/
def recOnlyName : Record :=
  [⟨B "Name", [], B "n | bob", false, .string []⟩]

/-- ASCII case folding of an argument. -/
def asciiFold (s : GoString) : GoString := s.map lowerByte

/-- Whether an argument equals `true` or `false` when letter case is ignored. -/
def isBareBool (s : GoString) : Bool :=
  decide (asciiFold s = B "true" ∨ asciiFold s = B "false")

/-- What is assumed of `strings.ToLower` on text that is not pure ASCII: the result is
neither `true` nor `false`. (No rune outside ASCII has a lower case among the letters of
these two words, and a byte that is not valid UTF-8 becomes U+FFFD.) -/
def LowerSound (lib : Lib) : Prop :=
  ∀ s : GoString, s.all (fun c => decide (c < 0x80)) = false →
    lib.ToLowerUnicode s ≠ B "true" ∧ lib.ToLowerUnicode s ≠ B "false"

/-- A struct with a usage field and a bool field with a default. -/
def recVerbose : Record :=
  [⟨B "Usage", [], B "demo", false, .string []⟩,
   ⟨B "Verbose", [], B "more output | false", false, .bool false⟩]

/-- A struct with a bool flag but no field named `Usage`. -/
def recBoolOnly : Record :=
  [⟨B "Verbose", [], B "more output", false, .bool false⟩]

/-- A struct with a usage field and a bool field without a tag. -/
def recUntagged : Record :=
  [⟨B "Usage", [], B "demo", false, .string []⟩,
   ⟨B "Verbose", [], [], false, .bool false⟩]

/-- A struct with a usage field, a string flag and a `[]string` field. -/
def recArgs : Record :=
  [⟨B "Usage", [], B "demo", false, .string []⟩,
   ⟨B "Name", [], B "a name", false, .string []⟩,
   ⟨B "Args", [], [], false, .strings [B "old"]⟩]

/-- A struct with two `[]string` fields. -/
def recTwoArgs : Record :=
  [⟨B "Usage", [], B "demo", false, .string []⟩,
   ⟨B "First", [], [], false, .strings [B "old"]⟩,
   ⟨B "Second", [], [], false, .strings []⟩]

/-! ## What the walk computes -/

/-- The usage line that the loop body appends for a field, empty for a field it skips. -/
def lineOf (pp : StructField) : GoString :=
  if pp.Anonymous = true ∨ pp.Name = B "Usage" then []
  else
    match pp.val with
    | .strings _ => []
    | _ =>
      match tagParts pp.Tag with
      | none => []
      | some parts => usageLine pp parts

/-- The lines that the walk accumulates in `moreusage`, in declaration order. -/
def usageLines (r : Record) : GoString := (r.map lineOf).flatten

/-- The usage text that line 117 builds for the usage field's tag `tag`. -/
def usageText (prog tag : GoString) (r : Record) : GoString :=
  B "\n Usage of " ++ prog ++ B " # " ++ tag ++ B "\n ARGS:" ++ usageLines r

/-- The value that `SetString(text)` leaves in a field of kind `String`. -/
def Value.withText (v : Value) (text : GoString) : Value :=
  match v with
  | .namedString typ _ => .namedString typ text
  | _ => .string text

/-- The field as the walk leaves it: a bindable field whose tag has exactly two parts holds
the converted default, every other field is as before. -/
def seedField (lib : Lib) (pp : StructField) : StructField :=
  if pp.Anonymous = true ∨ pp.Name = B "Usage" ∨ pp.val.bindable = false then pp
  else
    match tagParts pp.Tag with
    | some [_, p1] => { pp with val := convertDefault lib pp.val (TrimSpace p1) }
    | _ => pp

/-- Whether the walk registers a flag for the field: it is not embedded, not named `Usage`,
of one of the five bindable types, and its tag has one or two parts. -/
def isFlagField (pp : StructField) : Bool :=
  !pp.Anonymous && decide (pp.Name ≠ B "Usage") && pp.val.bindable &&
    (match tagParts pp.Tag with
      | some [_] => true
      | some [_, _] => true
      | _ => false)

/-- A struct with a field of type `uint`, which is none of the handled types. -/
def recUint : Record :=
  [⟨B "Usage", [], B "demo", false, .string []⟩,
   ⟨B "Count", [], B "a count | 3", false, .other (B "uint")⟩]

/-- A struct whose field `Usage` is of a named string type. -/
def recUsageNamed : Record :=
  [⟨B "Usage", [], B "demo", false, .namedString (B "main.Text") (B "old")⟩,
   ⟨B "Name", [], B "n | bob", false, .string []⟩]

/-- A struct whose field `Usage` is of type `uint`. -/
def recUsageUint : Record :=
  [⟨B "Usage", [], B "demo", false, .other (B "uint")⟩,
   ⟨B "Name", [], B "n | bob", false, .string []⟩]

/-- A struct without a field named `Usage` whose only field is unexported and has a
default. -/
def recHidden : Record :=
  [⟨B "name", B "main", B "n | bob", false, .string []⟩]

/-- A struct with two `[]string` fields that carry tags, and a string flag. -/
def recTaggedArgs : Record :=
  [⟨B "Usage", [], B "demo", false, .string []⟩,
   ⟨B "First", [], B "first list | a", false, .strings [B "old"]⟩,
   ⟨B "Name", [], B "a name", false, .string []⟩,
   ⟨B "Rest", [], B "the rest", false, .strings []⟩]

/-! ## `TrimSpace` step by step -/

/-- One step of `TrimLeft`: the white-space rune at the front is removed. -/
def lstep (s : GoString) : GoString := s.drop (leadingSpace s)

/-- One step of `TrimRight`, on the reversed text. -/
def rstepR (r : GoString) : GoString :=
  match spaceRunes.find? (fun e => e.reverse.isPrefixOf r) with
  | some e => r.drop e.length
  | none => r

/-- One step of `TrimRight`: the white-space rune at the end is removed. -/
def rstep (s : GoString) : GoString := (rstepR s.reverse).reverse

/-- The struct of the package documentation: a string field whose tag starts with `!`. -/
def recBang : Record :=
  [⟨B "Usage", [], B "demo", false, .string []⟩,
   ⟨B "SomeCommand", [], B "! is a command ! 'yes | head'", false, .string []⟩]

/-! ## What a second call of `Parse` sees: types, not values -/

/-- The value with its contents forgotten: what is left is the type of the field. -/
def Value.erase : Value → Value
  | .string _ => .string []
  | .int _ => .int 0
  | .bool _ => .bool false
  | .int64 _ => .int64 0
  | .float64 _ => .float64 0
  | .strings _ => .strings []
  | .namedString typ _ => .namedString typ []
  | .other typ => .other typ

/-- The field with the contents of its value forgotten. -/
def skel (pp : StructField) : StructField := { pp with val := pp.val.erase }

/-- The flag with the contents of its default forgotten. -/
def Flag.core (fl : Flag) : Flag := { fl with Default := fl.Default.erase }

/-- The flag set with the contents of the defaults forgotten. -/
def FlagSet.core (f : FlagSet) : FlagSet := { f with formal := f.formal.map Flag.core }

/-- The state of the walk with the contents of all values forgotten. -/
def WalkState.core (st : WalkState) : WalkState :=
  { st with ssvalue := st.ssvalue.map skel, flags := st.flags.core }

/-- A sequence of stores through field addresses, first to last. -/
def applyStores (stores : List (Nat × Value)) (rec : Record) : Record :=
  stores.foldl (fun r p => store r p.1 p.2) rec

/-- The last value that a sequence of stores writes to field `i`, if any. -/
def lastStore (stores : List (Nat × Value)) (i : Nat) : Option Value :=
  (stores.reverse.find? (fun p => decide (p.1 = i))).map Prod.snd

/-- The field as lines 29-117 leave it: the field at the index `k` of the usage field holds
the usage text, every other field is as the walk left it. -/
def preField (lib : Lib) (text : GoString) (k i : Nat) (pp : StructField) : StructField :=
  if i = k then { pp with val := pp.val.withText text } else seedField lib pp

/-- The zero value of the type that a flag of this kind points at. -/
def FlagKind.zero : FlagKind → Value
  | .stringValue => .string []
  | .intValue => .int 0
  | .boolValue => .bool false
  | .int64Value => .int64 0
  | .float64Value => .float64 0

/-- What `flag.Value.Set(value)` of a flag of kind `kind` stores, and whether it returned no
error. -/
def setValue (lib : Lib) (kind : FlagKind) (value : GoString) : Value × Bool :=
  match kind with
  | .stringValue => (.string value, true)
  | .intValue => (.int (lib.ParseIntBase0 value).1, (lib.ParseIntBase0 value).2)
  | .boolValue => (.bool (ParseBool value).1, (ParseBool value).2)
  | .int64Value => (.int64 (lib.ParseIntBase0 value).1, (lib.ParseIntBase0 value).2)
  | .float64Value => (.float64 (lib.ParseFloat value).1, (lib.ParseFloat value).2)

/-- How two runs of a step of the flag parser are related when the flag sets agree but for
the defaults: same outcome, and the same stores applied to the two structs. -/
structure Uniform (f g : FlagSet) (rec rec2 : Record) (a b : ParseStep) : Prop where
  seen : a.seen = b.seen
  err : a.err = b.err
  core : a.f.core = b.f.core
  stores : ∃ L : List (Nat × Value), a.ssvalue = applyStores L rec ∧
    b.ssvalue = applyStores L rec2 ∧
    ∀ p ∈ L, ∃ fl ∈ f.formal, fl.target = p.1 ∧ p.2.erase = fl.kind.zero

/-- What a sequence of stores whose last store to the field wrote `o` makes of a field. -/
def overStore (o : Option Value) (y : Option StructField) : Option StructField :=
  match o with
  | none => y
  | some v => y.map (fun pp => { pp with val := v })

/-- What the copy of lines 127-130 makes of a field: `c` says whether `argsptr` points at
it, `w` is the value copied. -/
def capture (c : Bool) (w : Value) (y : Option StructField) : Option StructField :=
  if c then y.map (fun pp => { pp with val := w }) else y

/-- A struct with a string flag that has a default, and a `[]string` field. -/
def recIdem : Record :=
  [⟨B "Usage", [], B "demo", false, .string []⟩,
   ⟨B "Name", [], B "n | bob", false, .string []⟩,
   ⟨B "Rest", [], [], false, .strings []⟩]

/-- A struct with two string fields of the blank name `_`, each with a one-part tag. -/
def recBlankTwice : Record :=
  [⟨B "Usage", [], B "demo", false, .string []⟩,
   ⟨B "_", B "main", B "a", false, .string []⟩,
   ⟨B "_", B "main", B "b", false, .string []⟩]

/-- A struct whose last `[]string` field is embedded (a field of an alias of `[]string`). -/
def recEmbeddedSlice : Record :=
  [⟨B "Usage", [], B "demo", false, .string []⟩,
   ⟨B "Args", [], [], false, .strings [B "old"]⟩,
   ⟨B "Strs", [], [], true, .strings [B "emb"]⟩]

/-- A struct with an embedded int field (a field of an alias of `int`) that has a tag. -/
def recEmbeddedInt : Record :=
  [⟨B "Usage", [], B "demo", false, .string []⟩,
   ⟨B "Int", [], B "n | oops", true, .int 7⟩]

/-! # Theorems -/

theorem Contains_singleton (s : GoString) (c : Nat) : Contains s [c] = true ↔ c ∈ s := by
  induction s with
  | nil => simp [Contains]
  | cons b s ih =>
    simp only [Contains, Bool.or_eq_true, ih, List.mem_cons]
    simp [List.isPrefixOf]

theorem letters_eq : letters =
    [97, 98, 99, 100, 101, 102, 103, 104, 105, 106, 107, 108, 109, 110, 111, 112, 113, 114,
     115, 116, 117, 118, 119, 120, 121, 122, 65, 66, 67, 68, 69, 70, 71, 72, 73, 74, 75, 76, 77,
     78, 79, 80, 81, 82, 83, 84, 85, 86, 87, 88, 89, 90] := by decide

theorem Contains_letters (c : Nat) :
    Contains letters [c] = true ↔ ((65 ≤ c ∧ c ≤ 90) ∨ (97 ≤ c ∧ c ≤ 122)) := by
  rw [Contains_singleton, letters_eq]
  simp only [List.mem_cons, List.mem_singleton, List.not_mem_nil, or_false]
  omega


theorem splitOnFuel_single (d : Nat) (s : GoString) :
    ∀ (fuel : Nat) (cur : GoString), s.length < fuel →
      splitOnFuel [d] fuel cur s = (cur.reverse ++ (splitAux d s).1) :: (splitAux d s).2 := by
  induction s with
  | nil =>
    intro fuel cur h
    cases fuel with
    | zero => simp at h
    | succ n => simp [splitOnFuel, splitAux]
  | cons b s ih =>
    intro fuel cur h
    cases fuel with
    | zero => simp at h
    | succ n =>
      have hn : s.length < n := by simpa using h
      by_cases hb : b = d
      · subst hb
        simp [splitOnFuel, splitAux, List.isPrefixOf, ih n [] hn]
      · have hd : ¬ d = b := fun e => hb e.symm
        simp [splitOnFuel, splitAux, List.isPrefixOf, hb, hd, ih n (b :: cur) hn]

theorem SplitOn_single (s : GoString) (d : Nat) : SplitOn s [d] = Split s d := by
  simp [SplitOn, Split, splitOnFuel_single d s (s.length + 1) [] (Nat.lt_succ_self _)]

theorem firstCharWidth_ascii (c : Nat) (rest : GoString) (h : c < 0x80) :
    firstCharWidth (c :: rest) = 1 := by
  unfold firstCharWidth
  rcases rest with _ | ⟨b1, _ | ⟨b2, _ | ⟨b3, t⟩⟩⟩ <;> simp only [] <;> split_ifs <;> omega

/-- C1 (amended): for a tag whose trimmed text `c :: rest` is non-empty, `parts` is the
split of the whole trimmed text on the pipe when the first byte `c` is an ASCII letter, and
otherwise the split of `rest` on the byte `c`; when `c` is an ASCII character this is the
split the specification describes. -/
theorem C1_delimiter_is_first_byte (rawTag : GoString) (c : Nat) (rest : GoString)
    (h : TrimSpace rawTag = c :: rest) :
    tagParts rawTag =
        some (if (65 ≤ c ∧ c ≤ 90) ∨ (97 ≤ c ∧ c ≤ 122) then Split (c :: rest) 124
          else Split rest c) ∧
      (c < 0x80 → tagParts rawTag = claimedTagParts rawTag) := by
  have hl := Contains_letters c
  constructor
  · simp only [tagParts, h, tagSplit, splitTag, splitChar]
    by_cases hc : (65 ≤ c ∧ c ≤ 90) ∨ (97 ≤ c ∧ c ≤ 122)
    · simp [hc, hl.2 hc]
    · have : ¬ Contains letters [c] = true := fun e => hc (hl.1 e)
      simp [hc, this]
  · intro hascii
    simp only [tagParts, claimedTagParts, h, tagSplit, splitTag, splitChar,
      firstCharWidth_ascii c rest hascii]
    by_cases hc : (65 ≤ c ∧ c ≤ 90) ∨ (97 ≤ c ∧ c ≤ 122)
    · simp [hc, hl.2 hc, isASCIILetter, SplitOn_single]
    · have : ¬ Contains letters [c] = true := fun e => hc (hl.1 e)
      simp [hc, this, isASCIILetter, SplitOn_single]

/-- C1 at the tag `"! a ! b"`. -/
theorem C1_delimiter_is_first_byte_witness :
    tagParts (B "! a ! b") =
        some (if (65 ≤ 33 ∧ 33 ≤ 90) ∨ (97 ≤ 33 ∧ 33 ≤ 122) then Split (33 :: B " a ! b") 124
          else Split (B " a ! b") 33) ∧
      (33 < 0x80 → tagParts (B "! a ! b") = claimedTagParts (B "! a ! b")) :=
  C1_delimiter_is_first_byte (B "! a ! b") 33 (B " a ! b") (by decide)

/-- C1 as stated fails for a tag that starts with a non-ASCII character: for `"éaéb"` the
code splits on the byte `0xC3`, the first half of `é`, and yields pieces that start with
the stray byte `0xA9`, where the specification's rule yields `"a"` and `"b"`. -/
theorem C1_first_character_counterexample :
    tagParts (B "éaéb") = some [[0xA9, 0x61], [0xA9, 0x62]] ∧
      claimedTagParts (B "éaéb") = some [B "a", B "b"] ∧
      tagParts (B "éaéb") ≠ claimedTagParts (B "éaéb") := by
  decide

/-! ## Stores and the frame of one loop iteration -/

theorem store_length (r : Record) (i : Nat) (v : Value) : (store r i v).length = r.length := by
  induction r generalizing i with
  | nil => simp [store]
  | cons pp r ih => cases i <;> simp [store, ih]

theorem store_get?_ne (r : Record) (i j : Nat) (v : Value) (h : j ≠ i) :
    (store r i v)[j]? = r[j]? := by
  induction r generalizing i j with
  | nil => simp [store]
  | cons pp r ih =>
    cases i with
    | zero =>
      cases j with
      | zero => exact absurd rfl h
      | succ j => simp [store]
    | succ i =>
      cases j with
      | zero => simp [store]
      | succ j =>
        have : j ≠ i := fun e => h (by rw [e])
        simpa [store] using ih i j this

theorem store_get?_eq (r : Record) (i : Nat) (v : Value) :
    (store r i v)[i]? = (r[i]?).map (fun pp => { pp with val := v }) := by
  induction r generalizing i with
  | nil => simp [store]
  | cons pp r ih =>
    cases i with
    | zero => simp [store]
    | succ i => simpa [store] using ih i

theorem store_desc (r : Record) (i : Nat) (v : Value) :
    (store r i v).map descOf = r.map descOf := by
  induction r generalizing i with
  | nil => simp [store]
  | cons pp r ih => cases i <;> simp [store, ih, descOf]

theorem store_same (r : Record) (i : Nat) (pp : StructField) (h : r[i]? = some pp) :
    store r i pp.val = r := by
  induction r generalizing i with
  | nil => simp [store]
  | cons q r ih =>
    cases i with
    | zero =>
      simp at h
      subst h
      simp [store]
    | succ i =>
      have h2 : r[i]? = some pp := by simpa using h
      simp [store, ih i h2]

theorem desc_get? (a b : Record) (h : a.map descOf = b.map descOf) (j : Nat) :
    a[j]?.map descOf = b[j]?.map descOf := by
  have := congrArg (fun l => l[j]?) h
  simpa using this

theorem name_get? (a b : Record) (h : a.map descOf = b.map descOf) (j : Nat) :
    (a[j]?).map (·.Name) = (b[j]?).map (·.Name) := by
  have := congrArg (Option.map (fun d => d.1)) (desc_get? a b h j)
  simpa [descOf, Function.comp_def] using this


theorem Frame.refl (ii : Nat) (st : WalkState) : Frame ii st st :=
  ⟨fun _ _ => rfl, rfl, fun _ h => Or.inl h, fun _ h => h, rfl, rfl, rfl, fun h => h,
    fun _ _ => rfl⟩

theorem Frame.trans {ii : Nat} {a b c : WalkState} (h1 : Frame ii a b) (h2 : Frame ii b c) :
    Frame ii a c where
  others j hj := (h2.others j hj).trans (h1.others j hj)
  desc := h2.desc.trans h1.desc
  formal_new fl hfl := by
    rcases h2.formal_new fl hfl with h | ⟨ht, hn⟩
    · exact h1.formal_new fl h
    · right
      refine ⟨ht, ?_⟩
      rw [← name_get? _ _ h1.desc ii]
      exact hn
  formal_old fl hfl := h2.formal_old fl (h1.formal_old fl hfl)
  actual := h2.actual.trans h1.actual
  parsed := h2.parsed.trans h1.parsed
  argsptr := h2.argsptr.trans h1.argsptr
  bool h := h2.bool (h1.bool h)
  sticky p hp := by
    have e1 := h1.sticky p hp
    subst e1
    exact h2.sticky p hp

theorem frame_SetValue (st : WalkState) (ii : Nat) (v : Value) :
    Frame ii st (st.SetValue ii v) := by
  unfold WalkState.SetValue
  split
  · exact Frame.refl _ _
  · split
    · exact Frame.refl _ _
    · split
      · exact ⟨fun j hj => store_get?_ne _ _ _ _ hj, store_desc _ _ _, fun _ h => Or.inl h,
          fun _ h => h, rfl, rfl, rfl, fun h => h, fun p hp => by simp_all⟩
      · exact ⟨fun _ _ => rfl, rfl, fun _ h => Or.inl h, fun _ h => h, rfl, rfl, rfl,
          fun h => h, fun p hp => by simp_all⟩

theorem frame_flagVar (st : WalkState) (kind : FlagKind) (ii : Nat) (name : GoString)
    (v : Value) (usage : GoString) (hname : (st.ssvalue[ii]?).map (·.Name) = some name) :
    Frame ii st (st.flagVar kind ii name v usage) := by
  unfold WalkState.flagVar
  split
  · exact Frame.refl _ _
  · split
    · exact ⟨fun j hj => store_get?_ne _ _ _ _ hj, store_desc _ _ _, fun _ h => Or.inl h,
        fun _ h => h, rfl, rfl, rfl, fun h => h, fun p hp => by simp_all⟩
    · refine ⟨fun j hj => store_get?_ne _ _ _ _ hj, store_desc _ _ _, ?_, ?_, rfl, rfl, rfl,
        fun h => h, fun p hp => by simp_all⟩
      · intro fl hfl
        simp only [List.mem_append, List.mem_singleton] at hfl
        rcases hfl with h | h
        · exact Or.inl h
        · subst h
          exact Or.inr ⟨rfl, hname⟩
      · intro fl hfl
        simp [hfl]

theorem frame_markBool (st : WalkState) (ii : Nat) : Frame ii st st.markBool := by
  unfold WalkState.markBool
  split
  · exact Frame.refl _ _
  · exact ⟨fun _ _ => rfl, rfl, fun _ h => Or.inl h, fun _ h => h, rfl, rfl, rfl,
      fun _ => rfl, fun p hp => by simp_all⟩


theorem frame_registerCurrent (st : WalkState) (ii : Nat) (pp : StructField)
    (part0 : GoString) (hpp : st.ssvalue[ii]? = some pp) :
    Frame ii st (registerCurrent ii pp part0 st) := by
  have hname : (st.ssvalue[ii]?).map (·.Name) = some pp.Name := by simp [hpp]
  unfold registerCurrent
  split
  · exact frame_flagVar _ _ _ _ _ _ hname
  · exact frame_flagVar _ _ _ _ _ _ hname
  · exact (frame_flagVar _ _ _ _ _ _ hname).trans (frame_markBool _ _)
  · exact frame_flagVar _ _ _ _ _ _ hname
  · exact frame_flagVar _ _ _ _ _ _ hname
  · exact Frame.refl _ _

theorem frame_setThenVar (st : WalkState) (kind : FlagKind) (ii : Nat) (pp : StructField)
    (v : Value) (usage : GoString) (hpp : st.ssvalue[ii]? = some pp) :
    Frame ii st ((st.SetValue ii v).flagVar kind ii pp.Name v usage) := by
  have h1 := frame_SetValue st ii v
  refine h1.trans (frame_flagVar _ _ _ _ _ _ ?_)
  rw [name_get? _ _ h1.desc ii]
  simp [hpp]

theorem frame_registerDefault (lib : Lib) (st : WalkState) (ii : Nat) (pp : StructField)
    (part0 part1 : GoString) (hpp : st.ssvalue[ii]? = some pp) :
    Frame ii st (registerDefault lib ii pp part0 part1 st) := by
  unfold registerDefault
  split
  · exact frame_setThenVar _ _ _ _ _ _ hpp
  · exact frame_setThenVar _ _ _ _ _ _ hpp
  · exact (frame_setThenVar _ _ _ _ _ _ hpp).trans (frame_markBool _ _)
  · exact frame_setThenVar _ _ _ _ _ _ hpp
  · exact frame_setThenVar _ _ _ _ _ _ hpp
  · exact Frame.refl _ _

theorem frame_moreusage (st : WalkState) (ii : Nat) (u : GoString) (hp : st.panic = none) :
    Frame ii st { st with moreusage := u } :=
  ⟨fun _ _ => rfl, rfl, fun _ h => Or.inl h, fun _ h => h, rfl, rfl, rfl, fun h => h,
    fun p hp' => by simp [hp] at hp'⟩

theorem frame_bindField (lib : Lib) (st : WalkState) (ii : Nat) (pp : StructField)
    (parts : List GoString) (hpp : st.ssvalue[ii]? = some pp) (hp : st.panic = none) :
    Frame ii st (bindField lib ii pp parts st) := by
  unfold bindField
  dsimp only
  have hu : Frame ii st (if parts.length > 0 then
      { st with moreusage := st.moreusage ++ usageLine pp parts } else st) := by
    split
    · exact frame_moreusage _ _ _ hp
    · exact Frame.refl _ _
  have hpp1 : (if parts.length > 0 then
      { st with moreusage := st.moreusage ++ usageLine pp parts } else st).ssvalue[ii]? =
      some pp := by
    split <;> exact hpp
  by_cases h1 : parts.length = 1
  · have h2 : ¬ parts.length = 2 := by omega
    rw [if_pos h1, if_neg h2]
    exact hu.trans (frame_registerCurrent _ _ _ _ hpp1)
  · by_cases h2 : parts.length = 2
    · rw [if_neg h1, if_pos h2]
      exact hu.trans (frame_registerDefault _ _ _ _ _ _ hpp1)
    · rw [if_neg h1, if_neg h2]
      exact hu

/-- Either field `ii` is processed within its frame, or it is the `[]string` field that
`argsptr` is pointed at. -/
theorem frame_walkField (lib : Lib) (ii : Nat) (st : WalkState) :
    Frame ii st (walkField lib ii st) ∨
      (walkField lib ii st = { st with argsptr := some ii } ∧ st.panic = none ∧
        ∃ pp l, st.ssvalue[ii]? = some pp ∧ pp.val = .strings l ∧ pp.Anonymous = false ∧
          pp.Name ≠ B "Usage") := by
  unfold walkField
  by_cases hp : st.panic.isSome = true
  · simp only [hp, if_true]
    exact Or.inl (Frame.refl _ _)
  · simp only [hp]
    have hp' : st.panic = none := by simpa using hp
    cases hpp : st.ssvalue[ii]? with
    | none => exact Or.inl (Frame.refl _ _)
    | some pp =>
      simp only []
      by_cases ha : pp.Anonymous = true
      · simp only [ha, if_true]
        exact Or.inl (Frame.refl _ _)
      · by_cases hn : pp.Name = B "Usage"
        · simp only [ha, hn, if_true]
          exact Or.inl (Frame.refl _ _)
        · simp only [ha, hn]
          cases hv : pp.val with
          | strings l =>
            right
            exact ⟨by simp, hp', pp, l, rfl, hv, by simpa using ha, hn⟩
          | _ =>
            left
            simp only []
            cases hparts : tagParts pp.Tag with
            | none => exact Frame.refl _ _
            | some parts => exact frame_bindField lib st ii pp parts hpp hp'

/-! ## The walk over the fields -/

theorem store_store (r : Record) (i : Nat) (v w : Value) :
    store (store r i v) i w = store r i w := by
  induction r generalizing i with
  | nil => simp [store]
  | cons pp r ih => cases i <;> simp [store, ih]

theorem registerCurrent_eq (ii : Nat) (pp : StructField) (part0 : GoString) (st : WalkState)
    (hp : st.panic = none) (hpp : st.ssvalue[ii]? = some pp) (hb : pp.val.bindable = true) :
    registerCurrent ii pp part0 st =
      if (st.flags.lookup pp.Name).isSome then { st with panic := some .flagRedefined }
      else { st with
        flags := { st.flags with formal := st.flags.formal ++ [flagFor ii pp part0 pp.val] }
        hasBoolArg := st.hasBoolArg || pp.val.isBool } := by
  have hs : ∀ v, v = pp.val → store st.ssvalue ii v = st.ssvalue := by
    intro v hv; rw [hv]; exact store_same _ _ _ hpp
  cases st with
  | mk ssvalue moreusage flags argsptr hasBoolArg panic =>
    simp only at hp hpp hs
    subst hp
    unfold registerCurrent
    cases hv : pp.val <;> simp [hv, Value.bindable] at hb ⊢ <;>
      by_cases hl : (flags.lookup pp.Name).isSome = true <;>
      simp [WalkState.flagVar, WalkState.markBool, hl, hs _ hv.symm, flagFor, hv,
        Value.flagKind, Value.TypeString, Value.isBool] <;> rfl


theorem registerDefault_eq (lib : Lib) (ii : Nat) (pp : StructField) (part0 part1 : GoString)
    (st : WalkState) (hp : st.panic = none) (hpp : st.ssvalue[ii]? = some pp)
    (hb : pp.val.bindable = true) :
    registerDefault lib ii pp part0 part1 st =
      if pp.PkgPath = [] then
        if (st.flags.lookup pp.Name).isSome then
          { st with
            ssvalue := store st.ssvalue ii (convertDefault lib pp.val part1)
            panic := some .flagRedefined }
        else { st with
          ssvalue := store st.ssvalue ii (convertDefault lib pp.val part1)
          flags := { st.flags with formal := st.flags.formal ++
            [flagFor ii pp part0 (convertDefault lib pp.val part1)] }
          hasBoolArg := st.hasBoolArg || pp.val.isBool }
      else { st with panic := some .reflectUnexported } := by
  cases st with
  | mk ssvalue moreusage flags argsptr hasBoolArg panic =>
    simp only at hp hpp
    subst hp
    unfold registerDefault
    cases hv : pp.val <;> simp [hv, Value.bindable] at hb ⊢ <;>
      by_cases hx : pp.PkgPath = [] <;>
      by_cases hl : (flags.lookup pp.Name).isSome = true <;>
      simp [WalkState.flagVar, WalkState.markBool, WalkState.SetValue, hl, hx, hpp, flagFor, hv,
        Value.flagKind, Value.TypeString, Value.isBool, convertDefault, store_store] <;> rfl

/-- What the loop body does with a bindable field that has a non-blank tag. -/
theorem walkField_bindable (lib : Lib) (ii : Nat) (pp : StructField) (parts : List GoString)
    (st : WalkState) (hp : st.panic = none) (hpp : st.ssvalue[ii]? = some pp)
    (ha : pp.Anonymous = false) (hn : pp.Name ≠ B "Usage") (hb : pp.val.bindable = true)
    (ht : tagParts pp.Tag = some parts) :
    walkField lib ii st = bindField lib ii pp parts st := by
  unfold walkField
  simp only [hp, hpp, ha, hn, ht, Option.isSome_none, Bool.false_eq_true, if_false]
  cases hv : pp.val <;> simp [hv, Value.bindable] at hb ⊢


theorem walkUpTo_succ (lib : Lib) (prog : GoString) (r : Record) (n : Nat) :
    walkUpTo lib prog r (n + 1) = walkField lib n (walkUpTo lib prog r n) := by
  simp [walkUpTo, List.range_succ, List.foldl_append]

theorem walkInv_step (lib : Lib) (r : Record) (n : Nat) (st : WalkState)
    (h : WalkInv r n st) : WalkInv r (n + 1) (walkField lib n st) := by
  rcases frame_walkField lib n st with hf | ⟨he, _, pp, l, hpp, hv, _, _⟩
  · refine ⟨?_, hf.desc.trans h.desc, ?_, hf.actual.trans h.actual,
      hf.parsed.trans h.parsed, ?_⟩
    · intro j hj
      rw [hf.others j (by omega)]
      exact h.later j (by omega)
    · intro fl hfl
      rcases hf.formal_new fl hfl with hold | ⟨ht, hname⟩
      · exact ⟨Nat.lt_succ_of_lt (h.formal fl hold).1, (h.formal fl hold).2⟩
      · refine ⟨by omega, ?_⟩
        rw [ht, ← h.later n (Nat.le_refl n)]
        exact hname
    · intro k hk
      rw [hf.argsptr] at hk
      obtain ⟨h1, h2⟩ := h.argsptr k hk
      exact ⟨Nat.lt_succ_of_lt h1, h2⟩
  · rw [he]
    refine ⟨fun j hj => h.later j (by omega), h.desc, ?_, h.actual, h.parsed, ?_⟩
    · intro fl hfl
      exact ⟨Nat.lt_succ_of_lt (h.formal fl hfl).1, (h.formal fl hfl).2⟩
    · intro k hk
      simp only [Option.some.injEq] at hk
      subst hk
      refine ⟨Nat.lt_succ_self _, pp, l, ?_, hv⟩
      rw [← h.later _ (Nat.le_refl _)]
      exact hpp

theorem walkInv_walkUpTo (lib : Lib) (prog : GoString) (r : Record) (n : Nat) :
    WalkInv r n (walkUpTo lib prog r n) := by
  induction n with
  | zero =>
    exact ⟨fun _ _ => rfl, rfl, fun fl hfl => by simp [walkUpTo, initState, NewFlagSet] at hfl,
      rfl, rfl, fun k hk => by simp [walkUpTo, initState] at hk⟩
  | succ n ih =>
    rw [walkUpTo_succ]
    exact walkInv_step lib r n _ ih

/-- Later iterations keep what earlier ones did to fields before them. -/
theorem walkUpTo_mono (lib : Lib) (prog : GoString) (r : Record) (m n : Nat) (h : m ≤ n) :
    (∀ j, j < m → (walkUpTo lib prog r n).ssvalue[j]? = (walkUpTo lib prog r m).ssvalue[j]?) ∧
    (∀ fl ∈ (walkUpTo lib prog r m).flags.formal, fl ∈ (walkUpTo lib prog r n).flags.formal) ∧
    ((walkUpTo lib prog r m).hasBoolArg = true → (walkUpTo lib prog r n).hasBoolArg = true) ∧
    ((walkUpTo lib prog r n).panic = none → (walkUpTo lib prog r m).panic = none) := by
  induction n, h using Nat.le_induction with
  | base => exact ⟨fun _ _ => rfl, fun _ h => h, fun h => h, fun h => h⟩
  | succ n hmn ih =>
    obtain ⟨i1, i2, i3, i4⟩ := ih
    rw [walkUpTo_succ]
    rcases frame_walkField lib n (walkUpTo lib prog r n) with hf | ⟨he, hnp, _⟩
    · refine ⟨fun j hj => ?_, fun fl hfl => hf.formal_old fl (i2 fl hfl),
        fun hb => hf.bool (i3 hb), fun hp => ?_⟩
      · rw [hf.others j (by omega)]
        exact i1 j hj
      · apply i4
        cases hq : (walkUpTo lib prog r n).panic with
        | none => rfl
        | some p =>
          rw [hf.sticky p hq] at hp
          rw [hq] at hp
          exact absurd hp (by simp)
    · rw [he]
      exact ⟨i1, i2, i3, fun _ => i4 hnp⟩

theorem bindField_one (lib : Lib) (ii : Nat) (pp : StructField) (p0 : GoString)
    (st : WalkState) (hp : st.panic = none) (hpp : st.ssvalue[ii]? = some pp)
    (hb : pp.val.bindable = true) :
    bindField lib ii pp [p0] st =
      if (st.flags.lookup pp.Name).isSome then
        { st with
          moreusage := st.moreusage ++ usageLine pp [p0]
          panic := some .flagRedefined }
      else { st with
        moreusage := st.moreusage ++ usageLine pp [p0]
        flags := { st.flags with
          formal := st.flags.formal ++ [flagFor ii pp (TrimSpace p0) pp.val] }
        hasBoolArg := st.hasBoolArg || pp.val.isBool } := by
  have h1 : ([p0] : List GoString).length = 1 := rfl
  have h2 : ¬ ([p0] : List GoString).length = 2 := by simp
  have h0 : ([p0] : List GoString).length > 0 := by simp
  unfold bindField
  dsimp only
  rw [if_pos h1, if_neg h2, if_pos h0, registerCurrent_eq ii pp (partZero [p0])
    { st with moreusage := st.moreusage ++ usageLine pp [p0] } hp hpp hb]
  simp [partZero]

theorem bindField_two (lib : Lib) (ii : Nat) (pp : StructField) (p0 p1 : GoString)
    (st : WalkState) (hp : st.panic = none) (hpp : st.ssvalue[ii]? = some pp)
    (hb : pp.val.bindable = true) :
    bindField lib ii pp [p0, p1] st =
      if pp.PkgPath = [] then
        if (st.flags.lookup pp.Name).isSome then
          { st with
            ssvalue := store st.ssvalue ii (convertDefault lib pp.val (TrimSpace p1))
            moreusage := st.moreusage ++ usageLine pp [p0, p1]
            panic := some .flagRedefined }
        else { st with
          ssvalue := store st.ssvalue ii (convertDefault lib pp.val (TrimSpace p1))
          moreusage := st.moreusage ++ usageLine pp [p0, p1]
          flags := { st.flags with formal := st.flags.formal ++
            [flagFor ii pp (TrimSpace p0) (convertDefault lib pp.val (TrimSpace p1))] }
          hasBoolArg := st.hasBoolArg || pp.val.isBool }
      else { st with
        moreusage := st.moreusage ++ usageLine pp [p0, p1]
        panic := some .reflectUnexported } := by
  have h1 : ¬ ([p0, p1] : List GoString).length = 1 := by simp
  have h2 : ([p0, p1] : List GoString).length = 2 := rfl
  have h0 : ([p0, p1] : List GoString).length > 0 := by simp
  unfold bindField
  dsimp only
  rw [if_neg h1, if_pos h2, if_pos h0, registerDefault_eq lib ii pp (partZero [p0, p1])
    (partOne [p0, p1]) { st with moreusage := st.moreusage ++ usageLine pp [p0, p1] } hp hpp hb]
  simp [partZero, partOne]


theorem getElem?_lt {α : Type} (l : List α) (i : Nat) (a : α) (h : l[i]? = some a) :
    i < l.length := by
  by_contra hc
  rw [List.getElem?_eq_none (by omega)] at h
  exact absurd h (by simp)

/-- A bindable field whose tag has a single part: the walk leaves the field as it was and,
unless it panics, registers a flag whose default is the field's value. -/
theorem walk_one_part (lib : Lib) (prog : GoString) (r : Record) (i : Nat) (pp : StructField)
    (p0 : GoString) (hpp : r[i]? = some pp) (ha : pp.Anonymous = false)
    (hn : pp.Name ≠ B "Usage") (hb : pp.val.bindable = true)
    (ht : tagParts pp.Tag = some [p0]) :
    (walk lib prog r).ssvalue[i]? = some pp ∧
      ((walk lib prog r).panic = none →
        flagFor i pp (TrimSpace p0) pp.val ∈ (walk lib prog r).flags.formal ∧
        (pp.val.isBool = true → (walk lib prog r).hasBoolArg = true)) := by
  have hi : i + 1 ≤ r.length := getElem?_lt r i pp hpp
  obtain ⟨m1, m2, m3, m4⟩ := walkUpTo_mono lib prog r (i + 1) r.length hi
  obtain ⟨_, _, _, n4⟩ := walkUpTo_mono lib prog r i (i + 1) (Nat.le_succ i)
  have hinv := walkInv_walkUpTo lib prog r i
  have hcur : (walkUpTo lib prog r i).ssvalue[i]? = some pp := by
    rw [hinv.later i (Nat.le_refl i)]; exact hpp
  unfold walk
  rw [m1 i (Nat.lt_succ_self i)]
  rw [walkUpTo_succ] at m2 m3 m4 n4 ⊢
  cases hq : (walkUpTo lib prog r i).panic with
  | some p =>
    have hst : walkField lib i (walkUpTo lib prog r i) = walkUpTo lib prog r i := by
      unfold walkField; simp [hq]
    rw [hst] at m4 ⊢
    exact ⟨hcur, fun hok => absurd (m4 hok) (by simp [hq])⟩
  | none =>
    rw [walkField_bindable lib i pp [p0] _ hq hcur ha hn hb ht,
      bindField_one lib i pp p0 _ hq hcur hb] at m2 m3 m4 ⊢
    by_cases hl : ((walkUpTo lib prog r i).flags.lookup pp.Name).isSome = true
    · simp only [hl, if_true] at m4 ⊢
      exact ⟨hcur, fun hok => absurd (m4 hok) (by simp)⟩
    · simp only [hl] at m2 m3 ⊢
      refine ⟨hcur, fun _ => ⟨m2 _ (by simp), fun hbool => m3 (by simp [hbool])⟩⟩

/-- A bindable field whose tag has exactly two parts: unless the walk panics, it leaves the
field holding the converted default and registers a flag with that default. -/
theorem walk_two_parts (lib : Lib) (prog : GoString) (r : Record) (i : Nat)
    (pp : StructField) (p0 p1 : GoString) (hpp : r[i]? = some pp) (ha : pp.Anonymous = false)
    (hn : pp.Name ≠ B "Usage") (hb : pp.val.bindable = true)
    (ht : tagParts pp.Tag = some [p0, p1]) (hok : (walk lib prog r).panic = none) :
    (walk lib prog r).ssvalue[i]? =
        some { pp with val := convertDefault lib pp.val (TrimSpace p1) } ∧
      flagFor i pp (TrimSpace p0) (convertDefault lib pp.val (TrimSpace p1)) ∈
        (walk lib prog r).flags.formal ∧
      (pp.val.isBool = true → (walk lib prog r).hasBoolArg = true) ∧
      pp.PkgPath = [] := by
  have hi : i + 1 ≤ r.length := getElem?_lt r i pp hpp
  obtain ⟨m1, m2, m3, m4⟩ := walkUpTo_mono lib prog r (i + 1) r.length hi
  obtain ⟨_, _, _, n4⟩ := walkUpTo_mono lib prog r i (i + 1) (Nat.le_succ i)
  have hinv := walkInv_walkUpTo lib prog r i
  have hcur : (walkUpTo lib prog r i).ssvalue[i]? = some pp := by
    rw [hinv.later i (Nat.le_refl i)]; exact hpp
  have hq1 := m4 hok
  have hq := n4 hq1
  unfold walk
  rw [m1 i (Nat.lt_succ_self i)]
  rw [walkUpTo_succ] at m2 m3 hq1 ⊢
  rw [walkField_bindable lib i pp [p0, p1] _ hq hcur ha hn hb ht,
    bindField_two lib i pp p0 p1 _ hq hcur hb] at m2 m3 hq1 ⊢
  by_cases hx : pp.PkgPath = []
  · by_cases hl : ((walkUpTo lib prog r i).flags.lookup pp.Name).isSome = true
    · simp [hx, hl] at hq1
    · rw [if_pos hx, if_neg hl] at m2 m3 ⊢
      refine ⟨?_, m2 _ (by simp), fun hbool => m3 (by simp [hbool]), hx⟩
      simp [store_get?_eq, hcur]
  · simp [hx] at hq1

/-! ## The usage text and the flag parser -/

theorem FieldByName_spec (name : GoString) (r : Record) (k : Nat) (pp : StructField)
    (h : FieldByName name r = some (k, pp)) : r[k]? = some pp ∧ pp.Name = name := by
  induction r generalizing k with
  | nil => simp [FieldByName] at h
  | cons q r ih =>
    unfold FieldByName at h
    by_cases hq : q.Name = name
    · simp only [hq, if_true, Option.some.injEq, Prod.mk.injEq] at h
      obtain ⟨h1, h2⟩ := h
      subst h1 h2
      exact ⟨by simp, hq⟩
    · simp only [hq, if_false, Option.map_eq_some'] at h
      obtain ⟨⟨k', pp'⟩, h1, h2⟩ := h
      simp only [Prod.mk.injEq] at h2
      obtain ⟨h3, h4⟩ := h2
      subst h3 h4
      have := ih k' h1
      simpa using this

/-- The write of the usage text touches only a field named `Usage`. -/
theorem writeUsage_frame (prog : GoString) (st : WalkState) :
    (writeUsage prog st).flags = st.flags ∧
    (writeUsage prog st).argsptr = st.argsptr ∧
    (writeUsage prog st).hasBoolArg = st.hasBoolArg ∧
    (writeUsage prog st).moreusage = st.moreusage ∧
    (writeUsage prog st).ssvalue.map descOf = st.ssvalue.map descOf ∧
    ((writeUsage prog st).panic = none → st.panic = none) ∧
    (∀ (i : Nat) (pp : StructField), st.ssvalue[i]? = some pp → pp.Name ≠ B "Usage" →
      (writeUsage prog st).ssvalue[i]? = some pp) := by
  unfold writeUsage
  cases hq : st.panic with
  | some p => simp [hq]; intro i pp hi _; exact hi
  | none =>
    simp only [Option.isSome_none, Bool.false_eq_true, if_false]
    cases hf : FieldByName (B "Usage") st.ssvalue with
    | none => simp [hq]; intro i pp hi _; exact hi
    | some kp =>
      obtain ⟨k, q⟩ := kp
      obtain ⟨hk, hname⟩ := FieldByName_spec _ _ _ _ hf
      have hne : ∀ (i : Nat) (pp : StructField), st.ssvalue[i]? = some pp → pp.Name ≠ B "Usage" → i ≠ k := by
        intro i pp hi hn e
        subst e
        rw [hk] at hi
        simp only [Option.some.injEq] at hi
        subst hi
        exact hn hname
      simp only []
      by_cases hx : q.PkgPath = []
      · simp only [hx, if_true]
        cases hv : q.val <;> simp [hq, store_desc] <;> intro i pp hi hn <;>
          first
          | exact hi
          | (rw [store_get?_ne _ _ _ _ (hne i pp hi hn)]; exact hi)
      · simp [hx, hq]; intro i pp hi _; exact hi

theorem Flag.Set_store (lib : Lib) (fl : Flag) (value : GoString) (rec : Record) :
    ∃ w, (fl.Set lib value rec).1 = store rec fl.target w := by
  unfold Flag.Set
  cases fl.kind <;> exact ⟨_, rfl⟩

theorem lookup_spec (f : FlagSet) (name : GoString) (fl : Flag)
    (h : f.lookup name = some fl) : fl ∈ f.formal ∧ fl.Name = name := by
  unfold FlagSet.lookup at h
  exact ⟨List.mem_of_find?_eq_some h, by simpa using List.find?_some h⟩

theorem stepFrame_mk (i : Nat) (name : GoString) (f : FlagSet) (rec : Record) (seen : Bool)
    (err : Option FlagError) (args' actual' : List GoString) (rec' : Record)
    (hargs : args' <:+ f.args) (hshort : seen = true → args'.length < f.args.length)
    (hact : ∀ n ∈ f.actual, n ∈ actual') (hdesc : rec'.map descOf = rec.map descOf)
    (hno : seen = true → err = none)
    (hun : (∀ fl ∈ f.formal, fl.target = i → fl.Name = name) → err = none →
      name ∉ actual' → rec'[i]? = rec[i]?) :
    StepFrame i name f rec ⟨seen, err, { f with args := args', actual := actual' }, rec'⟩ :=
  ⟨rfl, rfl, hact, hshort, hargs, hdesc, hno, hun⟩

theorem Set_untouched (lib : Lib) (i : Nat) (name name1 : GoString) (f : FlagSet)
    (rec : Record) (fl : Flag) (value : GoString)
    (hflags : ∀ fl ∈ f.formal, fl.target = i → fl.Name = name)
    (hl : f.lookup name1 = some fl) (hne : name ≠ name1) :
    (fl.Set lib value rec).1[i]? = rec[i]? := by
  obtain ⟨w, hw⟩ := Flag.Set_store lib fl value rec
  obtain ⟨hmem, hnm⟩ := lookup_spec f name1 fl hl
  rw [hw]
  apply store_get?_ne
  intro e
  exact hne ((hflags fl hmem e.symm).symm.trans hnm)

theorem Set_desc (lib : Lib) (fl : Flag) (value : GoString) (rec : Record) :
    (fl.Set lib value rec).1.map descOf = rec.map descOf := by
  obtain ⟨w, hw⟩ := Flag.Set_store lib fl value rec
  rw [hw]
  exact store_desc _ _ _

theorem stepFrame_ite (i : Nat) (name : GoString) (f : FlagSet) (rec : Record) (c : Prop)
    [Decidable c] (a b : ParseStep) (ha : c → StepFrame i name f rec a)
    (hb : ¬ c → StepFrame i name f rec b) : StepFrame i name f rec (if c then a else b) := by
  by_cases h : c
  · rw [if_pos h]; exact ha h
  · rw [if_neg h]; exact hb h

theorem stepFrame_setFlag (lib : Lib) (i : Nat) (name : GoString) (f : FlagSet)
    (rec : Record) (s : GoString) (rest : List GoString) (name1 : GoString) (hasValue : Bool)
    (value : GoString) (hargs : f.args = s :: rest) :
    StepFrame i name f rec (setFlag lib { f with args := rest } rec name1 hasValue value) := by
  have hsuf : rest <:+ f.args := by rw [hargs]; exact List.suffix_cons s rest
  have hlen : rest.length < f.args.length := by rw [hargs]; simp
  have dropped : ∀ e rec', rec'.map descOf = rec.map descOf → e ≠ none →
      StepFrame i name f rec ⟨false, e, { f with args := rest }, rec'⟩ :=
    fun e rec' hd he => stepFrame_mk i name f rec false e rest f.actual rec' hsuf
      (fun h => by simp at h) (fun _ h => h) hd (fun h => by simp at h)
      (fun _ h => absurd h he)
  have seen : ∀ (fl : Flag) (v : GoString),
      FlagSet.lookup { f with args := rest } name1 = some fl →
      StepFrame i name f rec
        ⟨true, none, { f with args := rest, actual := name1 :: f.actual }, (fl.Set lib v rec).1⟩ :=
    fun fl v hl => stepFrame_mk i name f rec true none rest (name1 :: f.actual) _ hsuf
      (fun _ => hlen) (fun n h => List.mem_cons_of_mem _ h) (Set_desc lib fl v rec)
      (fun _ => rfl)
      (fun hflags _ hn => Set_untouched lib i name name1 { f with args := rest } rec fl v hflags hl
        (fun e => hn (by rw [e]; exact List.mem_cons_self _ _)))
  unfold setFlag
  cases hl : FlagSet.lookup { f with args := rest } name1 with
  | none =>
    exact stepFrame_ite _ _ _ _ _ _ _ (fun _ => dropped _ rec rfl (by simp))
      (fun _ => dropped _ rec rfl (by simp))
  | some fl =>
    simp only []
    by_cases hk : fl.kind = .boolValue
    · rw [if_pos hk]
      exact stepFrame_ite _ _ _ _ _ _ _ (fun _ => seen fl _ hl)
        (fun _ => dropped _ _ (Set_desc lib fl _ rec) (by simp))
    · rw [if_neg hk]
      cases hasValue with
      | true =>
        exact stepFrame_ite _ _ _ _ _ _ _ (fun _ => seen fl _ hl)
          (fun _ => dropped _ _ (Set_desc lib fl _ rec) (by simp))
      | false =>
        cases rest with
        | nil => exact dropped _ rec rfl (by simp)
        | cons next rest1 =>
          have hsuf1 : rest1 <:+ f.args := by
            rw [hargs]
            exact (List.suffix_cons next rest1).trans (List.suffix_cons s _)
          have hlen1 : rest1.length < f.args.length := by rw [hargs]; simp; omega
          refine stepFrame_ite _ _ _ _ _ _ _ (fun _ => ?_) (fun _ => ?_)
          · exact stepFrame_mk i name f rec true none rest1 (name1 :: f.actual) _ hsuf1
              (fun _ => hlen1) (fun n h => List.mem_cons_of_mem _ h) (Set_desc lib fl next rec)
              (fun _ => rfl)
              (fun hflags _ hn => Set_untouched lib i name name1 { f with args := next :: rest1 }
                rec fl next hflags hl (fun e => hn (by rw [e]; exact List.mem_cons_self _ _)))
          · exact stepFrame_mk i name f rec false (some .invalidValue) rest1 f.actual _ hsuf1
              (fun h => by simp at h) (fun _ h => h) (Set_desc lib fl next rec)
              (fun h => by simp at h) (fun _ h => by simp at h)

theorem stepFrame_parseOne (lib : Lib) (i : Nat) (name : GoString) (f : FlagSet)
    (rec : Record) : StepFrame i name f rec (parseOne lib f rec) := by
  have same : ∀ e, StepFrame i name f rec ⟨false, e, f, rec⟩ := fun e =>
    stepFrame_mk i name f rec false e f.args f.actual rec (List.suffix_refl _)
      (fun h => by simp at h) (fun _ h => h) rfl (fun h => by simp at h) (fun _ _ _ => rfl)
  unfold parseOne
  cases hargs : f.args with
  | nil => exact same none
  | cons s rest =>
    have hsuf : rest <:+ f.args := by rw [hargs]; exact List.suffix_cons s rest
    simp only []
    by_cases c1 : s.length < 2 ∨ s.head? ≠ some 45
    · rw [if_pos c1]; exact same none
    · rw [if_neg c1]
      by_cases c2 : (if s[1]? = some 45 then 2 else 1) = 2 ∧ s.length = 2
      · rw [if_pos c2]
        exact stepFrame_mk i name f rec false none rest f.actual rec hsuf
          (fun h => by simp at h) (fun _ h => h) rfl (fun h => by simp at h) (fun _ _ _ => rfl)
      · rw [if_neg c2]
        exact stepFrame_ite _ _ _ _ _ _ _ (fun _ => same _)
          (fun _ => stepFrame_setFlag lib i name f rec s rest _ _ _ hargs)

theorem stepFrame_parseLoop (lib : Lib) (i : Nat) (name : GoString) (fuel : Nat) :
    ∀ (f : FlagSet) (rec : Record),
      StepFrame i name f rec (parseLoop lib fuel f rec) ∧
        (parseLoop lib fuel f rec).seen = false := by
  induction fuel with
  | zero =>
    intro f rec
    exact ⟨⟨rfl, rfl, fun _ h => h, fun h => by simp [parseLoop] at h, List.suffix_refl _, rfl,
      fun h => by simp [parseLoop] at h, fun _ _ _ => rfl⟩, rfl⟩
  | succ n ih =>
    intro f rec
    have h1 := stepFrame_parseOne lib i name f rec
    unfold parseLoop
    simp only []
    by_cases hs : (parseOne lib f rec).seen = true
    · rw [if_pos hs]
      obtain ⟨h2, hseen⟩ := ih (parseOne lib f rec).f (parseOne lib f rec).ssvalue
      refine ⟨⟨h2.formal.trans h1.formal, h2.parsed.trans h1.parsed,
        fun n hn => h2.actual n (h1.actual n hn), fun h => ?_, h2.suffix.trans h1.suffix,
        h2.desc.trans h1.desc, fun h => ?_, fun hflags he hn => ?_⟩, hseen⟩
      · rw [hseen] at h; exact absurd h (by simp)
      · rw [hseen] at h; exact absurd h (by simp)
      · rw [h2.untouched (by rw [h1.formal]; exact hflags) he hn]
        exact h1.untouched hflags (h1.noerr hs) (fun hmem => hn (h2.actual name hmem))
    · rw [if_neg hs]
      exact ⟨h1, by simpa using hs⟩

/-- The fuel that `FlagSet.Parse` gives the loop is enough: more fuel changes nothing. -/
theorem parseLoop_stable (lib : Lib) (fuel : Nat) :
    ∀ (f : FlagSet) (rec : Record), f.args.length < fuel →
      parseLoop lib (fuel + 1) f rec = parseLoop lib fuel f rec := by
  induction fuel with
  | zero => intro f rec h; exact absurd h (Nat.not_lt_zero _)
  | succ n ih =>
    intro f rec h
    have h1 := (stepFrame_parseOne lib 0 [] f rec).shorter
    have e1 : parseLoop lib (n + 1 + 1) f rec =
        if (parseOne lib f rec).seen then
          parseLoop lib (n + 1) (parseOne lib f rec).f (parseOne lib f rec).ssvalue
        else parseOne lib f rec := rfl
    have e2 : parseLoop lib (n + 1) f rec =
        if (parseOne lib f rec).seen then
          parseLoop lib n (parseOne lib f rec).f (parseOne lib f rec).ssvalue
        else parseOne lib f rec := rfl
    rw [e1, e2]
    by_cases hs : (parseOne lib f rec).seen = true
    · rw [if_pos hs, if_pos hs]
      exact ih _ _ (by have := h1 hs; omega)
    · rw [if_neg hs, if_neg hs]

/-! ## Splitting, and the call as a whole -/

theorem splitAux_not_mem (sep : Nat) (s : GoString) (h : sep ∉ s) :
    splitAux sep s = (s, []) := by
  induction s with
  | nil => rfl
  | cons b s ih =>
    have hb : ¬ b = sep := fun e => h (by simp [e])
    have hs : sep ∉ s := fun e => h (List.mem_cons_of_mem _ e)
    simp [splitAux, hb, ih hs]

theorem Split_not_mem (sep : Nat) (s : GoString) (h : sep ∉ s) : Split s sep = [s] := by
  simp [Split, splitAux_not_mem sep s h]

theorem Split_append (sep : Nat) (pre post : GoString) (h : sep ∉ pre) :
    Split (pre ++ sep :: post) sep = pre :: Split post sep := by
  induction pre with
  | nil => simp [Split, splitAux]
  | cons b s ih =>
    have hb : ¬ b = sep := fun e => h (by simp [e])
    have hs : sep ∉ s := fun e => h (List.mem_cons_of_mem _ e)
    have := ih hs
    simp only [Split, List.cons.injEq] at this
    simp [Split, splitAux, hb, this.1, this.2]

theorem Split_once (sep : Nat) (pre post : GoString) (h1 : sep ∉ pre) (h2 : sep ∉ post) :
    Split (pre ++ sep :: post) sep = [pre, post] := by
  rw [Split_append sep pre post h1, Split_not_mem sep post h2]

/-- The number of parts is the number of delimiter occurrences plus one. -/
theorem Split_length (sep : Nat) (s : GoString) : (Split s sep).length = s.count sep + 1 := by
  induction s with
  | nil => simp [Split, splitAux]
  | cons b s ih =>
    simp only [Split, List.length_cons] at ih
    by_cases hb : b = sep
    · subst hb
      simp [Split, splitAux, ih]
    · have : ¬ (b == sep) = true := by simpa using hb
      simp [Split, splitAux, hb, ih, List.count_cons, this]

theorem tagParts_none_delim (rawTag : GoString) (c : Nat) (rest : GoString)
    (ht : TrimSpace rawTag = c :: rest) (h : splitChar c ∉ splitTag c rest) :
    tagParts rawTag = some [splitTag c rest] := by
  simp [tagParts, ht, tagSplit, Split_not_mem _ _ h]

theorem tagParts_one_delim (rawTag : GoString) (c : Nat) (rest pre post : GoString)
    (ht : TrimSpace rawTag = c :: rest) (hs : splitTag c rest = pre ++ splitChar c :: post)
    (h1 : splitChar c ∉ pre) (h2 : splitChar c ∉ post) :
    tagParts rawTag = some [pre, post] := by
  simp [tagParts, ht, tagSplit, hs, Split_once _ _ _ h1 h2]

/-- How a call of `Parse` that does not panic went. -/
theorem Parse_ok (lib : Lib) (prog : GoString) (args : List GoString) (r : Record)
    (h : (Parse lib prog args (.pointerToStruct r)).panic = none) :
    (preParse lib prog r).panic = none ∧
      ¬ ((preParse lib prog r).hasBoolArg = true ∧ args.any (isBoolWord lib) = true) ∧
      ((preParse lib prog r).flags.Parse lib (preParse lib prog r).ssvalue args).err = none ∧
      (Parse lib prog args (.pointerToStruct r)).flags =
        ((preParse lib prog r).flags.Parse lib (preParse lib prog r).ssvalue args).f ∧
      (Parse lib prog args (.pointerToStruct r)).ssvalue =
        match (preParse lib prog r).argsptr with
        | some k =>
          store ((preParse lib prog r).flags.Parse lib (preParse lib prog r).ssvalue args).ssvalue k
            (.strings
              ((preParse lib prog r).flags.Parse lib (preParse lib prog r).ssvalue args).f.args)
        | none => ((preParse lib prog r).flags.Parse lib (preParse lib prog r).ssvalue args).ssvalue := by
  simp only [Parse, finish] at h ⊢
  generalize preParse lib prog r = st at h ⊢
  unfold boolGuard at h ⊢
  cases hp : st.panic with
  | some p => simp [hp] at h
  | none =>
    simp only [hp, Option.isSome_none, Bool.false_eq_true, if_false] at h ⊢
    by_cases hg : st.hasBoolArg = true ∧ args.any (isBoolWord lib) = true
    · simp [hg] at h
    · simp only [hg, if_false, hp] at h ⊢
      cases he : (st.flags.Parse lib st.ssvalue args).err with
      | some e => simp [he] at h
      | none =>
        simp only [he] at h ⊢
        cases ha : st.argsptr <;> simp [ha, hg]

theorem walk_inv (lib : Lib) (prog : GoString) (r : Record) :
    WalkInv r r.length (walk lib prog r) := walkInv_walkUpTo lib prog r r.length

/-- A field keeps its name through the walk. -/
theorem walk_get (lib : Lib) (prog : GoString) (r : Record) (i : Nat) (pp : StructField)
    (hpp : r[i]? = some pp) :
    ∃ q, (walk lib prog r).ssvalue[i]? = some q ∧ q.Name = pp.Name := by
  have hn := name_get? _ _ (walk_inv lib prog r).desc i
  rw [hpp] at hn
  cases hq : (walk lib prog r).ssvalue[i]? with
  | none => simp [hq] at hn
  | some q => exact ⟨q, rfl, by simpa [hq] using hn⟩

/-- A field not named `Usage` is not touched by the write of the usage text. -/
theorem preParse_get (lib : Lib) (prog : GoString) (r : Record) (i : Nat) (pp : StructField)
    (hpp : r[i]? = some pp) (hn : pp.Name ≠ B "Usage") :
    (preParse lib prog r).ssvalue[i]? = (walk lib prog r).ssvalue[i]? := by
  obtain ⟨q, hq, hname⟩ := walk_get lib prog r i pp hpp
  rw [hq]
  exact (writeUsage_frame prog (walk lib prog r)).2.2.2.2.2.2 i q hq (by rw [hname]; exact hn)

/-- Neither the flag parser nor the copy of the leftover arguments touches a bindable
field whose flag was not set. -/
theorem Parse_get (lib : Lib) (prog : GoString) (args : List GoString) (r : Record) (i : Nat)
    (pp : StructField) (hpp : r[i]? = some pp) (hn : pp.Name ≠ B "Usage")
    (hb : pp.val.bindable = true)
    (hok : (Parse lib prog args (.pointerToStruct r)).panic = none)
    (hna : pp.Name ∉ (Parse lib prog args (.pointerToStruct r)).flags.actual) :
    (Parse lib prog args (.pointerToStruct r)).ssvalue[i]? = (walk lib prog r).ssvalue[i]? := by
  obtain ⟨_, _, herr, hflags, hss⟩ := Parse_ok lib prog args r hok
  obtain ⟨wf, wa, _, _, _, _, _⟩ := writeUsage_frame prog (walk lib prog r)
  have hinv := walk_inv lib prog r
  have hformal : ∀ fl ∈ (preParse lib prog r).flags.formal, fl.target = i → fl.Name = pp.Name := by
    intro fl hfl ht
    have h1 := (hinv.formal fl (by rw [preParse, wf] at hfl; exact hfl)).2
    rw [ht, hpp] at h1
    simpa using h1.symm
  have hloop := (stepFrame_parseLoop lib i pp.Name (args.length + 1)
    { (preParse lib prog r).flags with parsed := true, args := args }
    (preParse lib prog r).ssvalue).1
  have hun := hloop.untouched hformal herr (by rw [hflags] at hna; exact hna)
  have hki : ∀ k, (preParse lib prog r).argsptr = some k → i ≠ k := by
    intro k hk e
    subst e
    rw [preParse, wa] at hk
    obtain ⟨_, q, l, hq, hv⟩ := hinv.argsptr i hk
    rw [hpp] at hq
    simp only [Option.some.injEq] at hq
    subst hq
    rw [hv] at hb
    simp [Value.bindable] at hb
  rw [hss, ← preParse_get lib prog r i pp hpp hn]
  cases ha : (preParse lib prog r).argsptr with
  | none => exact hun
  | some k =>
    simp only []
    rw [store_get?_ne _ _ _ _ (hki k ha)]
    exact hun

/-! ## The claims -/

/-- C4 (amended): a bindable field whose tag has no delimiter in the text that is split (so
no default-value part) is not modified before the arguments are parsed; unless the walk
panics, a flag is registered for it whose default is the field's current value, whether or
not the usage write then panics; and when `Parse` succeeds and the arguments set no flag of
its name, the field ends as it began. -/
theorem C4_no_default_keeps_field (lib : Lib) (prog : GoString) (args : List GoString)
    (r : Record) (i : Nat) (pp : StructField) (c : Nat) (rest : GoString)
    (hpp : r[i]? = some pp) (ha : pp.Anonymous = false) (hn : pp.Name ≠ B "Usage")
    (hb : pp.val.bindable = true) (ht : TrimSpace pp.Tag = c :: rest)
    (hd : splitChar c ∉ splitTag c rest) :
    (preParse lib prog r).ssvalue[i]? = some pp ∧
      ((walk lib prog r).panic = none →
        flagFor i pp (TrimSpace (splitTag c rest)) pp.val ∈ (preParse lib prog r).flags.formal) ∧
      ((Parse lib prog args (.pointerToStruct r)).panic = none →
        pp.Name ∉ (Parse lib prog args (.pointerToStruct r)).flags.actual →
        (Parse lib prog args (.pointerToStruct r)).ssvalue[i]? = some pp) := by
  have hparts := tagParts_none_delim pp.Tag c rest ht hd
  obtain ⟨h1, h2⟩ := walk_one_part lib prog r i pp _ hpp ha hn hb hparts
  obtain ⟨wf, _, _, _, _, _, _⟩ := writeUsage_frame prog (walk lib prog r)
  refine ⟨?_, ?_, ?_⟩
  · rw [preParse_get lib prog r i pp hpp hn]; exact h1
  · intro hok
    rw [preParse, wf]
    exact (h2 hok).1
  · intro hok hna
    rw [Parse_get lib prog args r i pp hpp hn hb hok hna]; exact h1

/-- C4 at the field `Age int "in years"`, called with the single argument `pos`. -/
theorem C4_no_default_keeps_field_witness :
    (preParse lib0 (B "prog") recAge).ssvalue[1]? =
        some ⟨B "Age", [], B "in years", false, .int 7⟩ ∧
      flagFor 1 ⟨B "Age", [], B "in years", false, .int 7⟩
          (TrimSpace (splitTag 105 (B "n years"))) (.int 7) ∈
        (preParse lib0 (B "prog") recAge).flags.formal ∧
      (Parse lib0 (B "prog") [B "pos"] (.pointerToStruct recAge)).ssvalue[1]? =
        some ⟨B "Age", [], B "in years", false, .int 7⟩ :=
  have h := C4_no_default_keeps_field lib0 (B "prog") [B "pos"] recAge 1
    ⟨B "Age", [], B "in years", false, .int 7⟩ 105 (B "n years") (by decide) (by decide)
    (by decide) (by decide) (by decide) (by decide)
  ⟨h.1, h.2.1 (by decide), h.2.2 (by decide) (by decide)⟩

/-- C4 as stated fails at the second of two fields with the blank name `_`: it is a string
field whose tag `b` has no default-value part, yet `flags.StringVar` panics because a flag
of the name `_` exists already, so that `Parse` ends in that panic and no flag points at
the field. -/
theorem C4_flag_redefined_counterexample :
    recBlankTwice[2]? = some ⟨B "_", B "main", B "b", false, .string []⟩ ∧
      tagParts (B "b") = some [B "b"] ∧
      (walk lib0 (B "prog") recBlankTwice).panic = some .flagRedefined ∧
      (Parse lib0 (B "prog") [] (.pointerToStruct recBlankTwice)).panic =
        some .flagRedefined ∧
      (∀ fl ∈ (Parse lib0 (B "prog") [] (.pointerToStruct recBlankTwice)).flags.formal,
        fl.target ≠ 2) := by
  decide

/-- C2 (amended): when the delimiter occurs exactly once in the text that is split, the
parts are the text before it and the text after it, the description is the trimmed first
part, the default-value text the trimmed second part, and unless the walk or the usage
write panics a bindable field is registered as a flag with the converted default. -/
theorem C2_split_at_single_delimiter (lib : Lib) (prog : GoString) (r : Record) (i : Nat)
    (pp : StructField) (c : Nat) (rest pre post : GoString)
    (hpp : r[i]? = some pp) (ha : pp.Anonymous = false) (hn : pp.Name ≠ B "Usage")
    (hb : pp.val.bindable = true) (ht : TrimSpace pp.Tag = c :: rest)
    (hs : splitTag c rest = pre ++ splitChar c :: post)
    (h1 : splitChar c ∉ pre) (h2 : splitChar c ∉ post) :
    tagParts pp.Tag = some [pre, post] ∧
      partZero [pre, post] = TrimSpace pre ∧ partOne [pre, post] = TrimSpace post ∧
      ((preParse lib prog r).panic = none →
        flagFor i pp (TrimSpace pre) (convertDefault lib pp.val (TrimSpace post)) ∈
          (preParse lib prog r).flags.formal) := by
  have hparts := tagParts_one_delim pp.Tag c rest pre post ht hs h1 h2
  obtain ⟨wf, _, _, _, _, wp, _⟩ := writeUsage_frame prog (walk lib prog r)
  refine ⟨hparts, by simp [partZero], by simp [partOne], fun hok => ?_⟩
  rw [preParse, wf]
  exact (walk_two_parts lib prog r i pp pre post hpp ha hn hb hparts (wp hok)).2.1

/-- C2 at the field `Name string "n | bob"`. -/
theorem C2_split_at_single_delimiter_witness :
    tagParts (B "n | bob") = some [B "n ", B " bob"] ∧
      partZero [B "n ", B " bob"] = TrimSpace (B "n ") ∧
      partOne [B "n ", B " bob"] = TrimSpace (B " bob") ∧
      flagFor 1 ⟨B "Name", [], B "n | bob", false, .string []⟩ (TrimSpace (B "n "))
          (convertDefault lib0 (.string []) (TrimSpace (B " bob"))) ∈
        (preParse lib0 (B "prog") recName).flags.formal :=
  have h := C2_split_at_single_delimiter lib0 (B "prog") recName 1
    ⟨B "Name", [], B "n | bob", false, .string []⟩ 110 (B " | bob") (B "n ") (B " bob")
    (by decide) (by decide) (by decide) (by decide) (by decide) (by decide) (by decide)
    (by decide)
  ⟨h.1, h.2.1, h.2.2.1, h.2.2.2 (by decide)⟩

/-- C2 as stated fails for `Cmd string "cmd | a | b"`: the tag is split at both pipes, the
default-value text is `"a"` and not `"a | b"`, and since there are three parts no flag is
registered and the field keeps its value. -/
theorem C2_all_delimiters_split_counterexample :
    tagParts (B "cmd | a | b") = some [B "cmd ", B " a ", B " b"] ∧
      partOne [B "cmd ", B " a ", B " b"] = B "a" ∧
      partOne [B "cmd ", B " a ", B " b"] ≠ B "a | b" ∧
      (Parse lib0 (B "prog") [] (.pointerToStruct recCmd)).panic = none ∧
      (Parse lib0 (B "prog") [] (.pointerToStruct recCmd)).flags.formal = [] ∧
      ((Parse lib0 (B "prog") [] (.pointerToStruct recCmd)).ssvalue[1]?).map (·.val) =
        some (.string []) := by
  decide

/-- C3 (amended): for a bindable field whose tag has the delimiter exactly once in the text
that is split, so that there are exactly two parts: unless the walk or the usage write
panics, the field holds the converted default before the flag parser runs and the flag is
registered with that value as default; and when `Parse` succeeds and the arguments set no
flag of its name, the field ends holding the converted default. -/
theorem C3_default_seeds_field (lib : Lib) (prog : GoString) (args : List GoString)
    (r : Record) (i : Nat) (pp : StructField) (c : Nat) (rest pre post : GoString)
    (hpp : r[i]? = some pp) (ha : pp.Anonymous = false) (hn : pp.Name ≠ B "Usage")
    (hb : pp.val.bindable = true) (ht : TrimSpace pp.Tag = c :: rest)
    (hs : splitTag c rest = pre ++ splitChar c :: post)
    (h1 : splitChar c ∉ pre) (h2 : splitChar c ∉ post) :
    ((preParse lib prog r).panic = none →
        (preParse lib prog r).ssvalue[i]? =
          some { pp with val := convertDefault lib pp.val (TrimSpace post) } ∧
        flagFor i pp (TrimSpace pre) (convertDefault lib pp.val (TrimSpace post)) ∈
          (preParse lib prog r).flags.formal) ∧
      ((Parse lib prog args (.pointerToStruct r)).panic = none →
        pp.Name ∉ (Parse lib prog args (.pointerToStruct r)).flags.actual →
        (Parse lib prog args (.pointerToStruct r)).ssvalue[i]? =
          some { pp with val := convertDefault lib pp.val (TrimSpace post) }) := by
  have hparts := tagParts_one_delim pp.Tag c rest pre post ht hs h1 h2
  obtain ⟨wf, _, _, _, _, wp, _⟩ := writeUsage_frame prog (walk lib prog r)
  constructor
  · intro hok
    have hw := walk_two_parts lib prog r i pp pre post hpp ha hn hb hparts (wp hok)
    refine ⟨?_, ?_⟩
    · rw [preParse_get lib prog r i pp hpp hn]; exact hw.1
    · rw [preParse, wf]; exact hw.2.1
  · intro hok hna
    have hpre := (Parse_ok lib prog args r hok).1
    have hw := walk_two_parts lib prog r i pp pre post hpp ha hn hb hparts (wp hpre)
    rw [Parse_get lib prog args r i pp hpp hn hb hok hna]; exact hw.1

/-- C3 at the field `Name string "n | bob"`, called without arguments. -/
theorem C3_default_seeds_field_witness :
    ((preParse lib0 (B "prog") recName).ssvalue[1]? =
        some ⟨B "Name", [], B "n | bob", false,
          convertDefault lib0 (.string []) (TrimSpace (B " bob"))⟩ ∧
      flagFor 1 ⟨B "Name", [], B "n | bob", false, .string []⟩ (TrimSpace (B "n "))
          (convertDefault lib0 (.string []) (TrimSpace (B " bob"))) ∈
        (preParse lib0 (B "prog") recName).flags.formal) ∧
      (Parse lib0 (B "prog") [] (.pointerToStruct recName)).ssvalue[1]? =
        some ⟨B "Name", [], B "n | bob", false,
          convertDefault lib0 (.string []) (TrimSpace (B " bob"))⟩ :=
  have h := C3_default_seeds_field lib0 (B "prog") [] recName 1
    ⟨B "Name", [], B "n | bob", false, .string []⟩ 110 (B " | bob") (B "n ") (B " bob")
    (by decide) (by decide) (by decide) (by decide) (by decide) (by decide) (by decide)
    (by decide)
  ⟨h.1 (by decide), h.2 (by decide) (by decide)⟩

/-- C3 as stated fails for `Count int "count | 4 | 2"` holding 9: the tag has a
default-value part (`part1` is `"4"`), `Parse` succeeds without any argument, yet the field
still holds 9, not the converted default 4, and no flag was registered. -/
theorem C3_three_parts_counterexample :
    tagParts (B "count | 4 | 2") = some [B "count ", B " 4 ", B " 2"] ∧
      convertDefault lib0 (.int 9) (partOne [B "count ", B " 4 ", B " 2"]) = .int 4 ∧
      (Parse lib0 (B "prog") [] (.pointerToStruct recCount)).panic = none ∧
      (Parse lib0 (B "prog") [] (.pointerToStruct recCount)).flags.actual = [] ∧
      (Parse lib0 (B "prog") [] (.pointerToStruct recCount)).flags.formal = [] ∧
      ((Parse lib0 (B "prog") [] (.pointerToStruct recCount)).ssvalue[1]?).map (·.val) =
        some (.int 9) := by
  decide

theorem ParseInt_syntax (s : GoString) (h : (ParseInt s).2 = some .ErrSyntax) :
    (ParseInt s).1 = 0 := by
  unfold ParseInt at h ⊢
  cases s with
  | nil => rfl
  | cons c rest =>
    simp only [] at h ⊢
    split_ifs at h ⊢ <;> first | rfl | (simp at h)

theorem ParseInt_range (s : GoString) (h : (ParseInt s).2 = some .ErrRange) :
    (ParseInt s).1 = 2 ^ 63 - 1 ∨ (ParseInt s).1 = -2 ^ 63 := by
  unfold ParseInt at h ⊢
  cases s with
  | nil => simp at h
  | cons c rest =>
    simp only [] at h ⊢
    split_ifs at h ⊢ <;> first | (simp at h; done) | exact Or.inl rfl | exact Or.inr rfl

theorem convertDefault_asInt (lib : Lib) (v : Value) (text : GoString)
    (hty : (∃ n, v = .int n) ∨ (∃ n, v = .int64 n)) :
    (convertDefault lib v text).asInt = some (ParseInt text).1 := by
  rcases hty with ⟨n, rfl⟩ | ⟨n, rfl⟩ <;> rfl

/-- C9 (amended): for an int or int64 field that is not embedded and not named `Usage` and
whose tag has exactly two parts: when the
default text is a syntax error for `strconv.ParseInt`, the conversion does not make the
loop body panic (an exported field whose flag name is still free is processed without
panic), and unless the walk or the usage write panics the field and the flag's default are
0; when the default text is out of range, they are instead the bound `2^63 - 1` or
`-2^63`. -/
theorem C9_bad_int_default (lib : Lib) (prog : GoString) (r : Record) (i : Nat)
    (pp : StructField) (c : Nat) (rest pre post : GoString)
    (hpp : r[i]? = some pp) (ha : pp.Anonymous = false) (hn : pp.Name ≠ B "Usage")
    (hty : (∃ n, pp.val = .int n) ∨ (∃ n, pp.val = .int64 n))
    (ht : TrimSpace pp.Tag = c :: rest) (hs : splitTag c rest = pre ++ splitChar c :: post)
    (h1 : splitChar c ∉ pre) (h2 : splitChar c ∉ post) :
    ((ParseInt (TrimSpace post)).2 = some .ErrSyntax →
      (∀ st : WalkState, st.panic = none → st.ssvalue[i]? = some pp → pp.PkgPath = [] →
        st.flags.lookup pp.Name = none → (walkField lib i st).panic = none) ∧
      ((preParse lib prog r).panic = none →
        ((preParse lib prog r).ssvalue[i]?).bind (·.val.asInt) = some 0 ∧
        ∃ fl ∈ (preParse lib prog r).flags.formal,
          fl.Name = pp.Name ∧ fl.target = i ∧ fl.Default.asInt = some 0)) ∧
    ((ParseInt (TrimSpace post)).2 = some .ErrRange → (preParse lib prog r).panic = none →
      ∃ b : Int, (b = 2 ^ 63 - 1 ∨ b = -2 ^ 63) ∧
        ((preParse lib prog r).ssvalue[i]?).bind (·.val.asInt) = some b ∧
        ∃ fl ∈ (preParse lib prog r).flags.formal,
          fl.Name = pp.Name ∧ fl.target = i ∧ fl.Default.asInt = some b) := by
  have hb : pp.val.bindable = true := by
    rcases hty with ⟨n, h⟩ | ⟨n, h⟩ <;> rw [h] <;> rfl
  have hparts := tagParts_one_delim pp.Tag c rest pre post ht hs h1 h2
  obtain ⟨wf, _, _, _, _, wp, _⟩ := writeUsage_frame prog (walk lib prog r)
  have hconv := convertDefault_asInt lib pp.val (TrimSpace post) hty
  have key : (preParse lib prog r).panic = none →
      ((preParse lib prog r).ssvalue[i]?).bind (·.val.asInt) =
          some (ParseInt (TrimSpace post)).1 ∧
        ∃ fl ∈ (preParse lib prog r).flags.formal,
          fl.Name = pp.Name ∧ fl.target = i ∧
            fl.Default.asInt = some (ParseInt (TrimSpace post)).1 := by
    intro hok
    have hw := walk_two_parts lib prog r i pp pre post hpp ha hn hb hparts (wp hok)
    refine ⟨?_, _, by rw [preParse, wf]; exact hw.2.1, rfl, rfl, hconv⟩
    rw [preParse_get lib prog r i pp hpp hn, hw.1]
    exact hconv
  refine ⟨fun hsyn => ⟨?_, fun hok => ?_⟩, fun hrange hok => ?_⟩
  · intro st hp hcur hx hl
    rw [walkField_bindable lib i pp [pre, post] st hp hcur ha hn hb hparts,
      bindField_two lib i pp pre post st hp hcur hb]
    simp [hx, hl, hp]
  · rw [← ParseInt_syntax _ hsyn]
    exact key hok
  · exact ⟨_, ParseInt_range _ hrange, key hok⟩

/-- C9 at the field `IQ int "iq | high"`. -/
theorem C9_bad_int_default_witness :
    (∀ st : WalkState, st.panic = none →
        st.ssvalue[1]? = some ⟨B "IQ", [], B "iq | high", false, .int 5⟩ →
        (⟨B "IQ", [], B "iq | high", false, .int 5⟩ : StructField).PkgPath = [] →
        st.flags.lookup (B "IQ") = none → (walkField lib0 1 st).panic = none) ∧
      ((preParse lib0 (B "prog") recIQ).ssvalue[1]?).bind (·.val.asInt) = some 0 ∧
      ∃ fl ∈ (preParse lib0 (B "prog") recIQ).flags.formal,
        fl.Name = B "IQ" ∧ fl.target = 1 ∧ fl.Default.asInt = some 0 :=
  have h := C9_bad_int_default lib0 (B "prog") recIQ 1
    ⟨B "IQ", [], B "iq | high", false, .int 5⟩ 105 (B "q | high") (B "iq ") (B " high")
    (by decide) (by decide) (by decide) (Or.inl ⟨5, rfl⟩) (by decide) (by decide) (by decide)
    (by decide)
  ⟨(h.1 (by decide)).1, (h.1 (by decide)).2 (by decide)⟩

/-- C9 as stated fails for `Age int64 "age | 9223372036854775808"`: the default text is a
digit string outside the 64-bit range, `ParseInt` reports a range error and returns the
largest int64, and `Parse` leaves that value, not 0, in the field and in the flag's
default. It also fails for an embedded int field with the tag `n | oops`: the loop skips
the field, which keeps its value 7 and gets no flag. -/
theorem C9_out_of_range_counterexample :
    ParseInt (B "9223372036854775808") = (2 ^ 63 - 1, some .ErrRange) ∧
      (Parse lib0 (B "prog") [] (.pointerToStruct recBig)).panic = none ∧
      ((Parse lib0 (B "prog") [] (.pointerToStruct recBig)).ssvalue[1]?).map (·.val) =
        some (.int64 9223372036854775807) ∧
      ((Parse lib0 (B "prog") [] (.pointerToStruct recBig)).flags.formal.map (·.Default)) =
        [.int64 9223372036854775807] ∧
      (ParseInt (B "oops")).2 = some .ErrSyntax ∧
      (Parse lib0 (B "prog") [] (.pointerToStruct recEmbeddedInt)).panic = none ∧
      (Parse lib0 (B "prog") [] (.pointerToStruct recEmbeddedInt)).ssvalue[1]? =
        some ⟨B "Int", [], B "n | oops", true, .int 7⟩ ∧
      (Parse lib0 (B "prog") [] (.pointerToStruct recEmbeddedInt)).flags.formal = [] := by
  decide

/-- C10 (amended): the annotation `"42"` does not start with a letter, so its first byte
`4` is the delimiter and is dropped: there is one part, the description is `"2"` and
there is no default-value text. -/
theorem C10_tag_42 :
    tagParts (B "42") = some [B "2"] ∧ partZero [B "2"] = B "2" ∧ partOne [B "2"] = [] ∧
      usageLine ⟨B "N", [], B "42", false, .int 0⟩ [B "2"] =
        B "\n\t--N:  <-- Default, int # 2" := by
  decide

/-- C10 as stated fails: the description parsed from `"42"` is not `"42"`. -/
theorem C10_tag_42_counterexample :
    tagParts (B "42") ≠ some [B "42"] ∧ (tagParts (B "42")).map partZero ≠ some (B "42") := by
  decide

theorem walk_recName (lib : Lib) (prog : GoString) :
    walk lib prog recName = walkedName prog := by
  have h0 : walkUpTo lib prog recName 0 = initState prog recName := rfl
  have h1 : walkField lib 0 (initState prog recName) = initState prog recName := rfl
  have h2 : walkField lib 1 (initState prog recName) = walkedName prog := rfl
  show walkUpTo lib prog recName 2 = _
  rw [walkUpTo_succ, walkUpTo_succ, h0, h1, h2]

theorem preParse_recName (lib : Lib) (prog : GoString) :
    preParse lib prog recName = preParsedName prog := by
  rw [preParse, walk_recName]
  rfl

/-- C5 (amended): for the struct with a string field `Usage` and the field
`Name string "n | bob"`, `Parse` with the arguments `--Name=alice` completes and leaves
`Name` holding `"alice"`, and `Parse` without arguments completes and leaves `Name` holding
`"bob"`. -/
theorem C5_name_flag (lib : Lib) (prog : GoString) :
    (Parse lib prog [B "--Name=alice"] (.pointerToStruct recName)).panic = none ∧
      ((Parse lib prog [B "--Name=alice"] (.pointerToStruct recName)).ssvalue[1]?).map
        (fun pp => (pp.Name, pp.val)) = some (B "Name", .string (B "alice")) ∧
      (Parse lib prog [] (.pointerToStruct recName)).panic = none ∧
      ((Parse lib prog [] (.pointerToStruct recName)).ssvalue[1]?).map
        (fun pp => (pp.Name, pp.val)) = some (B "Name", .string (B "bob")) := by
  simp only [Parse, preParse_recName]
  exact ⟨rfl, rfl, rfl, rfl⟩


/-- C5 as stated fails for the struct whose only field is `Name`: there is no field named
`Usage`, so line 117 calls `SetString` on the zero Value and `Parse` panics, with either
argument vector, before the flag parser is reached. -/
theorem C5_only_name_counterexample :
    (Parse lib0 (B "prog") [B "--Name=alice"] (.pointerToStruct recOnlyName)).panic =
        some .reflectZeroValue ∧
      (Parse lib0 (B "prog") [] (.pointerToStruct recOnlyName)).panic =
        some .reflectZeroValue ∧
      (Parse lib0 (B "prog") [B "--Name=alice"] (.pointerToStruct recOnlyName)).flags.parsed =
        false ∧
      ((Parse lib0 (B "prog") [B "--Name=alice"] (.pointerToStruct recOnlyName)).ssvalue[0]?).map
        (·.val) ≠ some (.string (B "alice")) := by
  decide

/-! ## The bool flag signal and the guard -/

theorem bindField_skip (lib : Lib) (ii : Nat) (pp : StructField) (parts : List GoString)
    (st : WalkState)
    (h : pp.val.bindable = false ∨ (parts.length ≠ 1 ∧ parts.length ≠ 2)) :
    bindField lib ii pp parts st =
      if parts.length > 0 then { st with moreusage := st.moreusage ++ usageLine pp parts }
      else st := by
  unfold bindField
  dsimp only
  rcases h with h | ⟨h1, h2⟩
  · have e1 : ∀ p0 s, registerCurrent ii pp p0 s = s := by
      intro p0 s; unfold registerCurrent
      cases hv : pp.val <;> simp [hv, Value.bindable] at h ⊢
    have e2 : ∀ p0 p1 s, registerDefault lib ii pp p0 p1 s = s := by
      intro p0 p1 s; unfold registerDefault
      cases hv : pp.val <;> simp [hv, Value.bindable] at h ⊢
    simp only [e1, e2, ite_self]
  · rw [if_neg h1, if_neg h2]

/-- Once the walk is past a field without panic, `hasBoolArg` says whether a bool flag is
registered. -/
theorem walkField_bool (lib : Lib) (ii : Nat) (st : WalkState)
    (h : st.panic = none →
      (st.hasBoolArg = true ↔ ∃ fl ∈ st.flags.formal, fl.kind = .boolValue)) :
    (walkField lib ii st).panic = none →
      ((walkField lib ii st).hasBoolArg = true ↔
        ∃ fl ∈ (walkField lib ii st).flags.formal, fl.kind = .boolValue) := by
  cases hp : st.panic with
  | some p =>
    have : walkField lib ii st = st := by unfold walkField; simp [hp]
    rw [this]; intro hq; rw [hp] at hq; exact absurd hq (by simp)
  | none =>
    have h0 := h hp
    unfold walkField
    simp only [hp, Option.isSome_none, Bool.false_eq_true, if_false]
    cases hpp : st.ssvalue[ii]? with
    | none => exact fun _ => h0
    | some pp =>
      simp only []
      by_cases ha : pp.Anonymous = true
      · rw [if_pos ha]; exact fun _ => h0
      · rw [if_neg ha]
        by_cases hn : pp.Name = B "Usage"
        · rw [if_pos hn]; exact fun _ => h0
        · rw [if_neg hn]
          have hbind : ∀ parts, (bindField lib ii pp parts st).panic = none →
              ((bindField lib ii pp parts st).hasBoolArg = true ↔
                ∃ fl ∈ (bindField lib ii pp parts st).flags.formal, fl.kind = .boolValue) := by
            intro parts
            have hskip : ∀ hs : pp.val.bindable = false ∨ (parts.length ≠ 1 ∧ parts.length ≠ 2),
                (bindField lib ii pp parts st).panic = none →
                ((bindField lib ii pp parts st).hasBoolArg = true ↔
                  ∃ fl ∈ (bindField lib ii pp parts st).flags.formal,
                    fl.kind = .boolValue) := by
              intro hs
              rw [bindField_skip lib ii pp parts st hs]
              split <;> exact fun _ => h0
            have hkind : (pp.val.isBool = true ↔ pp.val.flagKind = .boolValue) := by
              cases pp.val <;> simp [Value.isBool, Value.flagKind]
            by_cases hb : pp.val.bindable = true
            · rcases parts with _ | ⟨p0, _ | ⟨p1, _ | ⟨p2, t⟩⟩⟩
              · exact hskip (Or.inr (by simp))
              · rw [bindField_one lib ii pp p0 st hp hpp hb]
                split
                · intro hq; simp at hq
                · intro _
                  simp only [Bool.or_eq_true, List.mem_append, List.mem_singleton]
                  constructor
                  · rintro (h1 | h1)
                    · obtain ⟨fl, hfl, hk⟩ := h0.1 h1
                      exact ⟨fl, Or.inl hfl, hk⟩
                    · exact ⟨_, Or.inr rfl, hkind.1 h1⟩
                  · rintro ⟨fl, hfl | hfl, hk⟩
                    · exact Or.inl (h0.2 ⟨fl, hfl, hk⟩)
                    · subst hfl; exact Or.inr (hkind.2 hk)
              · rw [bindField_two lib ii pp p0 p1 st hp hpp hb]
                split
                · split
                  · intro hq; simp at hq
                  · intro _
                    simp only [Bool.or_eq_true, List.mem_append, List.mem_singleton]
                    constructor
                    · rintro (h1 | h1)
                      · obtain ⟨fl, hfl, hk⟩ := h0.1 h1
                        exact ⟨fl, Or.inl hfl, hk⟩
                      · exact ⟨_, Or.inr rfl, hkind.1 h1⟩
                    · rintro ⟨fl, hfl | hfl, hk⟩
                      · exact Or.inl (h0.2 ⟨fl, hfl, hk⟩)
                      · subst hfl; exact Or.inr (hkind.2 hk)
                · intro hq; simp at hq
              · exact hskip (Or.inr (by simp))
            · exact hskip (Or.inl (by simpa using hb))
          cases hv : pp.val with
          | strings l => exact fun _ => h0
          | _ =>
            simp only []
            cases hparts : tagParts pp.Tag with
            | none => exact fun _ => h0
            | some parts => exact hbind parts

theorem walk_bool (lib : Lib) (prog : GoString) (r : Record)
    (hok : (walk lib prog r).panic = none) :
    (walk lib prog r).hasBoolArg = true ↔
      ∃ fl ∈ (walk lib prog r).flags.formal, fl.kind = .boolValue := by
  have : ∀ n, (walkUpTo lib prog r n).panic = none →
      ((walkUpTo lib prog r n).hasBoolArg = true ↔
        ∃ fl ∈ (walkUpTo lib prog r n).flags.formal, fl.kind = .boolValue) := by
    intro n
    induction n with
    | zero => intro _; simp [walkUpTo, initState, NewFlagSet]
    | succ n ih => rw [walkUpTo_succ]; exact walkField_bool lib n _ ih
  exact this r.length hok

theorem asciiFold_ascii (s : GoString)
    (h : (asciiFold s).all (fun c => decide (c < 0x80)) = true) :
    s.all (fun c => decide (c < 0x80)) = true := by
  simp only [asciiFold, List.all_eq_true, List.mem_map, decide_eq_true_eq,
    forall_exists_index, and_imp, forall_apply_eq_imp_iff₂] at h ⊢
  intro c hc
  have := h c hc
  unfold lowerByte at this
  split at this <;> omega

theorem isBoolWord_of_bare (lib : Lib) (s : GoString) (h : isBareBool s = true) :
    isBoolWord lib s = true := by
  unfold isBareBool at h
  have hs : s.all (fun c => decide (c < 0x80)) = true := by
    apply asciiFold_ascii
    rcases of_decide_eq_true h with e | e <;> rw [e] <;> decide
  unfold isBoolWord ToLower
  rw [if_pos hs]
  exact h

theorem isBoolWord_iff (lib : Lib) (hl : LowerSound lib) (s : GoString) :
    isBoolWord lib s = true ↔ isBareBool s = true := by
  refine ⟨fun h => ?_, isBoolWord_of_bare lib s⟩
  by_cases hs : s.all (fun c => decide (c < 0x80)) = true
  · unfold isBoolWord ToLower at h
    rw [if_pos hs] at h
    exact h
  · have hs' : s.all (fun c => decide (c < 0x80)) = false := by simpa using hs
    unfold isBoolWord ToLower at h
    rw [if_neg hs] at h
    have := hl s hs'
    rcases of_decide_eq_true h with e | e
    · exact absurd e this.1
    · exact absurd e this.2

theorem lowerSound_lib0 : LowerSound lib0 := by
  intro s hs
  constructor <;> intro e <;> (have e' : s = _ := e; rw [e'] at hs; revert hs; decide)

theorem any_isBoolWord (lib : Lib) (hl : LowerSound lib) (args : List GoString) :
    args.any (isBoolWord lib) = true ↔ ∃ t ∈ args, isBareBool t = true := by
  simp only [List.any_eq_true, isBoolWord_iff lib hl]

theorem finish_panicked (lib : Lib) (args : List GoString) (st : WalkState) (p : Panic)
    (h : st.panic = some p) : finish lib args st = ⟨st.ssvalue, st.flags, some p⟩ := by
  simp [finish, boolGuard, h]

theorem finish_guarded (lib : Lib) (args : List GoString) (st : WalkState)
    (h : st.panic = none) (hb : st.hasBoolArg = true)
    (ha : args.any (isBoolWord lib) = true) :
    finish lib args st = ⟨st.ssvalue, st.flags, some .boolSyntax⟩ := by
  simp [finish, boolGuard, h, hb, ha]

theorem finish_parsed (lib : Lib) (args : List GoString) (st : WalkState)
    (h : st.panic = none)
    (hg : ¬ (st.hasBoolArg = true ∧ args.any (isBoolWord lib) = true)) :
    (finish lib args st).panic ≠ some .boolSyntax ∧
      (finish lib args st).flags.parsed = true := by
  have hp : (st.flags.Parse lib st.ssvalue args).f.parsed = true :=
    (stepFrame_parseLoop lib 0 [] (args.length + 1)
      { st.flags with parsed := true, args := args } st.ssvalue).1.parsed
  unfold finish boolGuard
  simp only [h, Option.isSome_none, Bool.false_eq_true, if_false, hg]
  cases he : (st.flags.Parse lib st.ssvalue args).err with
  | some e => simp [hp]
  | none => cases st.argsptr <;> simp [hp]

/-- C6 (amended): provided the walk and the usage write do not panic, `Parse` panics with
the bool-syntax message exactly when a bool flag was registered during the walk and some
argument equals `true` or `false` up to letter case; it then panics before `flags.Parse`
is called, and otherwise `flags.Parse` is called. `--Foo=true` is no such argument, `TRUE`
and `False` are. -/
theorem C6_bool_guard (lib : Lib) (prog : GoString) (args : List GoString) (r : Record)
    (hl : LowerSound lib) (hpre : (preParse lib prog r).panic = none) :
    ((Parse lib prog args (.pointerToStruct r)).panic = some .boolSyntax ↔
        (∃ fl ∈ (walk lib prog r).flags.formal, fl.kind = .boolValue) ∧
          ∃ t ∈ args, isBareBool t = true) ∧
      ((Parse lib prog args (.pointerToStruct r)).panic = some .boolSyntax →
        (Parse lib prog args (.pointerToStruct r)).flags.parsed = false) ∧
      ((Parse lib prog args (.pointerToStruct r)).panic ≠ some .boolSyntax →
        (Parse lib prog args (.pointerToStruct r)).flags.parsed = true) ∧
      isBareBool (B "--Foo=true") = false ∧ isBareBool (B "TRUE") = true ∧
      isBareBool (B "False") = true := by
  obtain ⟨wf, _, wb, _, _, wp, _⟩ := writeUsage_frame prog (walk lib prog r)
  have hw := wp hpre
  have hbool := walk_bool lib prog r hw
  have hinv := walk_inv lib prog r
  have hparsed : (preParse lib prog r).flags.parsed = false := by
    rw [preParse, wf]; exact hinv.parsed
  have hhas : (preParse lib prog r).hasBoolArg = (walk lib prog r).hasBoolArg := wb
  have hP : Parse lib prog args (.pointerToStruct r) = finish lib args (preParse lib prog r) :=
    rfl
  rw [hP]
  by_cases hg : (preParse lib prog r).hasBoolArg = true ∧ args.any (isBoolWord lib) = true
  · have hf := finish_guarded lib args _ hpre hg.1 hg.2
    have hrhs : (∃ fl ∈ (walk lib prog r).flags.formal, fl.kind = .boolValue) ∧
        ∃ t ∈ args, isBareBool t = true :=
      ⟨hbool.1 (by rw [← hhas]; exact hg.1), (any_isBoolWord lib hl args).1 hg.2⟩
    rw [hf]
    exact ⟨⟨fun _ => hrhs, fun _ => rfl⟩, fun _ => hparsed, fun h => absurd rfl h,
      by decide, by decide, by decide⟩
  · obtain ⟨h1, h2⟩ := finish_parsed lib args _ hpre hg
    refine ⟨⟨fun h => absurd h h1, fun h => ?_⟩, fun h => absurd h h1, fun _ => h2,
      by decide, by decide, by decide⟩
    exact absurd ⟨by rw [hhas]; exact hbool.2 h.1, (any_isBoolWord lib hl args).2 h.2⟩ hg

/-- C6 at the struct with `Verbose bool "more output | false"`, called with `TRUE`. -/
theorem C6_bool_guard_witness :
    (Parse lib0 (B "prog") [B "TRUE"] (.pointerToStruct recVerbose)).panic =
        some .boolSyntax ∧
      (Parse lib0 (B "prog") [B "TRUE"] (.pointerToStruct recVerbose)).flags.parsed = false :=
  have h := C6_bool_guard lib0 (B "prog") [B "TRUE"] recVerbose lowerSound_lib0 (by decide)
  have hp := h.1.2
    ⟨⟨⟨B "Verbose", B " <--default, bool # more output", .boolValue, 1, .bool false⟩,
      by decide, rfl⟩, ⟨B "TRUE", by decide, by decide⟩⟩
  ⟨hp, h.2.1 hp⟩

/-- C6 as stated fails for the struct whose only field is `Verbose bool "more output"`: a
bool flag is registered during the walk and the argument `true` is present, yet `Parse`
does not panic with the bool-syntax message but earlier, at the write of the usage text. -/
theorem C6_earlier_panic_counterexample :
    (walk lib0 (B "prog") recBoolOnly).flags.formal.map (·.kind) = [.boolValue] ∧
      isBareBool (B "true") = true ∧
      (Parse lib0 (B "prog") [B "true"] (.pointerToStruct recBoolOnly)).panic =
        some .reflectZeroValue ∧
      (Parse lib0 (B "prog") [B "true"] (.pointerToStruct recBoolOnly)).panic ≠
        some .boolSyntax := by
  decide

theorem list_length_one_or_two {α : Type} (l : List α) (h1 : 1 ≤ l.length) (h2 : l.length ≤ 2) :
    (∃ a, l = [a]) ∨ (∃ a b, l = [a, b]) := by
  rcases l with _ | ⟨a, _ | ⟨b, _ | ⟨c, t⟩⟩⟩
  · simp at h1
  · exact Or.inl ⟨a, rfl⟩
  · exact Or.inr ⟨a, b, rfl⟩
  · simp at h2

/-- C7 (amended): when a bool field is bound to a flag (it is not embedded, not named
`Usage`, and its trimmed tag is non-empty with at most one delimiter in the text that is
split) and some argument equals `true` or `false` up to letter case, `Parse` panics, and it
does so before `flags.Parse` is called: no flag has been processed. The panic is the
bool-syntax panic unless the walk or the usage write panicked before. -/
theorem C7_bare_bool_rejected (lib : Lib) (prog : GoString) (args : List GoString)
    (r : Record) (i : Nat) (pp : StructField) (c : Nat) (rest t : GoString)
    (hpp : r[i]? = some pp) (ha : pp.Anonymous = false) (hn : pp.Name ≠ B "Usage")
    (hbool : pp.val.isBool = true) (ht : TrimSpace pp.Tag = c :: rest)
    (hcount : (splitTag c rest).count (splitChar c) ≤ 1)
    (hmem : t ∈ args) (hbare : isBareBool t = true) :
    (Parse lib prog args (.pointerToStruct r)).panic ≠ none ∧
      (Parse lib prog args (.pointerToStruct r)).flags.parsed = false ∧
      (Parse lib prog args (.pointerToStruct r)).flags.actual = [] ∧
      ((preParse lib prog r).panic = none →
        (Parse lib prog args (.pointerToStruct r)).panic = some .boolSyntax) := by
  obtain ⟨wf, _, wb, _, _, wp, _⟩ := writeUsage_frame prog (walk lib prog r)
  have hinv := walk_inv lib prog r
  have hparsed : (preParse lib prog r).flags.parsed = false := by
    rw [preParse, wf]; exact hinv.parsed
  have hactual : (preParse lib prog r).flags.actual = [] := by
    rw [preParse, wf]; exact hinv.actual
  have hb : pp.val.bindable = true := by
    cases hv : pp.val <;> simp [hv, Value.isBool, Value.bindable] at hbool ⊢
  have hany : args.any (isBoolWord lib) = true :=
    List.any_eq_true.2 ⟨t, hmem, isBoolWord_of_bare lib t hbare⟩
  have hparts : tagParts pp.Tag = some (tagSplit c rest) := by simp [tagParts, ht]
  have hlen : (tagSplit c rest).length = (splitTag c rest).count (splitChar c) + 1 :=
    Split_length _ _
  have hhas : (walk lib prog r).panic = none → (walk lib prog r).hasBoolArg = true := by
    intro hok
    rcases list_length_one_or_two (tagSplit c rest) (by omega) (by omega) with
      ⟨p0, e⟩ | ⟨p0, p1, e⟩
    · rw [e] at hparts
      exact ((walk_one_part lib prog r i pp p0 hpp ha hn hb hparts).2 hok).2 hbool
    · rw [e] at hparts
      exact (walk_two_parts lib prog r i pp p0 p1 hpp ha hn hb hparts hok).2.2.1 hbool
  have hP : Parse lib prog args (.pointerToStruct r) = finish lib args (preParse lib prog r) :=
    rfl
  rw [hP]
  cases hq : (preParse lib prog r).panic with
  | some p =>
    rw [finish_panicked lib args _ p hq]
    exact ⟨by simp, hparsed, hactual, fun h => absurd h (by simp)⟩
  | none =>
    have hh : (preParse lib prog r).hasBoolArg = true := by
      rw [preParse, wb]; exact hhas (wp hq)
    rw [finish_guarded lib args _ hq hh hany]
    exact ⟨by simp, hparsed, hactual, fun _ => rfl⟩

/-- C7 at the struct with `Verbose bool "more output | false"`, called with a valid flag
and the bare token `true`. -/
theorem C7_bare_bool_rejected_witness :
    (Parse lib0 (B "prog") [B "--Verbose=true", B "true"]
        (.pointerToStruct recVerbose)).panic = some .boolSyntax ∧
      (Parse lib0 (B "prog") [B "--Verbose=true", B "true"]
        (.pointerToStruct recVerbose)).flags.parsed = false ∧
      (Parse lib0 (B "prog") [B "--Verbose=true", B "true"]
        (.pointerToStruct recVerbose)).flags.actual = [] :=
  have h := C7_bare_bool_rejected lib0 (B "prog") [B "--Verbose=true", B "true"] recVerbose 1
    ⟨B "Verbose", [], B "more output | false", false, .bool false⟩ 109
    (B "ore output | false") (B "true") (by decide) (by decide) (by decide) (by decide)
    (by decide) (by decide) (by decide) (by decide)
  ⟨h.2.2.2 (by decide), h.2.1, h.2.2.1⟩

/-- C7 as stated fails for a struct whose bool field has no tag: no flag is registered for
it, no guard runs, and `Parse` accepts the bare argument `true`. -/
theorem C7_untagged_bool_counterexample :
    (recUntagged[1]?).map (·.val) = some (.bool false) ∧
      (Parse lib0 (B "prog") [B "true"] (.pointerToStruct recUntagged)).panic = none ∧
      (Parse lib0 (B "prog") [B "true"] (.pointerToStruct recUntagged)).flags.parsed = true := by
  decide

/-! ## The positional arguments -/

theorem walkField_capture (lib : Lib) (ii : Nat) (st : WalkState) (pp : StructField)
    (l : List GoString) (hp : st.panic = none) (hpp : st.ssvalue[ii]? = some pp)
    (ha : pp.Anonymous = false) (hn : pp.Name ≠ B "Usage") (hv : pp.val = .strings l) :
    walkField lib ii st = { st with argsptr := some ii } := by
  unfold walkField
  simp [hp, hpp, ha, hn, hv]

theorem walkField_argsptr (lib : Lib) (ii : Nat) (st : WalkState)
    (h : ∀ (pp : StructField) (l : List GoString),
      st.ssvalue[ii]? = some pp → pp.val ≠ .strings l) :
    (walkField lib ii st).argsptr = st.argsptr := by
  rcases frame_walkField lib ii st with hf | ⟨_, _, pp, l, hpp, hv, _, _⟩
  · exact hf.argsptr
  · exact absurd hv (h pp l hpp)

/-- After the walk, `argsptr` points at the last `[]string` field. -/
theorem walk_argsptr_last (lib : Lib) (prog : GoString) (r : Record) (k : Nat)
    (pp : StructField) (l : List GoString) (hpp : r[k]? = some pp)
    (hv : pp.val = .strings l) (ha : pp.Anonymous = false) (hn : pp.Name ≠ B "Usage")
    (hlast : ∀ (j : Nat) (q : StructField) (l' : List GoString),
      k < j → r[j]? = some q → q.val ≠ .strings l')
    (hok : (walk lib prog r).panic = none) : (walk lib prog r).argsptr = some k := by
  have hk : k + 1 ≤ r.length := getElem?_lt r k pp hpp
  have hk1 := (walkUpTo_mono lib prog r (k + 1) r.length hk).2.2.2 hok
  have hk0 := (walkUpTo_mono lib prog r k (k + 1) (Nat.le_succ k)).2.2.2 hk1
  have hcur : (walkUpTo lib prog r k).ssvalue[k]? = some pp := by
    rw [(walkInv_walkUpTo lib prog r k).later k (Nat.le_refl k)]; exact hpp
  have hbase : (walkUpTo lib prog r (k + 1)).argsptr = some k := by
    rw [walkUpTo_succ, walkField_capture lib k _ pp l hk0 hcur ha hn hv]
  have : ∀ n, k + 1 ≤ n → (walkUpTo lib prog r n).argsptr = some k := by
    intro n hn'
    induction n, hn' using Nat.le_induction with
    | base => exact hbase
    | succ n hle ih =>
      rw [walkUpTo_succ, walkField_argsptr lib n _ ?_]
      · exact ih
      · intro q l' hq
        rw [(walkInv_walkUpTo lib prog r n).later n (Nat.le_refl n)] at hq
        exact hlast n q l' (by omega) hq
  exact this r.length hk

/-- Without a `[]string` field `argsptr` stays nil. -/
theorem walk_argsptr_none (lib : Lib) (prog : GoString) (r : Record)
    (hnone : ∀ (j : Nat) (q : StructField) (l' : List GoString),
      r[j]? = some q → q.val ≠ .strings l') :
    (walk lib prog r).argsptr = none := by
  cases h : (walk lib prog r).argsptr with
  | none => rfl
  | some k =>
    obtain ⟨_, q, l, hq, hv⟩ := (walk_inv lib prog r).argsptr k h
    exact absurd hv (hnone k q l hq)

theorem with_val_eq (q pp : StructField) (v : Value) (h : descOf q = descOf pp) :
    { q with val := v } = { pp with val := v } := by
  cases q; cases pp
  simp only [descOf, Prod.mk.injEq] at h
  simp [h]

/-- After the walk, `argsptr` points at the last of the `[]string` fields that are neither
embedded nor named `Usage`. -/
theorem walk_argsptr_captured (lib : Lib) (prog : GoString) (r : Record) (k : Nat)
    (pp : StructField) (l : List GoString) (hpp : r[k]? = some pp)
    (hv : pp.val = .strings l) (ha : pp.Anonymous = false) (hn : pp.Name ≠ B "Usage")
    (hlast : ∀ (j : Nat) (q : StructField) (l' : List GoString),
      k < j → r[j]? = some q → q.val = .strings l' →
        q.Anonymous = true ∨ q.Name = B "Usage")
    (hok : (walk lib prog r).panic = none) : (walk lib prog r).argsptr = some k := by
  have hk : k + 1 ≤ r.length := getElem?_lt r k pp hpp
  have hk1 := (walkUpTo_mono lib prog r (k + 1) r.length hk).2.2.2 hok
  have hk0 := (walkUpTo_mono lib prog r k (k + 1) (Nat.le_succ k)).2.2.2 hk1
  have hcur : (walkUpTo lib prog r k).ssvalue[k]? = some pp := by
    rw [(walkInv_walkUpTo lib prog r k).later k (Nat.le_refl k)]; exact hpp
  have hbase : (walkUpTo lib prog r (k + 1)).argsptr = some k := by
    rw [walkUpTo_succ, walkField_capture lib k _ pp l hk0 hcur ha hn hv]
  have : ∀ n, k + 1 ≤ n → (walkUpTo lib prog r n).argsptr = some k := by
    intro n hn'
    induction n, hn' using Nat.le_induction with
    | base => exact hbase
    | succ n hle ih =>
      rw [walkUpTo_succ]
      rcases frame_walkField lib n (walkUpTo lib prog r n) with hf | ⟨_, _, q, l', hq, hqv, hqa, hqn⟩
      · rw [hf.argsptr]; exact ih
      · rw [(walkInv_walkUpTo lib prog r n).later n (Nat.le_refl n)] at hq
        rcases hlast n q l' (by omega) hq hqv with h | h
        · rw [hqa] at h; cases h
        · exact absurd h hqn
  exact this r.length hk

/-- C8 (amended): when `Parse` succeeds, the last of the `[]string` fields that are neither
embedded nor named `Usage` holds exactly `flags.Args()`, the arguments the flag parser
left over, which are a final segment of the argument vector, whatever the field held
before; and when the struct has no `[]string` field, nothing is stored after the flag
parser and `Parse` panics exactly when the flag parser reports an error. -/
theorem C8_positional_arguments (lib : Lib) (prog : GoString) (args : List GoString)
    (r : Record) :
    (∀ (k : Nat) (pp : StructField) (l : List GoString), r[k]? = some pp →
      pp.val = .strings l → pp.Anonymous = false → pp.Name ≠ B "Usage" →
      (∀ (j : Nat) (q : StructField) (l' : List GoString),
        k < j → r[j]? = some q → q.val = .strings l' →
          q.Anonymous = true ∨ q.Name = B "Usage") →
      (Parse lib prog args (.pointerToStruct r)).panic = none →
      (Parse lib prog args (.pointerToStruct r)).ssvalue[k]? =
          some { pp with val := .strings (Parse lib prog args (.pointerToStruct r)).flags.args } ∧
        (Parse lib prog args (.pointerToStruct r)).flags.args <:+ args) ∧
    ((∀ (j : Nat) (q : StructField) (l' : List GoString),
        r[j]? = some q → q.val ≠ .strings l') →
      (preParse lib prog r).panic = none →
      ¬ ((preParse lib prog r).hasBoolArg = true ∧ args.any (isBoolWord lib) = true) →
      (Parse lib prog args (.pointerToStruct r)).ssvalue =
          ((preParse lib prog r).flags.Parse lib (preParse lib prog r).ssvalue args).ssvalue ∧
        (Parse lib prog args (.pointerToStruct r)).panic =
          (((preParse lib prog r).flags.Parse lib (preParse lib prog r).ssvalue args).err).map
            Panic.flagError) := by
  obtain ⟨wf, wa, _, _, wd, wp, _⟩ := writeUsage_frame prog (walk lib prog r)
  have hloop : StepFrame 0 []
      { (preParse lib prog r).flags with parsed := true, args := args }
      (preParse lib prog r).ssvalue
      ((preParse lib prog r).flags.Parse lib (preParse lib prog r).ssvalue args) :=
    (stepFrame_parseLoop lib 0 [] (args.length + 1)
      { (preParse lib prog r).flags with parsed := true, args := args }
      (preParse lib prog r).ssvalue).1
  constructor
  · intro k pp l hpp hv ha hn hlast hok
    obtain ⟨hpre, _, _, hflags, hss⟩ := Parse_ok lib prog args r hok
    have hptr : (preParse lib prog r).argsptr = some k := by
      rw [preParse, wa]
      exact walk_argsptr_captured lib prog r k pp l hpp hv ha hn hlast (wp hpre)
    have hdesc : (((preParse lib prog r).flags.Parse lib (preParse lib prog r).ssvalue
        args).ssvalue[k]?).map descOf = some (descOf pp) := by
      rw [desc_get? _ _ hloop.desc k, preParse, desc_get? _ _ wd k,
        desc_get? _ _ (walk_inv lib prog r).desc k, hpp]
      rfl
    refine ⟨?_, ?_⟩
    · rw [hss, hflags, hptr]
      simp only []
      rw [store_get?_eq]
      cases hq : ((preParse lib prog r).flags.Parse lib (preParse lib prog r).ssvalue
          args).ssvalue[k]? with
      | none => rw [hq] at hdesc; simp at hdesc
      | some q =>
        rw [hq] at hdesc
        simp only [Option.map_some', Option.some.injEq] at hdesc ⊢
        exact with_val_eq q pp _ hdesc
    · rw [hflags]
      exact hloop.suffix
  · intro hnone hpre hg
    have hptr : (preParse lib prog r).argsptr = none := by
      rw [preParse, wa]; exact walk_argsptr_none lib prog r hnone
    have hP : Parse lib prog args (.pointerToStruct r) = finish lib args (preParse lib prog r) :=
      rfl
    rw [hP]
    unfold finish boolGuard
    simp only [hpre, Option.isSome_none, Bool.false_eq_true, if_false, hg, hptr]
    cases he : ((preParse lib prog r).flags.Parse lib (preParse lib prog r).ssvalue args).err <;>
      simp

/-- C8 at the struct with `Name string` and `Args []string`, called with
`--Name=x pos1 pos2`, and at a struct without `[]string` field, called with two positional
arguments. -/
theorem C8_positional_arguments_witness :
    (Parse lib0 (B "prog") [B "--Name=x", B "pos1", B "pos2"]
        (.pointerToStruct recArgs)).ssvalue[2]? =
      some ⟨B "Args", [], [], false, .strings [B "pos1", B "pos2"]⟩ ∧
    (Parse lib0 (B "prog") [B "left", B "over"] (.pointerToStruct recName)).panic = none :=
  have h := (C8_positional_arguments lib0 (B "prog") [B "--Name=x", B "pos1", B "pos2"]
    recArgs).1 2 ⟨B "Args", [], [], false, .strings [B "old"]⟩ [B "old"] (by decide) rfl rfl
    (by decide)
    (fun j q _ hj hq _ => by
      have hnone : recArgs[j]? = none :=
        List.getElem?_eq_none (by have : recArgs.length = 3 := rfl; omega)
      rw [hnone] at hq
      cases hq)
    (by decide)
  have h2 := (C8_positional_arguments lib0 (B "prog") [B "left", B "over"] recName).2
    (fun j q l' hq => by
      rcases j with _ | _ | j
      · cases hq; intro e; cases e
      · cases hq; intro e; cases e
      · cases hq)
    (by decide) (by decide)
  ⟨h.1.trans (by decide), h2.2.trans (by decide)⟩

/-- C8 as stated fails for a struct with two `[]string` fields: `Parse` succeeds and the
parser leaves the argument `x` over, yet the first `[]string` field keeps what it held;
only the second receives the leftover arguments. It also fails for an embedded `[]string`
field, which the loop skips: the field keeps what it held. -/
theorem C8_two_slices_counterexample :
    (Parse lib0 (B "prog") [B "x"] (.pointerToStruct recTwoArgs)).panic = none ∧
      (Parse lib0 (B "prog") [B "x"] (.pointerToStruct recTwoArgs)).flags.args = [B "x"] ∧
      ((Parse lib0 (B "prog") [B "x"] (.pointerToStruct recTwoArgs)).ssvalue[1]?).map (·.val) =
        some (.strings [B "old"]) ∧
      ((Parse lib0 (B "prog") [B "x"] (.pointerToStruct recTwoArgs)).ssvalue[2]?).map (·.val) =
        some (.strings [B "x"]) ∧
      (Parse lib0 (B "prog") [B "x"] (.pointerToStruct recEmbeddedSlice)).panic = none ∧
      (Parse lib0 (B "prog") [B "x"] (.pointerToStruct recEmbeddedSlice)).flags.args =
        [B "x"] ∧
      (Parse lib0 (B "prog") [B "x"] (.pointerToStruct recEmbeddedSlice)).ssvalue[2]? =
        some ⟨B "Strs", [], [], true, .strings [B "emb"]⟩ := by
  decide

/-! ## The fuel of `TrimSpace` -/

/-- The fuel of `TrimLeft` is enough: what it returns starts with no white space. -/
theorem trimLeftFuel_done (fuel : Nat) :
    ∀ s : GoString, s.length ≤ fuel → leadingSpace (trimLeftFuel fuel s) = 0 := by
  induction fuel with
  | zero =>
    intro s h
    have : s = [] := List.length_eq_zero.1 (Nat.le_zero.1 h)
    subst this
    rfl
  | succ n ih =>
    intro s h
    unfold trimLeftFuel
    split
    · assumption
    · rename_i hw
      have hpos : leadingSpace s ≠ 0 := fun e => hw e
      apply ih
      rw [List.length_drop]
      omega

theorem spaceRunes_nonempty : ∀ e ∈ spaceRunes, 1 ≤ e.length := by decide

/-- The fuel of `TrimRight` is enough: what it returns ends with no white space. -/
theorem trimRightFuel_done (fuel : Nat) :
    ∀ r : GoString, r.length ≤ fuel →
      spaceRunes.find? (fun e => e.reverse.isPrefixOf (trimRightFuel fuel r)) = none := by
  induction fuel with
  | zero =>
    intro r h
    have : r = [] := List.length_eq_zero.1 (Nat.le_zero.1 h)
    subst this
    decide
  | succ n ih =>
    intro r h
    unfold trimRightFuel
    split
    · rename_i e he
      apply ih
      have := spaceRunes_nonempty e (List.mem_of_find?_eq_some he)
      rw [List.length_drop]
      omega
    · assumption

/-! ## The loop body, case by case -/

theorem tagParts_length (rawTag : GoString) (parts : List GoString)
    (h : tagParts rawTag = some parts) : 0 < parts.length := by
  unfold tagParts at h
  split at h
  · cases h
  · simp only [Option.some.injEq] at h
    rw [← h, tagSplit, Split_length]
    omega

/-- The five ways in which the loop body treats a field, with what it does in each. -/
theorem walkField_cases (lib : Lib) (ii : Nat) (st : WalkState) (pp : StructField)
    (hp : st.panic = none) (hpp : st.ssvalue[ii]? = some pp) :
    ((pp.Anonymous = true ∨ pp.Name = B "Usage" ∨
          ((∀ l, pp.val ≠ .strings l) ∧ tagParts pp.Tag = none)) ∧
        walkField lib ii st = st) ∨
    (pp.Anonymous = false ∧ pp.Name ≠ B "Usage" ∧ (∃ l, pp.val = .strings l) ∧
        walkField lib ii st = { st with argsptr := some ii }) ∨
    (pp.Anonymous = false ∧ pp.Name ≠ B "Usage" ∧ (∀ l, pp.val ≠ .strings l) ∧
        ∃ parts, tagParts pp.Tag = some parts ∧
          (pp.val.bindable = false ∨ (parts.length ≠ 1 ∧ parts.length ≠ 2)) ∧
          walkField lib ii st =
            { st with moreusage := st.moreusage ++ usageLine pp parts }) ∨
    (pp.Anonymous = false ∧ pp.Name ≠ B "Usage" ∧ pp.val.bindable = true ∧
        ∃ p0, tagParts pp.Tag = some [p0] ∧
          walkField lib ii st =
            if (st.flags.lookup pp.Name).isSome then
              { st with
                moreusage := st.moreusage ++ usageLine pp [p0]
                panic := some .flagRedefined }
            else { st with
              moreusage := st.moreusage ++ usageLine pp [p0]
              flags := { st.flags with
                formal := st.flags.formal ++ [flagFor ii pp (TrimSpace p0) pp.val] }
              hasBoolArg := st.hasBoolArg || pp.val.isBool }) ∨
    (pp.Anonymous = false ∧ pp.Name ≠ B "Usage" ∧ pp.val.bindable = true ∧
        ∃ p0 p1, tagParts pp.Tag = some [p0, p1] ∧
          walkField lib ii st =
            if pp.PkgPath = [] then
              if (st.flags.lookup pp.Name).isSome then
                { st with
                  ssvalue := store st.ssvalue ii (convertDefault lib pp.val (TrimSpace p1))
                  moreusage := st.moreusage ++ usageLine pp [p0, p1]
                  panic := some .flagRedefined }
              else { st with
                ssvalue := store st.ssvalue ii (convertDefault lib pp.val (TrimSpace p1))
                moreusage := st.moreusage ++ usageLine pp [p0, p1]
                flags := { st.flags with formal := st.flags.formal ++
                  [flagFor ii pp (TrimSpace p0) (convertDefault lib pp.val (TrimSpace p1))] }
                hasBoolArg := st.hasBoolArg || pp.val.isBool }
            else { st with
              moreusage := st.moreusage ++ usageLine pp [p0, p1]
              panic := some .reflectUnexported }) := by
  have hskip : ∀ h : pp.Anonymous = true ∨ pp.Name = B "Usage" ∨
      ((∀ l, pp.val ≠ .strings l) ∧ tagParts pp.Tag = none), walkField lib ii st = st := by
    intro h
    unfold walkField
    simp only [hp, hpp, Option.isSome_none, Bool.false_eq_true, if_false]
    rcases h with h | h | ⟨h1, h2⟩
    · simp [h]
    · simp [h]
    · by_cases ha : pp.Anonymous = true
      · simp [ha]
      · by_cases hn : pp.Name = B "Usage"
        · simp [hn]
        · simp only [ha, hn, if_false, h2]
          cases hv : pp.val <;> simp_all
  by_cases ha : pp.Anonymous = true
  · exact Or.inl ⟨Or.inl ha, hskip (Or.inl ha)⟩
  have ha' : pp.Anonymous = false := by simpa using ha
  by_cases hn : pp.Name = B "Usage"
  · exact Or.inl ⟨Or.inr (Or.inl hn), hskip (Or.inr (Or.inl hn))⟩
  by_cases hs : ∃ l, pp.val = .strings l
  · obtain ⟨l, hl⟩ := hs
    exact Or.inr (Or.inl ⟨ha', hn, ⟨l, hl⟩, walkField_capture lib ii st pp l hp hpp ha' hn hl⟩)
  have hs' : ∀ l, pp.val ≠ .strings l := fun l e => hs ⟨l, e⟩
  by_cases htn : tagParts pp.Tag = none
  · exact Or.inl ⟨Or.inr (Or.inr ⟨hs', htn⟩), hskip (Or.inr (Or.inr ⟨hs', htn⟩))⟩
  · obtain ⟨parts, ht⟩ := Option.ne_none_iff_exists'.1 htn
    have hlen := tagParts_length pp.Tag parts ht
    have hwf : walkField lib ii st = bindField lib ii pp parts st := by
      unfold walkField
      simp only [hp, hpp, ha', hn, ht, Option.isSome_none, Bool.false_eq_true, if_false]
    have hline : ∀ h : pp.val.bindable = false ∨ (parts.length ≠ 1 ∧ parts.length ≠ 2),
        walkField lib ii st = { st with moreusage := st.moreusage ++ usageLine pp parts } := by
      intro h
      rw [hwf, bindField_skip lib ii pp parts st h, if_pos hlen]
    by_cases hb : pp.val.bindable = true
    · rcases parts with _ | ⟨p0, _ | ⟨p1, _ | ⟨p2, t⟩⟩⟩
      · simp at hlen
      · right; right; right; left
        exact ⟨ha', hn, hb, p0, ht, by rw [hwf, bindField_one lib ii pp p0 st hp hpp hb]⟩
      · right; right; right; right
        exact ⟨ha', hn, hb, p0, p1, ht, by rw [hwf, bindField_two lib ii pp p0 p1 st hp hpp hb]⟩
      · right; right; left
        exact ⟨ha', hn, hs', _, ht, Or.inr (by simp), hline (Or.inr (by simp))⟩
    · have hb' : pp.val.bindable = false := by simpa using hb
      right; right; left
      exact ⟨ha', hn, hs', parts, ht, Or.inl hb', hline (Or.inl hb')⟩

/-! ## The usage lines and the seeded fields -/

theorem walkField_moreusage (lib : Lib) (ii : Nat) (st : WalkState) (pp : StructField)
    (hp : st.panic = none) (hpp : st.ssvalue[ii]? = some pp)
    (hok : (walkField lib ii st).panic = none) :
    (walkField lib ii st).moreusage = st.moreusage ++ lineOf pp := by
  rcases walkField_cases lib ii st pp hp hpp with
    ⟨h, e⟩ | ⟨ha, hn, ⟨l, hl⟩, e⟩ | ⟨ha, hn, hs, parts, ht, _, e⟩ | ⟨ha, hn, hb, p0, ht, e⟩ |
    ⟨ha, hn, hb, p0, p1, ht, e⟩
  · rw [e]
    have : lineOf pp = [] := by
      unfold lineOf
      rcases h with h | h | ⟨h1, h2⟩
      · simp [h]
      · simp [h]
      · split
        · rfl
        · cases hv : pp.val <;> simp_all
    rw [this, List.append_nil]
  · rw [e]
    have : lineOf pp = [] := by simp [lineOf, ha, hn, hl]
    rw [this, List.append_nil]
  · rw [e]
    have : lineOf pp = usageLine pp parts := by
      unfold lineOf
      simp only [ha, hn, Bool.false_eq_true, or_self, if_false, ht]
    rw [this]
  · have hl : lineOf pp = usageLine pp [p0] := by
      unfold lineOf
      simp only [ha, hn, Bool.false_eq_true, or_self, if_false, ht]
      cases hv : pp.val <;> simp_all [Value.bindable]
    rw [e] at hok ⊢
    by_cases hk : (st.flags.lookup pp.Name).isSome = true
    · rw [if_pos hk] at hok; simp at hok
    · rw [if_neg hk, hl]
  · have hl : lineOf pp = usageLine pp [p0, p1] := by
      unfold lineOf
      simp only [ha, hn, Bool.false_eq_true, or_self, if_false, ht]
      cases hv : pp.val <;> simp_all [Value.bindable]
    rw [e] at hok ⊢
    by_cases hx : pp.PkgPath = []
    · by_cases hk : (st.flags.lookup pp.Name).isSome = true
      · rw [if_pos hx, if_pos hk] at hok; simp at hok
      · rw [if_pos hx, if_neg hk, hl]
    · rw [if_neg hx] at hok; simp at hok

theorem walkField_none (lib : Lib) (ii : Nat) (st : WalkState) (h : st.ssvalue[ii]? = none) :
    walkField lib ii st = st := by
  unfold walkField
  simp [h]

theorem walkUpTo_panic_prev (lib : Lib) (prog : GoString) (r : Record) (n : Nat)
    (hok : (walkUpTo lib prog r (n + 1)).panic = none) : (walkUpTo lib prog r n).panic = none :=
  (walkUpTo_mono lib prog r n (n + 1) (Nat.le_succ n)).2.2.2 hok

theorem walkUpTo_get (lib : Lib) (prog : GoString) (r : Record) (n : Nat) :
    (walkUpTo lib prog r n).ssvalue[n]? = r[n]? :=
  (walkInv_walkUpTo lib prog r n).later n (Nat.le_refl n)

theorem walkUpTo_moreusage (lib : Lib) (prog : GoString) (r : Record) (n : Nat) :
    (walkUpTo lib prog r n).panic = none →
      (walkUpTo lib prog r n).moreusage = usageLines (r.take n) := by
  induction n with
  | zero => intro _; rfl
  | succ n ih =>
    intro hok
    have hprev := walkUpTo_panic_prev lib prog r n hok
    have hget := walkUpTo_get lib prog r n
    rw [walkUpTo_succ] at hok ⊢
    cases hpp : r[n]? with
    | none =>
      rw [hpp] at hget
      rw [walkField_none lib n _ hget, ih hprev, List.take_succ, hpp]
      simp
    | some pp =>
      rw [hpp] at hget
      rw [walkField_moreusage lib n _ pp hprev hget hok, ih hprev, List.take_succ, hpp]
      simp [usageLines]

/-- After a walk without panic `moreusage` holds one line for every field that is not
skipped, in declaration order. -/
theorem walk_moreusage (lib : Lib) (prog : GoString) (r : Record)
    (hok : (walk lib prog r).panic = none) : (walk lib prog r).moreusage = usageLines r := by
  have := walkUpTo_moreusage lib prog r r.length hok
  rwa [List.take_length] at this


theorem walkField_seed (lib : Lib) (ii : Nat) (st : WalkState) (pp : StructField)
    (hp : st.panic = none) (hpp : st.ssvalue[ii]? = some pp)
    (hok : (walkField lib ii st).panic = none) :
    (walkField lib ii st).ssvalue[ii]? = some (seedField lib pp) := by
  rcases walkField_cases lib ii st pp hp hpp with
    ⟨h, e⟩ | ⟨ha, hn, ⟨l, hl⟩, e⟩ | ⟨ha, hn, hs, parts, ht, hc, e⟩ | ⟨ha, hn, hb, p0, ht, e⟩ |
    ⟨ha, hn, hb, p0, p1, ht, e⟩
  · rw [e, hpp]
    have : seedField lib pp = pp := by
      unfold seedField
      rcases h with h | h | ⟨h1, h2⟩
      · simp [h]
      · simp [h]
      · split
        · rfl
        · simp [h2]
    rw [this]
  · rw [e]
    have : seedField lib pp = pp := by simp [seedField, hl, Value.bindable]
    rw [this]; exact hpp
  · rw [e]
    have : seedField lib pp = pp := by
      unfold seedField
      split
      · rfl
      · rw [ht]
        rcases hc with hc | ⟨h1, h2⟩
        · simp_all
        · rcases parts with _ | ⟨q0, _ | ⟨q1, _ | ⟨q2, t⟩⟩⟩ <;> simp_all
    rw [this]; exact hpp
  · have hs : seedField lib pp = pp := by simp [seedField, ht]
    rw [e] at hok ⊢
    by_cases hk : (st.flags.lookup pp.Name).isSome = true
    · rw [if_pos hk] at hok; simp at hok
    · rw [if_neg hk, hs]; exact hpp
  · have hs : seedField lib pp =
        { pp with val := convertDefault lib pp.val (TrimSpace p1) } := by
      simp [seedField, ht, ha, hn, hb]
    rw [e] at hok ⊢
    by_cases hx : pp.PkgPath = []
    · by_cases hk : (st.flags.lookup pp.Name).isSome = true
      · rw [if_pos hx, if_pos hk] at hok; simp at hok
      · rw [if_pos hx, if_neg hk, hs]
        simp [store_get?_eq, hpp]
    · rw [if_neg hx] at hok; simp at hok

/-- A field that is not a bindable field with a two-part tag is left as it is by the loop
body, also when the body panics. -/
theorem walkField_keep (lib : Lib) (ii : Nat) (st : WalkState) (pp : StructField)
    (hpp : st.ssvalue[ii]? = some pp)
    (hne : ∀ p0 p1, ¬ (pp.Anonymous = false ∧ pp.Name ≠ B "Usage" ∧
      pp.val.bindable = true ∧ tagParts pp.Tag = some [p0, p1])) :
    (walkField lib ii st).ssvalue[ii]? = some pp := by
  cases hp : st.panic with
  | some p =>
    have : walkField lib ii st = st := by unfold walkField; simp [hp]
    rw [this]; exact hpp
  | none =>
    rcases walkField_cases lib ii st pp hp hpp with
      ⟨h, e⟩ | ⟨ha, hn, ⟨l, hl⟩, e⟩ | ⟨ha, hn, hs, parts, ht, hc, e⟩ | ⟨ha, hn, hb, p0, ht, e⟩ |
      ⟨ha, hn, hb, p0, p1, ht, e⟩
    · rw [e]; exact hpp
    · rw [e]; exact hpp
    · rw [e]; exact hpp
    · rw [e]; split <;> exact hpp
    · exact absurd ⟨ha, hn, hb, ht⟩ (hne p0 p1)

theorem walk_seed (lib : Lib) (prog : GoString) (r : Record) (i : Nat) (pp : StructField)
    (hpp : r[i]? = some pp) (hok : (walk lib prog r).panic = none) :
    (walk lib prog r).ssvalue[i]? = some (seedField lib pp) := by
  have hi : i + 1 ≤ r.length := getElem?_lt r i pp hpp
  obtain ⟨m1, _, _, m4⟩ := walkUpTo_mono lib prog r (i + 1) r.length hi
  have hq1 := m4 hok
  have hq := walkUpTo_panic_prev lib prog r i hq1
  have hcur : (walkUpTo lib prog r i).ssvalue[i]? = some pp := by
    rw [walkUpTo_get]; exact hpp
  unfold walk
  rw [m1 i (Nat.lt_succ_self i)]
  rw [walkUpTo_succ] at hq1 ⊢
  exact walkField_seed lib i _ pp hq hcur hq1

theorem walk_keep (lib : Lib) (prog : GoString) (r : Record) (i : Nat) (pp : StructField)
    (hpp : r[i]? = some pp)
    (hne : ∀ p0 p1, ¬ (pp.Anonymous = false ∧ pp.Name ≠ B "Usage" ∧
      pp.val.bindable = true ∧ tagParts pp.Tag = some [p0, p1])) :
    (walk lib prog r).ssvalue[i]? = some pp := by
  have hi : i + 1 ≤ r.length := getElem?_lt r i pp hpp
  obtain ⟨m1, _, _, _⟩ := walkUpTo_mono lib prog r (i + 1) r.length hi
  have hcur : (walkUpTo lib prog r i).ssvalue[i]? = some pp := by
    rw [walkUpTo_get]; exact hpp
  unfold walk
  rw [m1 i (Nat.lt_succ_self i), walkUpTo_succ]
  exact walkField_keep lib i _ pp hcur hne

/-! ## Flags and their fields -/

theorem walkField_formal (lib : Lib) (ii : Nat) (st : WalkState) (fl : Flag)
    (h : fl ∈ (walkField lib ii st).flags.formal) :
    fl ∈ st.flags.formal ∨
      (fl.target = ii ∧ ∃ pp, st.ssvalue[ii]? = some pp ∧ isFlagField pp = true ∧
        fl.Name = pp.Name ∧ fl.kind = pp.val.flagKind) := by
  cases hp : st.panic with
  | some p =>
    have : walkField lib ii st = st := by unfold walkField; simp [hp]
    rw [this] at h; exact Or.inl h
  | none =>
    cases hpp : st.ssvalue[ii]? with
    | none => rw [walkField_none lib ii st hpp] at h; exact Or.inl h
    | some pp =>
      rcases walkField_cases lib ii st pp hp hpp with
        ⟨_, e⟩ | ⟨_, _, _, e⟩ | ⟨_, _, _, parts, _, _, e⟩ | ⟨ha, hn, hb, p0, ht, e⟩ |
        ⟨ha, hn, hb, p0, p1, ht, e⟩
      · rw [e] at h; exact Or.inl h
      · rw [e] at h; exact Or.inl h
      · rw [e] at h; exact Or.inl h
      · rw [e] at h
        split at h
        · exact Or.inl h
        · simp only [List.mem_append, List.mem_singleton] at h
          rcases h with h | h
          · exact Or.inl h
          · subst h
            exact Or.inr ⟨rfl, pp, rfl, by simp [isFlagField, ha, hn, hb, ht], rfl, rfl⟩
      · rw [e] at h
        split at h
        · split at h
          · exact Or.inl h
          · simp only [List.mem_append, List.mem_singleton] at h
            rcases h with h | h
            · exact Or.inl h
            · subst h
              exact Or.inr ⟨rfl, pp, rfl, by simp [isFlagField, ha, hn, hb, ht], rfl, rfl⟩
        · exact Or.inl h

/-- Every flag that the walk registers belongs to a field for which `isFlagField` holds,
and has that field's name and kind. -/
theorem walk_flag_target (lib : Lib) (prog : GoString) (r : Record) (fl : Flag)
    (h : fl ∈ (walk lib prog r).flags.formal) :
    ∃ pp, r[fl.target]? = some pp ∧ isFlagField pp = true ∧ fl.Name = pp.Name ∧
      fl.kind = pp.val.flagKind := by
  have : ∀ n, fl ∈ (walkUpTo lib prog r n).flags.formal →
      ∃ pp, r[fl.target]? = some pp ∧ isFlagField pp = true ∧ fl.Name = pp.Name ∧
        fl.kind = pp.val.flagKind := by
    intro n
    induction n with
    | zero => intro h0; simp [walkUpTo, initState, NewFlagSet] at h0
    | succ n ih =>
      intro hn
      rw [walkUpTo_succ] at hn
      rcases walkField_formal lib n _ fl hn with h1 | ⟨ht, pp, hpp, hf, hname, hk⟩
      · exact ih h1
      · rw [walkUpTo_get] at hpp
        exact ⟨pp, by rw [ht]; exact hpp, hf, hname, hk⟩
  exact this r.length h

/-- No flag targets a field for which `isFlagField` fails. -/
theorem walk_no_flag (lib : Lib) (prog : GoString) (r : Record) (i : Nat) (pp : StructField)
    (hpp : r[i]? = some pp) (hf : isFlagField pp = false) :
    ∀ fl ∈ (walk lib prog r).flags.formal, fl.target ≠ i := by
  intro fl hfl e
  obtain ⟨q, hq, hqf, _, _⟩ := walk_flag_target lib prog r fl hfl
  rw [e, hpp] at hq
  simp only [Option.some.injEq] at hq
  subst hq
  rw [hf] at hqf
  exact absurd hqf (by simp)

theorem Set_skips (lib : Lib) (i : Nat) (f : FlagSet) (rec : Record) (fl : Flag)
    (name value : GoString) (hno : ∀ fl ∈ f.formal, fl.target ≠ i)
    (hl : f.lookup name = some fl) : (fl.Set lib value rec).1[i]? = rec[i]? := by
  obtain ⟨w, hw⟩ := Flag.Set_store lib fl value rec
  rw [hw]
  exact store_get?_ne _ _ _ _ (fun e => hno fl (lookup_spec f name fl hl).1 e.symm)

theorem setFlag_skips (lib : Lib) (i : Nat) (f : FlagSet) (rec : Record)
    (name : GoString) (hasValue : Bool) (value : GoString)
    (hno : ∀ fl ∈ f.formal, fl.target ≠ i) :
    (setFlag lib f rec name hasValue value).ssvalue[i]? = rec[i]? := by
  unfold setFlag
  cases hl : f.lookup name with
  | none => simp only []; split <;> rfl
  | some fl =>
    have hs : ∀ v, (fl.Set lib v rec).1[i]? = rec[i]? :=
      fun v => Set_skips lib i f rec fl name v hno hl
    simp only []
    by_cases hk : fl.kind = .boolValue
    · rw [if_pos hk]
      by_cases h2 : (fl.Set lib (if hasValue = true then value else B "true") rec).2 = true
      · rw [if_pos h2]; exact hs _
      · rw [if_neg h2]; exact hs _
    · rw [if_neg hk]
      cases hasValue with
      | true =>
        simp only []
        by_cases h2 : (fl.Set lib value rec).2 = true
        · rw [if_pos h2]; exact hs _
        · rw [if_neg h2]; exact hs _
      | false =>
        cases hargs : f.args with
        | nil => rfl
        | cons next rest1 =>
          simp only []
          by_cases h2 : (fl.Set lib next rec).2 = true
          · rw [if_pos h2]; exact hs _
          · rw [if_neg h2]; exact hs _

theorem ite_step (c : Prop) [Decidable c] (P : ParseStep → Prop) (a b : ParseStep)
    (ha : P a) (hb : P b) : P (if c then a else b) := by
  split <;> assumption

theorem parseOne_skips (lib : Lib) (i : Nat) (f : FlagSet) (rec : Record)
    (hno : ∀ fl ∈ f.formal, fl.target ≠ i) :
    (parseOne lib f rec).ssvalue[i]? = rec[i]? := by
  unfold parseOne
  cases hargs : f.args with
  | nil => rfl
  | cons s rest =>
    simp only []
    by_cases c1 : s.length < 2 ∨ s.head? ≠ some 45
    · rw [if_pos c1]
    · rw [if_neg c1]
      by_cases c2 : (if s[1]? = some 45 then 2 else 1) = 2 ∧ s.length = 2
      · rw [if_pos c2]
      · rw [if_neg c2]
        exact ite_step _ (fun x => x.ssvalue[i]? = rec[i]?) _ _ rfl
          (setFlag_skips lib i { f with args := rest } rec _ _ _ hno)

/-- The flag parser leaves alone a field that no flag targets, whatever the outcome. -/
theorem parseLoop_skips (lib : Lib) (i : Nat) (fuel : Nat) :
    ∀ (f : FlagSet) (rec : Record), (∀ fl ∈ f.formal, fl.target ≠ i) →
      (parseLoop lib fuel f rec).ssvalue[i]? = rec[i]? := by
  induction fuel with
  | zero => intro f rec _; rfl
  | succ n ih =>
    intro f rec hno
    have h1 := stepFrame_parseOne lib 0 [] f rec
    unfold parseLoop
    simp only []
    by_cases hs : (parseOne lib f rec).seen = true
    · rw [if_pos hs, ih _ _ (by rw [h1.formal]; exact hno)]
      exact parseOne_skips lib i f rec hno
    · rw [if_neg hs]
      exact parseOne_skips lib i f rec hno

/-- `finish` leaves alone a field that no flag targets and that `argsptr` does not point
at, whatever the outcome. -/
theorem finish_skips (lib : Lib) (args : List GoString) (st : WalkState) (i : Nat)
    (hno : ∀ fl ∈ st.flags.formal, fl.target ≠ i) (hptr : st.argsptr ≠ some i) :
    (finish lib args st).ssvalue[i]? = st.ssvalue[i]? := by
  have hloop : (st.flags.Parse lib st.ssvalue args).ssvalue[i]? = st.ssvalue[i]? :=
    parseLoop_skips lib i (args.length + 1) { st.flags with parsed := true, args := args }
      st.ssvalue hno
  unfold finish
  split
  · rfl
  · simp only []
    split
    · exact hloop
    · split
      · rename_i k hk
        rw [store_get?_ne _ _ _ _ (fun e => hptr (by rw [hk, e]))]
        exact hloop
      · exact hloop

theorem FieldByName_index (name : GoString) (a b : Record)
    (h : a.map descOf = b.map descOf) :
    (FieldByName name a).map Prod.fst = (FieldByName name b).map Prod.fst := by
  induction a generalizing b with
  | nil =>
    cases b with
    | nil => rfl
    | cons q b => simp at h
  | cons p a ih =>
    cases b with
    | nil => simp at h
    | cons q b =>
      simp only [List.map_cons, List.cons.injEq] at h
      have hn : p.Name = q.Name := by
        have := congrArg Prod.fst h.1
        simpa [descOf] using this
      have := ih b h.2
      unfold FieldByName
      rw [hn]
      by_cases hq : q.Name = name
      · simp [hq]
      · simp only [hq, if_false, Option.map_map]
        cases ha : FieldByName name a <;> cases hb : FieldByName name b <;>
          simp_all

/-- The write of the usage text: when it does not panic, the field named `Usage` is
exported, of kind `String`, and holds the usage text. -/
theorem preParse_usage (lib : Lib) (prog : GoString) (r : Record) (k : Nat)
    (pu : StructField) (hf : FieldByName (B "Usage") r = some (k, pu))
    (hok : (preParse lib prog r).panic = none) :
    (preParse lib prog r).ssvalue[k]? =
        some { pu with val := pu.val.withText (usageText prog pu.Tag r) } ∧
      pu.PkgPath = [] ∧
      ((∃ s, pu.val = .string s) ∨ ∃ typ s, pu.val = .namedString typ s) := by
  obtain ⟨_, _, _, _, _, wp, _⟩ := writeUsage_frame prog (walk lib prog r)
  have hw := wp hok
  obtain ⟨hk, hname⟩ := FieldByName_spec _ _ _ _ hf
  have hkeep : (walk lib prog r).ssvalue[k]? = some pu :=
    walk_keep lib prog r k pu hk (fun p0 p1 h => h.2.1 hname)
  have hidx := FieldByName_index (B "Usage") (walk lib prog r).ssvalue r
    (walk_inv lib prog r).desc
  rw [hf] at hidx
  have hfw : FieldByName (B "Usage") (walk lib prog r).ssvalue = some (k, pu) := by
    cases hc : FieldByName (B "Usage") (walk lib prog r).ssvalue with
    | none => rw [hc] at hidx; simp at hidx
    | some kp =>
      obtain ⟨k', pu'⟩ := kp
      rw [hc] at hidx
      simp only [Option.map_some', Option.some.injEq] at hidx
      subst hidx
      have := (FieldByName_spec _ _ _ _ hc).1
      rw [hkeep] at this
      simp only [Option.some.injEq] at this
      rw [this]
  have hmu := walk_moreusage lib prog r hw
  have hstore : ∀ v, (store (walk lib prog r).ssvalue k v)[k]? = some { pu with val := v } := by
    intro v; rw [store_get?_eq, hkeep]; rfl
  unfold preParse writeUsage at hok ⊢
  simp only [hw, Option.isSome_none, Bool.false_eq_true, if_false, hfw] at hok ⊢
  by_cases hx : pu.PkgPath = []
  · rw [if_pos hx] at hok ⊢
    cases hv : pu.val with
    | string s0 =>
      simp only []
      exact ⟨by rw [hstore, hmu]; rfl, hx, Or.inl ⟨s0, rfl⟩⟩
    | namedString typ s0 =>
      simp only []
      exact ⟨by rw [hstore, hmu]; rfl, hx, Or.inr ⟨typ, s0, rfl⟩⟩
    | _ => rw [hv] at hok; simp at hok
  · rw [if_neg hx] at hok; simp at hok

theorem walkField_panic (lib : Lib) (ii : Nat) (st : WalkState) :
    (walkField lib ii st).panic = st.panic ∨
      (walkField lib ii st).panic = some .reflectUnexported ∨
      (walkField lib ii st).panic = some .flagRedefined := by
  cases hp : st.panic with
  | some p =>
    have : walkField lib ii st = st := by unfold walkField; simp [hp]
    rw [this]; exact Or.inl hp
  | none =>
    cases hpp : st.ssvalue[ii]? with
    | none => rw [walkField_none lib ii st hpp]; exact Or.inl hp
    | some pp =>
      rcases walkField_cases lib ii st pp hp hpp with
        ⟨_, e⟩ | ⟨_, _, _, e⟩ | ⟨_, _, _, parts, _, _, e⟩ | ⟨_, _, _, p0, _, e⟩ |
        ⟨_, _, _, p0, p1, _, e⟩
      · rw [e]; exact Or.inl hp
      · rw [e]; exact Or.inl hp
      · rw [e]; exact Or.inl hp
      · rw [e]; split
        · exact Or.inr (Or.inr rfl)
        · exact Or.inl hp
      · rw [e]; split
        · split
          · exact Or.inr (Or.inr rfl)
          · exact Or.inl hp
        · exact Or.inr (Or.inl rfl)

theorem walk_panic (lib : Lib) (prog : GoString) (r : Record) :
    (walk lib prog r).panic = none ∨ (walk lib prog r).panic = some .reflectUnexported ∨
      (walk lib prog r).panic = some .flagRedefined := by
  have : ∀ n, (walkUpTo lib prog r n).panic = none ∨
      (walkUpTo lib prog r n).panic = some .reflectUnexported ∨
      (walkUpTo lib prog r n).panic = some .flagRedefined := by
    intro n
    induction n with
    | zero => exact Or.inl rfl
    | succ n ih =>
      rw [walkUpTo_succ]
      rcases walkField_panic lib n (walkUpTo lib prog r n) with h | h | h
      · rw [h]; exact ih
      · exact Or.inr (Or.inl h)
      · exact Or.inr (Or.inr h)
  exact this r.length

/-- The walk and the usage write never panic with the bool-syntax message. -/
theorem preParse_not_boolSyntax (lib : Lib) (prog : GoString) (r : Record) :
    (preParse lib prog r).panic ≠ some .boolSyntax := by
  unfold preParse writeUsage
  rcases walk_panic lib prog r with h | h | h
  · simp only [h, Option.isSome_none, Bool.false_eq_true, if_false]
    split
    · simp
    · split
      · split <;> simp [h]
      · simp
  · simp [h]
  · simp [h]

/-- A panic with the bool-syntax message comes from the guard: the walk and the usage
write went through, and the struct is as the usage write left it. -/
theorem Parse_boolSyntax (lib : Lib) (prog : GoString) (args : List GoString) (r : Record)
    (h : (Parse lib prog args (.pointerToStruct r)).panic = some .boolSyntax) :
    (preParse lib prog r).panic = none ∧
      (Parse lib prog args (.pointerToStruct r)).ssvalue = (preParse lib prog r).ssvalue := by
  have hP : Parse lib prog args (.pointerToStruct r) = finish lib args (preParse lib prog r) :=
    rfl
  rw [hP] at h ⊢
  cases hq : (preParse lib prog r).panic with
  | some p =>
    rw [finish_panicked lib args _ p hq] at h
    simp only [Option.some.injEq] at h
    rw [h] at hq
    exact absurd hq (preParse_not_boolSyntax lib prog r)
  | none =>
    refine ⟨rfl, ?_⟩
    by_cases hg : (preParse lib prog r).hasBoolArg = true ∧ args.any (isBoolWord lib) = true
    · rw [finish_guarded lib args _ hq hg.1 hg.2]
    · exact absurd h (finish_parsed lib args _ hq hg).1

/-- `Parse` leaves alone a field for which no flag is registered, that is not named `Usage`
and not of type `[]string`: it ends as the walk left it, whatever the outcome. -/
theorem Parse_skips (lib : Lib) (prog : GoString) (args : List GoString) (r : Record)
    (i : Nat) (pp : StructField) (hpp : r[i]? = some pp) (hn : pp.Name ≠ B "Usage")
    (hs : ∀ l, pp.val ≠ .strings l) (hf : isFlagField pp = false) :
    (Parse lib prog args (.pointerToStruct r)).ssvalue[i]? = (walk lib prog r).ssvalue[i]? := by
  obtain ⟨wf, wa, _, _, _, _, _⟩ := writeUsage_frame prog (walk lib prog r)
  have hP : Parse lib prog args (.pointerToStruct r) = finish lib args (preParse lib prog r) :=
    rfl
  rw [hP, finish_skips lib args _ i ?_ ?_, preParse_get lib prog r i pp hpp hn]
  · rw [preParse, wf]
    exact walk_no_flag lib prog r i pp hpp hf
  · rw [preParse, wa]
    intro hk
    obtain ⟨_, q, l, hq, hv⟩ := (walk_inv lib prog r).argsptr i hk
    rw [hpp] at hq
    simp only [Option.some.injEq] at hq
    subst hq
    exact hs l hv

/-- C16: an argument that is a nil interface, no pointer, or a pointer to something that is
no struct makes `Parse` panic before anything is initialised: the result has no struct, the
flag set is the empty, unparsed one, and the panic is the nil dereference of line 19, the
message of line 21, or the message of line 26. -/
theorem C16_precondition (lib : Lib) (prog : GoString) (args : List GoString) (ss : Arg)
    (h : ss = .nilInterface ∨ ss = .notPointer ∨ ss = .pointerToOther) :
    (Parse lib prog args ss).panic ≠ none ∧
      (ss = .nilInterface → (Parse lib prog args ss).panic = some .nilType) ∧
      (ss = .notPointer → (Parse lib prog args ss).panic = some .notPointer) ∧
      (ss = .pointerToOther → (Parse lib prog args ss).panic = some .notStruct) ∧
      (Parse lib prog args ss).ssvalue = [] ∧
      (Parse lib prog args ss).flags.formal = [] ∧
      (Parse lib prog args ss).flags.actual = [] ∧
      (Parse lib prog args ss).flags.parsed = false := by
  rcases h with h | h | h <;> subst h <;> simp [Parse, NewFlagSet]

theorem C16_precondition_witness :
    (Parse lib0 (B "prog") [B "-Name=x"] .notPointer).panic = some .notPointer ∧
      (Parse lib0 (B "prog") [B "-Name=x"] .notPointer).flags.formal = [] :=
  have h := C16_precondition lib0 (B "prog") [B "-Name=x"] .notPointer (Or.inr (Or.inl rfl))
  ⟨h.2.2.1 rfl, h.2.2.2.2.2.1⟩

/-- C12: when the walk and the usage write go through, the field named `Usage` holds the
header with the program name and the field's own tag, verbatim, then `ARGS:`, then one line
per field in declaration order; a field that is embedded, named `Usage`, of type `[]string`,
or whose trimmed tag is empty contributes no line, and every other field contributes the
line built from its name, default part, type and description part. -/
theorem C12_usage_text (lib : Lib) (prog : GoString) (r : Record) (k : Nat)
    (pu : StructField) (hf : FieldByName (B "Usage") r = some (k, pu))
    (hok : (preParse lib prog r).panic = none) :
    (preParse lib prog r).ssvalue[k]? =
        some { pu with val := pu.val.withText (usageText prog pu.Tag r) } ∧
      usageText prog pu.Tag r =
        B "\n Usage of " ++ prog ++ B " # " ++ pu.Tag ++ B "\n ARGS:" ++
          (r.map lineOf).flatten ∧
      (∀ pp : StructField, pp.Anonymous = true ∨ pp.Name = B "Usage" ∨
          (∃ l, pp.val = .strings l) ∨ TrimSpace pp.Tag = [] → lineOf pp = []) ∧
      (∀ (pp : StructField) (c : Nat) (rest : GoString), pp.Anonymous = false →
          pp.Name ≠ B "Usage" → (∀ l, pp.val ≠ .strings l) → TrimSpace pp.Tag = c :: rest →
          lineOf pp = B "\n\t--" ++ pp.Name ++ B ": " ++ partOne (tagSplit c rest) ++
            B " <-- Default, " ++ pp.val.TypeString ++ B " # " ++ partZero (tagSplit c rest)) := by
  refine ⟨(preParse_usage lib prog r k pu hf hok).1, rfl, ?_, ?_⟩
  · intro pp h
    unfold lineOf
    rcases h with h | h | ⟨l, h⟩ | h
    · simp [h]
    · simp [h]
    · rw [h]; simp
    · simp only [tagParts, h]
      split
      · rfl
      · cases pp.val <;> rfl
  · intro pp c rest ha hn hs ht
    unfold lineOf
    simp only [ha, hn, Bool.false_eq_true, or_self, if_false, tagParts, ht]
    cases hv : pp.val with
    | strings l => exact absurd hv (hs l)
    | _ => simp only [usageLine, hv]

theorem C12_usage_text_witness :
    (preParse lib0 (B "prog") recName).ssvalue[0]? =
      some ⟨B "Usage", [], B "demo", false,
        .string (B "\n Usage of " ++ B "prog" ++ B " # " ++ B "demo" ++ B "\n ARGS:" ++
          B "\n\t--Name: bob <-- Default, string # n")⟩ :=
  (C12_usage_text lib0 (B "prog") recName 0 ⟨B "Usage", [], B "demo", false, .string []⟩
    (by decide) (by decide)).1.trans (by decide)

/-- C13: when `Parse` panics with the message of the bool guard, the field named `Usage`
already holds the usage text, and that is the value every other call of `Parse` on the same
struct leaves in it, whatever its arguments and in particular when it succeeds. -/
theorem C13_usage_on_rejection (lib : Lib) (prog : GoString) (args : List GoString)
    (r : Record) (k : Nat) (pu : StructField)
    (hf : FieldByName (B "Usage") r = some (k, pu))
    (hfail : (Parse lib prog args (.pointerToStruct r)).panic = some .boolSyntax) :
    (Parse lib prog args (.pointerToStruct r)).ssvalue[k]? =
        some { pu with val := pu.val.withText (usageText prog pu.Tag r) } ∧
      ∀ args2 : List GoString,
        (Parse lib prog args2 (.pointerToStruct r)).ssvalue[k]? =
          (Parse lib prog args (.pointerToStruct r)).ssvalue[k]? := by
  obtain ⟨hpre, hss⟩ := Parse_boolSyntax lib prog args r hfail
  obtain ⟨hu, hx, hkind⟩ := preParse_usage lib prog r k pu hf hpre
  obtain ⟨hk, hname⟩ := FieldByName_spec _ _ _ _ hf
  refine ⟨by rw [hss]; exact hu, ?_⟩
  intro args2
  rw [hss]
  obtain ⟨wf, wa, _, _, _, _, _⟩ := writeUsage_frame prog (walk lib prog r)
  have hP : Parse lib prog args2 (.pointerToStruct r) = finish lib args2 (preParse lib prog r) :=
    rfl
  rw [hP]
  apply finish_skips
  · rw [preParse, wf]
    exact walk_no_flag lib prog r k pu hk (by simp [isFlagField, hname])
  · rw [preParse, wa]
    intro hptr
    obtain ⟨_, q, l, hq, hv⟩ := (walk_inv lib prog r).argsptr k hptr
    rw [hk] at hq
    simp only [Option.some.injEq] at hq
    subst hq
    rcases hkind with ⟨s, hs⟩ | ⟨typ, s, hs⟩ <;> rw [hs] at hv <;> simp at hv

theorem C13_usage_on_rejection_witness :
    (Parse lib0 (B "prog") [B "true"] (.pointerToStruct recVerbose)).ssvalue[0]? =
      some ⟨B "Usage", [], B "demo", false,
        .string (usageText (B "prog") (B "demo") recVerbose)⟩ ∧
    (Parse lib0 (B "prog") [B "-Verbose"] (.pointerToStruct recVerbose)).panic = none ∧
    (Parse lib0 (B "prog") [B "-Verbose"] (.pointerToStruct recVerbose)).ssvalue[0]? =
      (Parse lib0 (B "prog") [B "true"] (.pointerToStruct recVerbose)).ssvalue[0]? :=
  have h := C13_usage_on_rejection lib0 (B "prog") [B "true"] recVerbose 0
    ⟨B "Usage", [], B "demo", false, .string []⟩ (by decide) (by decide)
  ⟨h.1, by decide, h.2 [B "-Verbose"]⟩

theorem finish_formal (lib : Lib) (args : List GoString) (st : WalkState) :
    (finish lib args st).flags.formal = st.flags.formal := by
  have hp : (st.flags.Parse lib st.ssvalue args).f.formal = st.flags.formal :=
    (stepFrame_parseLoop lib 0 [] (args.length + 1)
      { st.flags with parsed := true, args := args } st.ssvalue).1.formal
  unfold finish
  split
  · rfl
  · dsimp only
    split
    · exact hp
    · split <;> exact hp

/-- The flags that `Parse` leaves registered are those of the walk. -/
theorem Parse_formal (lib : Lib) (prog : GoString) (args : List GoString) (r : Record) :
    (Parse lib prog args (.pointerToStruct r)).flags.formal = (walk lib prog r).flags.formal := by
  have hP : Parse lib prog args (.pointerToStruct r) = finish lib args (preParse lib prog r) :=
    rfl
  rw [hP, finish_formal, preParse, (writeUsage_frame prog (walk lib prog r)).1]

/-- A field whose value is of none of the five bindable types and no `[]string`: the loop
body changes nothing but the usage lines. -/
theorem walkField_unbound (lib : Lib) (i : Nat) (st : WalkState) (pp : StructField)
    (hpp : st.ssvalue[i]? = some pp) (hb : pp.val.bindable = false) :
    (walkField lib i st).panic = st.panic ∧ (walkField lib i st).flags = st.flags ∧
      (walkField lib i st).ssvalue = st.ssvalue ∧
      (walkField lib i st).hasBoolArg = st.hasBoolArg := by
  cases hp : st.panic with
  | some p =>
    have : walkField lib i st = st := by unfold walkField; simp [hp]
    rw [this]; exact ⟨hp, rfl, rfl, rfl⟩
  | none =>
    rcases walkField_cases lib i st pp hp hpp with
      ⟨_, e⟩ | ⟨_, _, _, e⟩ | ⟨_, _, _, parts, _, _, e⟩ | ⟨_, _, hb1, _⟩ | ⟨_, _, hb1, _⟩
    · rw [e]; exact ⟨hp, rfl, rfl, rfl⟩
    · rw [e]; exact ⟨hp, rfl, rfl, rfl⟩
    · rw [e]; exact ⟨hp, rfl, rfl, rfl⟩
    · rw [hb] at hb1; cases hb1
    · rw [hb] at hb1; cases hb1

/-- C14: a field that is not embedded, not named `Usage`, not of type `[]string`, and whose
tag is empty after trimming: the loop body leaves the whole state as it is (no flag, no
usage line, no write), no flag of the finished call points at the field, the field
contributes nothing to the usage text, and the field holds its old value when `Parse` ends,
however it ends. -/
theorem C14_blank_annotation (lib : Lib) (prog : GoString) (args : List GoString)
    (r : Record) (i : Nat) (pp : StructField) (hpp : r[i]? = some pp)
    (ha : pp.Anonymous = false) (hn : pp.Name ≠ B "Usage") (hs : ∀ l, pp.val ≠ .strings l)
    (ht : TrimSpace pp.Tag = []) :
    (∀ st : WalkState, st.ssvalue[i]? = some pp → walkField lib i st = st) ∧
      (∀ fl ∈ (Parse lib prog args (.pointerToStruct r)).flags.formal, fl.target ≠ i) ∧
      lineOf pp = [] ∧
      (Parse lib prog args (.pointerToStruct r)).ssvalue[i]? = some pp := by
  have _ := ha
  have htp : tagParts pp.Tag = none := by simp [tagParts, ht]
  have hff : isFlagField pp = false := by simp [isFlagField, htp]
  refine ⟨?_, ?_, ?_, ?_⟩
  · intro st hst
    cases hp : st.panic with
    | some p => unfold walkField; simp [hp]
    | none =>
      rcases walkField_cases lib i st pp hp hst with
        ⟨_, e⟩ | ⟨_, _, ⟨l, hl⟩, _⟩ | ⟨_, _, _, parts, h, _⟩ | ⟨_, _, _, p0, h, _⟩ |
        ⟨_, _, _, p0, p1, h, _⟩
      · exact e
      · exact absurd hl (hs l)
      · rw [htp] at h; cases h
      · rw [htp] at h; cases h
      · rw [htp] at h; cases h
  · rw [Parse_formal]
    exact walk_no_flag lib prog r i pp hpp hff
  · unfold lineOf
    simp only [htp]
    split
    · rfl
    · cases pp.val <;> rfl
  · rw [Parse_skips lib prog args r i pp hpp hn hs hff]
    exact walk_keep lib prog r i pp hpp (fun p0 p1 h => by rw [htp] at h; cases h.2.2.2)

theorem C14_blank_annotation_witness :
    (Parse lib0 (B "prog") [B "x"] (.pointerToStruct recUntagged)).panic = none ∧
      (∀ fl ∈ (Parse lib0 (B "prog") [B "x"] (.pointerToStruct recUntagged)).flags.formal,
        fl.target ≠ 1) ∧
      (Parse lib0 (B "prog") [B "x"] (.pointerToStruct recUntagged)).ssvalue[1]? =
        some ⟨B "Verbose", [], [], false, .bool false⟩ :=
  have h := C14_blank_annotation lib0 (B "prog") [B "x"] recUntagged 1
    ⟨B "Verbose", [], [], false, .bool false⟩ (by decide) (by decide) (by decide)
    (by intro l; simp) (by decide)
  ⟨by decide, h.2.1, h.2.2.2⟩

/-- C15, counterexample: a field named `Usage` of a named string type is of none of the six
types, yet `Parse` overwrites it with the usage text; and a field named `Usage` of type
`uint` makes `Parse` panic in `SetString`. -/
theorem C15_usage_field_counterexample :
    (Parse lib0 (B "prog") [] (.pointerToStruct recUsageNamed)).panic = none ∧
      recUsageNamed[0]? =
        some ⟨B "Usage", [], B "demo", false, .namedString (B "main.Text") (B "old")⟩ ∧
      (Parse lib0 (B "prog") [] (.pointerToStruct recUsageNamed)).ssvalue[0]? =
        some ⟨B "Usage", [], B "demo", false, .namedString (B "main.Text")
          (B "\n Usage of " ++ B "prog" ++ B " # " ++ B "demo" ++ B "\n ARGS:" ++
            B "\n\t--Name: bob <-- Default, string # n")⟩ ∧
      (Parse lib0 (B "prog") [] (.pointerToStruct recUsageUint)).panic = some .reflectKind := by
  decide

/-- C15 (amended): a field that is not embedded, not named `Usage`, and whose type is none
of string, bool, int, int64, float64 and `[]string`: no flag of the finished call points at
it, it holds its old value when `Parse` ends, however it ends, and the loop body neither
panics nor touches the flag set or the struct for it, whatever the tag (the usage line is
still appended). -/
theorem C15_other_type (lib : Lib) (prog : GoString) (args : List GoString)
    (r : Record) (i : Nat) (pp : StructField) (hpp : r[i]? = some pp)
    (ha : pp.Anonymous = false) (hn : pp.Name ≠ B "Usage") (hb : pp.val.bindable = false)
    (hs : ∀ l, pp.val ≠ .strings l) :
    (∀ fl ∈ (Parse lib prog args (.pointerToStruct r)).flags.formal, fl.target ≠ i) ∧
      (Parse lib prog args (.pointerToStruct r)).ssvalue[i]? = some pp ∧
      (∀ st : WalkState, st.ssvalue[i]? = some pp →
        (walkField lib i st).panic = st.panic ∧ (walkField lib i st).flags = st.flags ∧
          (walkField lib i st).ssvalue = st.ssvalue) := by
  have _ := ha
  have hff : isFlagField pp = false := by simp [isFlagField, hb]
  refine ⟨?_, ?_, ?_⟩
  · rw [Parse_formal]
    exact walk_no_flag lib prog r i pp hpp hff
  · rw [Parse_skips lib prog args r i pp hpp hn hs hff]
    exact walk_keep lib prog r i pp hpp (fun p0 p1 h => by rw [hb] at h; cases h.2.2.1)
  · intro st hst
    obtain ⟨h1, h2, h3, _⟩ := walkField_unbound lib i st pp hst hb
    exact ⟨h1, h2, h3⟩

theorem C15_other_type_witness :
    (Parse lib0 (B "prog") [] (.pointerToStruct recUint)).panic = none ∧
      (∀ fl ∈ (Parse lib0 (B "prog") [] (.pointerToStruct recUint)).flags.formal,
        fl.target ≠ 1) ∧
      (Parse lib0 (B "prog") [] (.pointerToStruct recUint)).ssvalue[1]? =
        some ⟨B "Count", [], B "a count | 3", false, .other (B "uint")⟩ :=
  have h := C15_other_type lib0 (B "prog") [] recUint 1
    ⟨B "Count", [], B "a count | 3", false, .other (B "uint")⟩ (by decide) (by decide)
    (by decide) (by decide) (by intro l; simp)
  ⟨by decide, h.1, h.2.1⟩

/-- Without a field named `Usage` the usage write panics on the zero Value, unless the walk
has panicked before. -/
theorem preParse_no_usage (lib : Lib) (prog : GoString) (r : Record)
    (hf : FieldByName (B "Usage") r = none) :
    (preParse lib prog r).panic ≠ none ∧
      ((walk lib prog r).panic = none →
        preParse lib prog r = { walk lib prog r with panic := some .reflectZeroValue }) := by
  have hidx := FieldByName_index (B "Usage") (walk lib prog r).ssvalue r
    (walk_inv lib prog r).desc
  rw [hf] at hidx
  have hfw : FieldByName (B "Usage") (walk lib prog r).ssvalue = none := by
    cases hc : FieldByName (B "Usage") (walk lib prog r).ssvalue with
    | none => rfl
    | some kp => rw [hc] at hidx; simp at hidx
  unfold preParse writeUsage
  cases hw : (walk lib prog r).panic with
  | some p => simp [hw]
  | none => simp [hw, hfw]

/-- A panic before the guard leaves the flag set unparsed, with no flag set. -/
theorem Parse_early (lib : Lib) (prog : GoString) (args : List GoString) (r : Record)
    (h : (preParse lib prog r).panic ≠ none) :
    (Parse lib prog args (.pointerToStruct r)).panic = (preParse lib prog r).panic ∧
      (Parse lib prog args (.pointerToStruct r)).ssvalue = (preParse lib prog r).ssvalue ∧
      (Parse lib prog args (.pointerToStruct r)).flags.parsed = false ∧
      (Parse lib prog args (.pointerToStruct r)).flags.actual = [] := by
  obtain ⟨p, hp⟩ := Option.ne_none_iff_exists'.mp h
  have hP : Parse lib prog args (.pointerToStruct r) = finish lib args (preParse lib prog r) :=
    rfl
  rw [hP, finish_panicked lib args _ p hp, hp]
  refine ⟨rfl, rfl, ?_, ?_⟩
  · show (preParse lib prog r).flags.parsed = false
    rw [preParse, (writeUsage_frame prog (walk lib prog r)).1]
    exact (walk_inv lib prog r).parsed
  · show (preParse lib prog r).flags.actual = []
    rw [preParse, (writeUsage_frame prog (walk lib prog r)).1]
    exact (walk_inv lib prog r).actual

/-- C17, counterexample: a struct without a field named `Usage` whose unexported field has
a default makes `Parse` panic in the walk, at the `SetString` of line 96, not at the usage
write; and `Parse` succeeds on a struct whose `Usage` field is of a named string type. -/
theorem C17_walk_panics_first_counterexample :
    FieldByName (B "Usage") recHidden = none ∧
      (walk lib0 (B "prog") recHidden).panic = some .reflectUnexported ∧
      (Parse lib0 (B "prog") [] (.pointerToStruct recHidden)).panic =
        some .reflectUnexported ∧
      (Parse lib0 (B "prog") [] (.pointerToStruct recUsageNamed)).panic = none := by
  decide

/-- C17: for a struct without embedded fields. When no field is named `Usage`, `Parse`
panics, with the flag set unparsed; when the walk itself went through, the panic is that of
`SetString` on the zero Value at line 117, and the struct then holds what the walk left,
every field with a two-part tag of a bindable type carrying its default. And `Parse`
succeeds only when a field named `Usage` exists, is exported and is of kind string (type
`string` or a named string type). -/
theorem C17_usage_required (lib : Lib) (prog : GoString) (args : List GoString) (r : Record)
    (hflat : ∀ pp ∈ r, pp.Anonymous = false) :
    (FieldByName (B "Usage") r = none →
      (Parse lib prog args (.pointerToStruct r)).panic ≠ none ∧
        (Parse lib prog args (.pointerToStruct r)).flags.parsed = false ∧
        (Parse lib prog args (.pointerToStruct r)).flags.actual = [] ∧
        ((walk lib prog r).panic = none →
          (Parse lib prog args (.pointerToStruct r)).panic = some .reflectZeroValue ∧
            ∀ (i : Nat) (pp : StructField), r[i]? = some pp →
              (Parse lib prog args (.pointerToStruct r)).ssvalue[i]? =
                some (seedField lib pp))) ∧
    ((Parse lib prog args (.pointerToStruct r)).panic = none →
      ∃ k pu, FieldByName (B "Usage") r = some (k, pu) ∧ pu.PkgPath = [] ∧
        ((∃ s, pu.val = .string s) ∨ ∃ typ s, pu.val = .namedString typ s)) := by
  have _ := hflat
  constructor
  · intro hf
    obtain ⟨hne, hz⟩ := preParse_no_usage lib prog r hf
    obtain ⟨e1, e2, e3, e4⟩ := Parse_early lib prog args r hne
    refine ⟨by rw [e1]; exact hne, e3, e4, ?_⟩
    intro hw
    rw [e1, e2, hz hw]
    refine ⟨rfl, ?_⟩
    intro i pp hpp
    exact walk_seed lib prog r i pp hpp hw
  · intro hok
    have hpre := (Parse_ok lib prog args r hok).1
    cases hf : FieldByName (B "Usage") r with
    | none => exact absurd hpre (preParse_no_usage lib prog r hf).1
    | some kp =>
      obtain ⟨k, pu⟩ := kp
      obtain ⟨_, hx, hkind⟩ := preParse_usage lib prog r k pu hf hpre
      exact ⟨k, pu, rfl, hx, hkind⟩

theorem C17_usage_required_witness :
    (∀ pp ∈ recOnlyName, pp.Anonymous = false) ∧
      FieldByName (B "Usage") recOnlyName = none ∧
      (Parse lib0 (B "prog") [B "-Name=x"] (.pointerToStruct recOnlyName)).panic =
        some .reflectZeroValue ∧
      (Parse lib0 (B "prog") [B "-Name=x"] (.pointerToStruct recOnlyName)).ssvalue[0]? =
        some ⟨B "Name", [], B "n | bob", false, .string (B "bob")⟩ ∧
      (Parse lib0 (B "prog") [B "-Name=x"] (.pointerToStruct recOnlyName)).flags.parsed =
        false :=
  have h := (C17_usage_required lib0 (B "prog") [B "-Name=x"] recOnlyName (by decide)).1
    (by decide)
  ⟨by decide, by decide, (h.2.2.2 (by decide)).1,
    ((h.2.2.2 (by decide)).2 0 ⟨B "Name", [], B "n | bob", false, .string []⟩
      (by decide)).trans (by decide), h.2.1⟩

/-- The usage write leaves a `[]string` field alone. -/
theorem writeUsage_slice (prog : GoString) (st : WalkState) (i : Nat) (pp : StructField)
    (l : List GoString) (hpp : st.ssvalue[i]? = some pp) (hv : pp.val = .strings l) :
    (writeUsage prog st).ssvalue[i]? = some pp := by
  unfold writeUsage
  split
  · exact hpp
  · cases hf : FieldByName (B "Usage") st.ssvalue with
    | none => exact hpp
    | some kp =>
      obtain ⟨k, q⟩ := kp
      have hk := (FieldByName_spec _ _ _ _ hf).1
      by_cases hki : i = k
      · subst hki
        rw [hpp] at hk
        simp only [Option.some.injEq] at hk
        subst hk
        simp only [hv]
        split <;> exact hpp
      · simp only []
        split
        · split
          · simp only []; rw [store_get?_ne _ _ _ _ hki]; exact hpp
          · simp only []; rw [store_get?_ne _ _ _ _ hki]; exact hpp
          · exact hpp
        · exact hpp

/-- Once a `[]string` field has been captured, `argsptr` points at it or at a later field. -/
theorem walk_argsptr_ge (lib : Lib) (prog : GoString) (r : Record) (j : Nat)
    (q : StructField) (l : List GoString) (hq : r[j]? = some q) (hv : q.val = .strings l)
    (ha : q.Anonymous = false) (hn : q.Name ≠ B "Usage")
    (hok : (walk lib prog r).panic = none) :
    ∃ m, (walk lib prog r).argsptr = some m ∧ j ≤ m := by
  have hj : j + 1 ≤ r.length := getElem?_lt r j q hq
  have hj1 := (walkUpTo_mono lib prog r (j + 1) r.length hj).2.2.2 hok
  have hj0 := walkUpTo_panic_prev lib prog r j hj1
  have hcur : (walkUpTo lib prog r j).ssvalue[j]? = some q := by
    rw [walkUpTo_get]; exact hq
  have hbase : (walkUpTo lib prog r (j + 1)).argsptr = some j := by
    rw [walkUpTo_succ, walkField_capture lib j _ q l hj0 hcur ha hn hv]
  have : ∀ n, j + 1 ≤ n → ∃ m, (walkUpTo lib prog r n).argsptr = some m ∧ j ≤ m := by
    intro n hn'
    induction n, hn' using Nat.le_induction with
    | base => exact ⟨j, hbase, Nat.le_refl j⟩
    | succ n hle ih =>
      obtain ⟨m, hm, hjm⟩ := ih
      rw [walkUpTo_succ]
      rcases frame_walkField lib n (walkUpTo lib prog r n) with hf | ⟨e, _⟩
      · exact ⟨m, by rw [hf.argsptr]; exact hm, hjm⟩
      · exact ⟨n, by rw [e], by omega⟩
  exact this r.length hj

/-- The loop body on a `[]string` field changes nothing but `argsptr`. -/
theorem walkField_slice (lib : Lib) (i : Nat) (st : WalkState) (pp : StructField)
    (l : List GoString) (hpp : st.ssvalue[i]? = some pp) (hv : pp.val = .strings l) :
    (walkField lib i st).flags = st.flags ∧ (walkField lib i st).moreusage = st.moreusage ∧
      (walkField lib i st).ssvalue = st.ssvalue ∧ (walkField lib i st).panic = st.panic ∧
      (walkField lib i st).hasBoolArg = st.hasBoolArg := by
  cases hp : st.panic with
  | some p =>
    have : walkField lib i st = st := by unfold walkField; simp [hp]
    rw [this]; exact ⟨rfl, rfl, rfl, hp, rfl⟩
  | none =>
    rcases walkField_cases lib i st pp hp hpp with
      ⟨_, e⟩ | ⟨_, _, _, e⟩ | ⟨_, _, hs, _⟩ | ⟨_, _, hb, _⟩ | ⟨_, _, hb, _⟩
    · rw [e]; exact ⟨rfl, rfl, rfl, hp, rfl⟩
    · rw [e]; exact ⟨rfl, rfl, rfl, hp, rfl⟩
    · exact absurd hv (hs l)
    · rw [hv] at hb; cases hb
    · rw [hv] at hb; cases hb

/-- When `Parse` succeeds, the last `[]string` field holds the leftover arguments. -/
theorem Parse_last_slice (lib : Lib) (prog : GoString) (args : List GoString) (r : Record)
    (k : Nat) (pp : StructField) (l : List GoString) (hpp : r[k]? = some pp)
    (hv : pp.val = .strings l) (ha : pp.Anonymous = false) (hn : pp.Name ≠ B "Usage")
    (hlast : ∀ (j : Nat) (q : StructField) (l' : List GoString),
      k < j → r[j]? = some q → q.val ≠ .strings l')
    (hok : (Parse lib prog args (.pointerToStruct r)).panic = none) :
    (Parse lib prog args (.pointerToStruct r)).ssvalue[k]? =
      some { pp with val := .strings (Parse lib prog args (.pointerToStruct r)).flags.args } := by
  obtain ⟨wf, wa, _, _, wd, wp, _⟩ := writeUsage_frame prog (walk lib prog r)
  have hloop : StepFrame 0 []
      { (preParse lib prog r).flags with parsed := true, args := args }
      (preParse lib prog r).ssvalue
      ((preParse lib prog r).flags.Parse lib (preParse lib prog r).ssvalue args) :=
    (stepFrame_parseLoop lib 0 [] (args.length + 1)
      { (preParse lib prog r).flags with parsed := true, args := args }
      (preParse lib prog r).ssvalue).1
  obtain ⟨hpre, _, _, hflags, hss⟩ := Parse_ok lib prog args r hok
  have hptr : (preParse lib prog r).argsptr = some k := by
    rw [preParse, wa]
    exact walk_argsptr_last lib prog r k pp l hpp hv ha hn hlast (wp hpre)
  have hdesc : (((preParse lib prog r).flags.Parse lib (preParse lib prog r).ssvalue
      args).ssvalue[k]?).map descOf = some (descOf pp) := by
    rw [desc_get? _ _ hloop.desc k, preParse, desc_get? _ _ wd k,
      desc_get? _ _ (walk_inv lib prog r).desc k, hpp]
    rfl
  rw [hss, hflags, hptr]
  simp only []
  rw [store_get?_eq]
  cases hq : ((preParse lib prog r).flags.Parse lib (preParse lib prog r).ssvalue
      args).ssvalue[k]? with
  | none => rw [hq] at hdesc; simp at hdesc
  | some q =>
    rw [hq] at hdesc
    simp only [Option.map_some', Option.some.injEq] at hdesc ⊢
    exact with_val_eq q pp _ hdesc

/-- When `Parse` succeeds, a `[]string` field that is followed by another one that is
captured keeps its contents. -/
theorem Parse_earlier_slice (lib : Lib) (prog : GoString) (args : List GoString)
    (r : Record) (i j : Nat) (pp q : StructField) (l l' : List GoString)
    (hpp : r[i]? = some pp) (hv : pp.val = .strings l) (hij : i < j)
    (hq : r[j]? = some q) (hqv : q.val = .strings l') (ha : q.Anonymous = false)
    (hn : q.Name ≠ B "Usage")
    (hok : (Parse lib prog args (.pointerToStruct r)).panic = none) :
    (Parse lib prog args (.pointerToStruct r)).ssvalue[i]? = some pp := by
  obtain ⟨wf, wa, _, _, _, wp, _⟩ := writeUsage_frame prog (walk lib prog r)
  have hpre := (Parse_ok lib prog args r hok).1
  have hw := wp hpre
  have hP : Parse lib prog args (.pointerToStruct r) = finish lib args (preParse lib prog r) :=
    rfl
  have hkeep : (walk lib prog r).ssvalue[i]? = some pp :=
    walk_keep lib prog r i pp hpp (fun p0 p1 h => by rw [hv] at h; cases h.2.2.1)
  rw [hP, finish_skips lib args _ i ?_ ?_]
  · exact writeUsage_slice prog _ i pp l hkeep hv
  · rw [preParse, wf]
    exact walk_no_flag lib prog r i pp hpp (by simp [isFlagField, hv, Value.bindable])
  · rw [preParse, wa]
    obtain ⟨m, hm, hjm⟩ := walk_argsptr_ge lib prog r j q l' hq hqv ha hn hw
    rw [hm]
    intro e
    simp only [Option.some.injEq] at e
    omega

/-- When `Parse` succeeds, the last of the `[]string` fields that are neither embedded nor
named `Usage` holds the leftover arguments. -/
theorem Parse_captured (lib : Lib) (prog : GoString) (args : List GoString) (r : Record)
    (k : Nat) (pp : StructField) (l : List GoString) (hpp : r[k]? = some pp)
    (hv : pp.val = .strings l) (ha : pp.Anonymous = false) (hn : pp.Name ≠ B "Usage")
    (hlast : ∀ (j : Nat) (q : StructField) (l' : List GoString),
      k < j → r[j]? = some q → q.val = .strings l' →
        q.Anonymous = true ∨ q.Name = B "Usage")
    (hok : (Parse lib prog args (.pointerToStruct r)).panic = none) :
    (Parse lib prog args (.pointerToStruct r)).ssvalue[k]? =
      some { pp with val := .strings (Parse lib prog args (.pointerToStruct r)).flags.args } := by
  obtain ⟨wf, wa, _, _, wd, wp, _⟩ := writeUsage_frame prog (walk lib prog r)
  have hloop : StepFrame 0 []
      { (preParse lib prog r).flags with parsed := true, args := args }
      (preParse lib prog r).ssvalue
      ((preParse lib prog r).flags.Parse lib (preParse lib prog r).ssvalue args) :=
    (stepFrame_parseLoop lib 0 [] (args.length + 1)
      { (preParse lib prog r).flags with parsed := true, args := args }
      (preParse lib prog r).ssvalue).1
  obtain ⟨hpre, _, _, hflags, hss⟩ := Parse_ok lib prog args r hok
  have hptr : (preParse lib prog r).argsptr = some k := by
    rw [preParse, wa]
    exact walk_argsptr_captured lib prog r k pp l hpp hv ha hn hlast (wp hpre)
  have hdesc : (((preParse lib prog r).flags.Parse lib (preParse lib prog r).ssvalue
      args).ssvalue[k]?).map descOf = some (descOf pp) := by
    rw [desc_get? _ _ hloop.desc k, preParse, desc_get? _ _ wd k,
      desc_get? _ _ (walk_inv lib prog r).desc k, hpp]
    rfl
  rw [hss, hflags, hptr]
  simp only []
  rw [store_get?_eq]
  cases hq : ((preParse lib prog r).flags.Parse lib (preParse lib prog r).ssvalue
      args).ssvalue[k]? with
  | none => rw [hq] at hdesc; simp at hdesc
  | some q =>
    rw [hq] at hdesc
    simp only [Option.map_some', Option.some.injEq] at hdesc ⊢
    exact with_val_eq q pp _ hdesc

/-- When `Parse` succeeds, every `[]string` field other than the captured one keeps its
contents. -/
theorem Parse_other_slice (lib : Lib) (prog : GoString) (args : List GoString)
    (r : Record) (k : Nat) (pp : StructField) (l : List GoString) (hpp : r[k]? = some pp)
    (hv : pp.val = .strings l) (ha : pp.Anonymous = false) (hn : pp.Name ≠ B "Usage")
    (hlast : ∀ (j : Nat) (q : StructField) (l' : List GoString),
      k < j → r[j]? = some q → q.val = .strings l' →
        q.Anonymous = true ∨ q.Name = B "Usage")
    (i : Nat) (q : StructField) (l2 : List GoString) (hik : i ≠ k) (hq : r[i]? = some q)
    (hqv : q.val = .strings l2)
    (hok : (Parse lib prog args (.pointerToStruct r)).panic = none) :
    (Parse lib prog args (.pointerToStruct r)).ssvalue[i]? = some q := by
  obtain ⟨wf, wa, _, _, _, wp, _⟩ := writeUsage_frame prog (walk lib prog r)
  have hpre := (Parse_ok lib prog args r hok).1
  have hw := wp hpre
  have hP : Parse lib prog args (.pointerToStruct r) = finish lib args (preParse lib prog r) :=
    rfl
  have hkeep : (walk lib prog r).ssvalue[i]? = some q :=
    walk_keep lib prog r i q hq (fun p0 p1 h => by rw [hqv] at h; cases h.2.2.1)
  rw [hP, finish_skips lib args _ i ?_ ?_]
  · exact writeUsage_slice prog _ i q l2 hkeep hqv
  · rw [preParse, wf]
    exact walk_no_flag lib prog r i q hq (by simp [isFlagField, hqv, Value.bindable])
  · rw [preParse, wa, walk_argsptr_captured lib prog r k pp l hpp hv ha hn hlast hw]
    intro e
    simp only [Option.some.injEq] at e
    exact hik e.symm

/-- C18 as stated fails when the last `[]string` field is embedded: `Parse` succeeds with
the leftover argument `p`, the embedded field `Strs`, the last in declaration order, keeps
its contents, and the earlier field `Args` is overwritten with the leftover argument. -/
theorem C18_embedded_last_counterexample :
    (Parse lib0 (B "prog") [B "p"] (.pointerToStruct recEmbeddedSlice)).panic = none ∧
      recEmbeddedSlice[1]? = some ⟨B "Args", [], [], false, .strings [B "old"]⟩ ∧
      recEmbeddedSlice[2]? = some ⟨B "Strs", [], [], true, .strings [B "emb"]⟩ ∧
      (Parse lib0 (B "prog") [B "p"] (.pointerToStruct recEmbeddedSlice)).ssvalue[2]? =
        some ⟨B "Strs", [], [], true, .strings [B "emb"]⟩ ∧
      (Parse lib0 (B "prog") [B "p"] (.pointerToStruct recEmbeddedSlice)).ssvalue[1]? =
        some ⟨B "Args", [], [], false, .strings [B "p"]⟩ := by
  decide

/-- C18 (amended): when `Parse` succeeds, the last of the `[]string` fields that are
neither embedded nor named `Usage` holds the arguments the flag parser left over, and every
other `[]string` field, before or after it, embedded or not, holds what it held before the
call; and for every `[]string` field, whatever its tag, no flag of the finished call points
at it, it contributes no usage line, and the loop body leaves the flag set, the usage lines
and the struct as they are. -/
theorem C18_several_slices (lib : Lib) (prog : GoString) (args : List GoString)
    (r : Record) :
    (∀ (k : Nat) (pp : StructField) (l : List GoString), r[k]? = some pp →
      pp.val = .strings l → pp.Anonymous = false → pp.Name ≠ B "Usage" →
      (∀ (j : Nat) (q : StructField) (l' : List GoString),
        k < j → r[j]? = some q → q.val = .strings l' →
          q.Anonymous = true ∨ q.Name = B "Usage") →
      (Parse lib prog args (.pointerToStruct r)).panic = none →
      (Parse lib prog args (.pointerToStruct r)).ssvalue[k]? =
          some { pp with
            val := .strings (Parse lib prog args (.pointerToStruct r)).flags.args } ∧
        ∀ (i : Nat) (q : StructField) (l2 : List GoString), i ≠ k → r[i]? = some q →
          q.val = .strings l2 →
          (Parse lib prog args (.pointerToStruct r)).ssvalue[i]? = some q) ∧
    (∀ (i : Nat) (pp : StructField) (l : List GoString), r[i]? = some pp →
      pp.val = .strings l →
      (∀ fl ∈ (Parse lib prog args (.pointerToStruct r)).flags.formal, fl.target ≠ i) ∧
        lineOf pp = [] ∧
        ∀ st : WalkState, st.ssvalue[i]? = some pp →
          (walkField lib i st).flags = st.flags ∧
            (walkField lib i st).moreusage = st.moreusage ∧
            (walkField lib i st).ssvalue = st.ssvalue ∧
            (walkField lib i st).panic = st.panic) := by
  refine ⟨?_, ?_⟩
  · intro k pp l hpp hv ha hn hlast hok
    refine ⟨Parse_captured lib prog args r k pp l hpp hv ha hn hlast hok, ?_⟩
    intro i q l2 hik hq hqv
    exact Parse_other_slice lib prog args r k pp l hpp hv ha hn hlast i q l2 hik hq hqv hok
  · intro i pp l hpp hv
    refine ⟨?_, ?_, ?_⟩
    · rw [Parse_formal]
      exact walk_no_flag lib prog r i pp hpp (by simp [isFlagField, hv, Value.bindable])
    · unfold lineOf
      rw [hv]
      split <;> rfl
    · intro st hst
      obtain ⟨h1, h2, h3, h4, _⟩ := walkField_slice lib i st pp l hst hv
      exact ⟨h1, h2, h3, h4⟩

/-- C18 at a struct with the tagged `[]string` fields `First` and `Rest`, called with
`-Name=x p1 p2`: `Rest` receives the two positional arguments, `First` keeps its contents,
and no flag points at `First`. -/
theorem C18_several_slices_witness :
    (Parse lib0 (B "prog") [B "-Name=x", B "p1", B "p2"]
        (.pointerToStruct recTaggedArgs)).ssvalue[3]? =
      some ⟨B "Rest", [], B "the rest", false, .strings [B "p1", B "p2"]⟩ ∧
    (Parse lib0 (B "prog") [B "-Name=x", B "p1", B "p2"]
        (.pointerToStruct recTaggedArgs)).ssvalue[1]? =
      some ⟨B "First", [], B "first list | a", false, .strings [B "old"]⟩ ∧
    (∀ fl ∈ (Parse lib0 (B "prog") [B "-Name=x", B "p1", B "p2"]
        (.pointerToStruct recTaggedArgs)).flags.formal, fl.target ≠ 1) :=
  have h := C18_several_slices lib0 (B "prog") [B "-Name=x", B "p1", B "p2"] recTaggedArgs
  have h1 := h.1 3 ⟨B "Rest", [], B "the rest", false, .strings []⟩ [] (by decide) rfl rfl
    (by decide)
    (fun j q _ hj hq _ => by
      have hnone : recTaggedArgs[j]? = none :=
        List.getElem?_eq_none (by have : recTaggedArgs.length = 4 := rfl; omega)
      rw [hnone] at hq
      cases hq)
    (by decide)
  ⟨h1.1.trans (by decide),
    h1.2 1 ⟨B "First", [], B "first list | a", false, .strings [B "old"]⟩ [B "old"]
      (by decide) (by decide) rfl,
    (h.2 1 ⟨B "First", [], B "first list | a", false, .strings [B "old"]⟩ [B "old"]
      (by decide) rfl).1⟩

/-! ## `TrimSpace` as two commuting steps -/

theorem find?_ext {α : Type} (p q : α → Bool) (l : List α) (h : ∀ x ∈ l, p x = q x) :
    l.find? p = l.find? q := by
  induction l with
  | nil => rfl
  | cons a l ih =>
    have ha := h a (List.mem_cons_self a l)
    have := ih (fun x hx => h x (List.mem_cons_of_mem a hx))
    simp only [List.find?_cons, ha, this]

/-- The first match stays the first match when the test is narrowed to a test that it still
passes. -/
theorem find?_narrow {α : Type} (p q : α → Bool) (l : List α) (b : α)
    (h : l.find? p = some b) (hqp : ∀ x ∈ l, q x = true → p x = true) (hb : q b = true) :
    l.find? q = some b := by
  induction l with
  | nil => cases h
  | cons a l ih =>
    rw [List.find?_cons] at h ⊢
    cases hpa : p a with
    | true =>
      rw [hpa] at h
      simp only [Option.some.injEq] at h
      subst h
      rw [hb]
    | false =>
      rw [hpa] at h
      have hqa : q a = false := by
        cases hq : q a with
        | false => rfl
        | true => rw [hqp a (List.mem_cons_self a l) hq] at hpa; cases hpa
      rw [hqa]
      exact ih h (fun x hx => hqp x (List.mem_cons_of_mem a hx))

theorem find?_none_narrow {α : Type} (p q : α → Bool) (l : List α)
    (h : l.find? p = none) (hqp : ∀ x ∈ l, q x = true → p x = true) :
    l.find? q = none := by
  rw [List.find?_eq_none] at h ⊢
  intro x hx hq
  exact h x hx (hqp x hx hq)

theorem trimLeftFuel_iterate (n : Nat) : ∀ s : GoString, trimLeftFuel n s = lstep^[n] s := by
  induction n with
  | zero => intro s; rfl
  | succ n ih =>
    intro s
    rw [Function.iterate_succ_apply]
    unfold trimLeftFuel
    split
    · rename_i h0
      have hfix : lstep s = s := by unfold lstep; rw [h0]; rfl
      rw [hfix, Function.iterate_fixed hfix]
    · rw [ih]; rfl

theorem trimRightFuel_iterate (n : Nat) :
    ∀ r : GoString, trimRightFuel n r = rstepR^[n] r := by
  induction n with
  | zero => intro r; rfl
  | succ n ih =>
    intro r
    rw [Function.iterate_succ_apply]
    unfold trimRightFuel
    split
    · rename_i e he
      have : rstepR r = r.drop e.length := by unfold rstepR; rw [he]
      rw [this, ih]
    · rename_i he
      have hfix : rstepR r = r := by unfold rstepR; rw [he]
      rw [hfix, Function.iterate_fixed hfix]

theorem rstep_iterate (n : Nat) : ∀ s : GoString, rstep^[n] s = (rstepR^[n] s.reverse).reverse := by
  induction n with
  | zero => intro s; simp
  | succ n ih =>
    intro s
    rw [Function.iterate_succ_apply, Function.iterate_succ_apply, ih, rstep, List.reverse_reverse]

theorem lstep_length (s : GoString) : (lstep s).length ≤ s.length := by
  unfold lstep; rw [List.length_drop]; omega

theorem rstep_length (s : GoString) : (rstep s).length ≤ s.length := by
  unfold rstep rstepR
  split
  · rw [List.length_reverse, List.length_drop, List.length_reverse]; omega
  · rw [List.reverse_reverse]

theorem iterate_length (f : GoString → GoString) (hf : ∀ s, (f s).length ≤ s.length) (n : Nat) :
    ∀ s, (f^[n] s).length ≤ s.length := by
  induction n with
  | zero => intro s; exact Nat.le_refl _
  | succ n ih =>
    intro s
    rw [Function.iterate_succ_apply]
    exact Nat.le_trans (ih (f s)) (hf s)

/-- With enough fuel `TrimLeft` has reached a text that a further step leaves alone. -/
theorem lstep_fixed (n : Nat) (s : GoString) (h : s.length ≤ n) :
    lstep (lstep^[n] s) = lstep^[n] s := by
  have := trimLeftFuel_done n s h
  rw [trimLeftFuel_iterate] at this
  show (lstep^[n] s).drop (leadingSpace (lstep^[n] s)) = lstep^[n] s
  rw [this]; rfl

theorem rstep_fixed (n : Nat) (s : GoString) (h : s.length ≤ n) :
    rstep (rstep^[n] s) = rstep^[n] s := by
  have := trimRightFuel_done n s.reverse (by rw [List.length_reverse]; exact h)
  rw [trimRightFuel_iterate] at this
  rw [rstep_iterate, rstep, List.reverse_reverse, rstepR, this]

theorem TrimLeft_iterate (n : Nat) (s : GoString) (h : s.length ≤ n) :
    TrimLeft s = lstep^[n] s := by
  obtain ⟨k, rfl⟩ := Nat.exists_eq_add_of_le h
  rw [TrimLeft, trimLeftFuel_iterate, Nat.add_comm, Function.iterate_add_apply,
    Function.iterate_fixed (lstep_fixed s.length s (Nat.le_refl _))]

theorem TrimRight_iterate (n : Nat) (s : GoString) (h : s.length ≤ n) :
    TrimRight s = rstep^[n] s := by
  obtain ⟨k, rfl⟩ := Nat.exists_eq_add_of_le h
  rw [Nat.add_comm, Function.iterate_add_apply,
    Function.iterate_fixed (rstep_fixed s.length s (Nat.le_refl _)), rstep_iterate,
    TrimRight, trimRightFuel_iterate]

theorem lstep_some (s e : GoString)
    (h : spaceRunes.find? (fun r => r.isPrefixOf s) = some e) :
    ∃ t, s = e ++ t ∧ lstep s = t := by
  have hp := List.find?_some h
  rw [List.isPrefixOf_iff_prefix] at hp
  obtain ⟨t, ht⟩ := hp
  refine ⟨t, ht.symm, ?_⟩
  unfold lstep leadingSpace
  rw [h, ← ht]
  exact List.drop_left _ _

theorem lstep_none (s : GoString)
    (h : spaceRunes.find? (fun r => r.isPrefixOf s) = none) : lstep s = s := by
  unfold lstep leadingSpace
  rw [h]; rfl

theorem rstep_some (s e : GoString)
    (h : spaceRunes.find? (fun r => r.reverse.isPrefixOf s.reverse) = some e) :
    ∃ u, s = u ++ e ∧ rstep s = u := by
  have hp := List.find?_some h
  rw [List.isPrefixOf_iff_prefix, List.reverse_prefix] at hp
  obtain ⟨u, hu⟩ := hp
  refine ⟨u, hu.symm, ?_⟩
  unfold rstep rstepR
  rw [h, ← hu]
  simp

theorem rstep_none (s : GoString)
    (h : spaceRunes.find? (fun r => r.reverse.isPrefixOf s.reverse) = none) : rstep s = s := by
  unfold rstep rstepR
  rw [h]; simp

/-- No white-space encoding is a proper prefix of another one. -/
theorem spaceRunes_prefix_free :
    ∀ e1 ∈ spaceRunes, ∀ e2 ∈ spaceRunes, e1.isPrefixOf e2 = true → e1 = e2 := by decide

/-- No white-space encoding starts with a byte that is a later byte of one. -/
theorem spaceRunes_no_overlap :
    ∀ e1 ∈ spaceRunes, ∀ e2 ∈ spaceRunes, ∀ b ∈ e1.tail, e2.head? ≠ some b := by decide

theorem lstep_nil : lstep [] = [] := rfl

theorem rstep_nil : rstep [] = [] := by decide

theorem lstep_append (e a : GoString)
    (h : ∃ s, e ++ a <+: s ∧ spaceRunes.find? (fun r => r.isPrefixOf s) = some e) :
    lstep (e ++ a) = a := by
  obtain ⟨s, hs, hf⟩ := h
  have : spaceRunes.find? (fun r => r.isPrefixOf (e ++ a)) = some e := by
    apply find?_narrow _ _ _ _ hf
    · intro x _ hx
      rw [List.isPrefixOf_iff_prefix] at hx ⊢
      exact hx.trans hs
    · rw [List.isPrefixOf_iff_prefix]; exact List.prefix_append e a
  obtain ⟨t, ht, hl⟩ := lstep_some _ _ this
  rw [hl]
  exact (List.append_cancel_left ht).symm

theorem rstep_append (e a : GoString)
    (h : ∃ s, a ++ e <:+ s ∧
      spaceRunes.find? (fun r => r.reverse.isPrefixOf s.reverse) = some e) :
    rstep (a ++ e) = a := by
  obtain ⟨s, hs, hf⟩ := h
  have : spaceRunes.find? (fun r => r.reverse.isPrefixOf (a ++ e).reverse) = some e := by
    apply find?_narrow _ _ _ _ hf
    · intro x _ hx
      rw [List.isPrefixOf_iff_prefix, List.reverse_prefix] at hx ⊢
      exact hx.trans hs
    · rw [List.isPrefixOf_iff_prefix, List.reverse_prefix]; exact List.suffix_append a e
  obtain ⟨u, hu, hl⟩ := rstep_some _ _ this
  rw [hl]
  exact (List.append_cancel_right hu).symm

/-- Removing a white-space rune at the front and one at the end can be done in either
order. -/
theorem lstep_rstep (s : GoString) : lstep (rstep s) = rstep (lstep s) := by
  cases hl : spaceRunes.find? (fun r => r.isPrefixOf s) with
  | none =>
    rw [lstep_none s hl]
    cases hr : spaceRunes.find? (fun r => r.reverse.isPrefixOf s.reverse) with
    | none => rw [rstep_none s hr, lstep_none s hl]
    | some e2 =>
      obtain ⟨u, hu, hru⟩ := rstep_some s e2 hr
      rw [hru]
      apply lstep_none
      apply find?_none_narrow _ _ _ hl
      intro x _ hx
      rw [List.isPrefixOf_iff_prefix] at hx ⊢
      exact hx.trans ⟨e2, hu.symm⟩
  | some e1 =>
    obtain ⟨t, ht, hlt⟩ := lstep_some s e1 hl
    rw [hlt]
    cases hr : spaceRunes.find? (fun r => r.reverse.isPrefixOf s.reverse) with
    | none =>
      rw [rstep_none s hr, hlt]
      symm
      apply rstep_none
      apply find?_none_narrow _ _ _ hr
      intro x _ hx
      rw [List.isPrefixOf_iff_prefix, List.reverse_prefix] at hx ⊢
      exact hx.trans ⟨e1, ht.symm⟩
    | some e2 =>
      obtain ⟨u, hu, hru⟩ := rstep_some s e2 hr
      rw [hru]
      have hm1 := List.mem_of_find?_eq_some hl
      have hm2 := List.mem_of_find?_eq_some hr
      have hsplit : e1 ++ t = u ++ e2 := by rw [← ht, ← hu]
      have key : ∀ a, u = e1 ++ a → t = a ++ e2 → lstep u = rstep t := by
        intro a hua hta
        rw [hua, hta, lstep_append e1 a ⟨s, ⟨e2, by rw [hu, hua]⟩, hl⟩,
          rstep_append e2 a ⟨s, ⟨e1, by rw [ht, hta]⟩, hr⟩]
      rcases List.append_eq_append_iff.1 hsplit with ⟨a, hua, hta⟩ | ⟨c, hec, hce⟩
      · exact key a hua hta
      · cases c with
        | nil =>
          simp only [List.append_nil, List.nil_append] at hec hce
          exact key [] (by rw [hec]; simp) (by rw [hce]; simp)
        | cons y c =>
          cases u with
          | nil =>
            simp only [List.nil_append] at hec
            have hpre : e1.isPrefixOf e2 = true := by
              rw [List.isPrefixOf_iff_prefix, hce, hec]; exact List.prefix_append _ _
            have := spaceRunes_prefix_free e1 hm1 e2 hm2 hpre
            rw [hce, ← hec] at this
            have ht0 : t = [] := by
              have := congrArg List.length this
              rw [List.length_append] at this
              exact List.length_eq_zero.1 (by omega)
            rw [ht0, lstep_nil, rstep_nil]
          | cons x u =>
            exfalso
            apply spaceRunes_no_overlap e1 hm1 e2 hm2 y
            · rw [hec]; simp
            · rw [hce]; rfl

theorem lstep_rstep_iterate (m n : Nat) (s : GoString) :
    lstep^[m] (rstep^[n] s) = rstep^[n] (lstep^[m] s) :=
  Function.Commute.iterate_iterate (show Function.Commute lstep rstep from lstep_rstep) m n s

/-- Trailing white space may be removed before `TrimSpace` without changing its result. -/
theorem TrimSpace_TrimRight (s : GoString) : TrimSpace (TrimRight s) = TrimSpace s := by
  have hN := Nat.le_refl s.length
  have h1 : TrimRight s = rstep^[s.length] s := TrimRight_iterate _ s hN
  have h2 : TrimLeft s = lstep^[s.length] s := TrimLeft_iterate _ s hN
  have l1 : (rstep^[s.length] s).length ≤ s.length := iterate_length rstep rstep_length _ s
  have l2 : (lstep^[s.length] s).length ≤ s.length := iterate_length lstep lstep_length _ s
  have l3 : (lstep^[s.length] (rstep^[s.length] s)).length ≤ s.length :=
    Nat.le_trans (iterate_length lstep lstep_length _ _) l1
  unfold TrimSpace
  rw [h1, h2, TrimLeft_iterate s.length _ l1, TrimRight_iterate s.length _ l3,
    TrimRight_iterate s.length _ l2, lstep_rstep_iterate]
  exact Function.iterate_fixed (rstep_fixed s.length _ l2) _

/-- Every byte of a white-space encoding is an ASCII space or no ASCII byte. -/
theorem spaceRunes_bytes :
    ∀ e ∈ spaceRunes, ∀ b ∈ e, b ∈ [9, 10, 11, 12, 13, 32] ∨ 128 ≤ b := by decide

theorem isPrefixOf_append_sep (c : Nat) (z : GoString) :
    ∀ (p r : GoString), (∀ b ∈ p, b ≠ c) → p.isPrefixOf (r ++ c :: z) = p.isPrefixOf r := by
  intro p
  induction p with
  | nil => intro r _; simp [List.isPrefixOf]
  | cons b p ih =>
    intro r h
    cases r with
    | nil =>
      have : (b == c) = false := by simpa using h b (List.mem_cons_self b p)
      simp [List.isPrefixOf, this]
    | cons a r =>
      have := ih r (fun x hx => h x (List.mem_cons_of_mem b hx))
      show (b == a && p.isPrefixOf (r ++ c :: z)) = (b == a && p.isPrefixOf r)
      rw [this]

/-- A byte that is ASCII and no space stops the trimming at the end. -/
theorem trimRightFuel_sep (c : Nat) (z : GoString) (hc : c < 128)
    (hs : c ∉ [9, 10, 11, 12, 13, 32]) (n : Nat) :
    ∀ r : GoString, trimRightFuel n (r ++ c :: z) = trimRightFuel n r ++ c :: z := by
  have hne : ∀ e ∈ spaceRunes, ∀ b ∈ e.reverse, b ≠ c := by
    intro e he b hb hbc
    rcases spaceRunes_bytes e he b (List.mem_reverse.1 hb) with h | h
    · rw [hbc] at h; exact hs h
    · omega
  induction n with
  | zero => intro r; rfl
  | succ n ih =>
    intro r
    have hfind : spaceRunes.find? (fun e => e.reverse.isPrefixOf (r ++ c :: z)) =
        spaceRunes.find? (fun e => e.reverse.isPrefixOf r) :=
      find?_ext _ _ _ (fun e he => isPrefixOf_append_sep c z e.reverse r (hne e he))
    unfold trimRightFuel
    rw [hfind]
    cases hf : spaceRunes.find? (fun e => e.reverse.isPrefixOf r) with
    | none => rfl
    | some e =>
      simp only []
      have hp := List.find?_some hf
      rw [List.isPrefixOf_iff_prefix] at hp
      have hle : e.length ≤ r.length := by
        have := hp.length_le
        rwa [List.length_reverse] at this
      rw [List.drop_append_of_le_length hle, ih]

theorem TrimRight_sep (c : Nat) (y d : GoString) (hc : c < 128)
    (hs : c ∉ [9, 10, 11, 12, 13, 32]) :
    TrimRight (y ++ c :: d) = y ++ c :: TrimRight d := by
  have hd : d.length ≤ (y ++ c :: d).length := by simp; omega
  have h1 : TrimRight d = (trimRightFuel (y ++ c :: d).length d.reverse).reverse := by
    rw [TrimRight_iterate _ d hd, rstep_iterate, trimRightFuel_iterate]
  rw [h1]
  unfold TrimRight
  have hrev : (y ++ c :: d).reverse = d.reverse ++ c :: y.reverse := by simp
  rw [hrev, trimRightFuel_sep c y.reverse hc hs]
  simp

theorem TrimLeft_sep (c : Nat) (x : GoString) (hc : c < 128)
    (hs : c ∉ [9, 10, 11, 12, 13, 32]) : TrimLeft (c :: x) = c :: x := by
  have h0 : leadingSpace (c :: x) = 0 := by
    have : spaceRunes.find? (fun r => r.isPrefixOf (c :: x)) = none := by
      rw [List.find?_eq_none]
      intro e he hp
      cases e with
      | nil => exact absurd (spaceRunes_nonempty [] he) (by simp)
      | cons b t =>
        simp only [List.isPrefixOf, Bool.and_eq_true, beq_iff_eq] at hp
        rcases spaceRunes_bytes (b :: t) he b (List.mem_cons_self b t) with h | h
        · rw [hp.1] at h; exact hs h
        · omega
    unfold leadingSpace
    rw [this]
  unfold TrimLeft
  rw [List.length_cons]
  unfold trimLeftFuel
  rw [h0]

/-- The trimmed text of a tag that starts with an ASCII byte that is no space: only the
white space at the end of what follows the second delimiter goes. -/
theorem TrimSpace_sep (c : Nat) (desc dflt : GoString) (hc : c < 128)
    (hs : c ∉ [9, 10, 11, 12, 13, 32]) :
    TrimSpace (c :: desc ++ c :: dflt) = c :: (desc ++ c :: TrimRight dflt) := by
  unfold TrimSpace
  rw [List.cons_append, TrimLeft_sep c _ hc hs]
  have := TrimRight_sep c (c :: desc) dflt hc hs
  simpa using this

theorem rstep_initial (s : GoString) : rstep s <+: s := by
  cases hr : spaceRunes.find? (fun r => r.reverse.isPrefixOf s.reverse) with
  | none => rw [rstep_none s hr]
  | some e =>
    obtain ⟨u, hu, hru⟩ := rstep_some s e hr
    rw [hru]
    exact ⟨e, hu.symm⟩

theorem TrimRight_initial (s : GoString) : TrimRight s <+: s := by
  rw [TrimRight_iterate s.length s (Nat.le_refl _)]
  generalize s.length = n
  induction n generalizing s with
  | zero => exact List.prefix_refl s
  | succ n ih =>
    rw [Function.iterate_succ_apply]
    exact (ih (rstep s)).trans (rstep_initial s)

/-- C11: for a bindable field whose tag is `c`, a description, `c` again and a default
text, where the byte `c` is ASCII, no white space and no letter and occurs in neither text:
the tag has the two parts `desc` and `dflt` (less its trailing white space), `part0` is the
trimmed description and `part1` the trimmed default text, whatever pipes the two hold;
unless the walk panics, the field holds the default converted from `part1` and its flag is
registered with `part0` in its usage and that default. And the tag `do not inflate | 42`,
which starts with a letter, has description `do not inflate` and default text `42`. -/
theorem C11_leading_delimiter (lib : Lib) (prog : GoString) (r : Record) (i : Nat)
    (pp : StructField) (c : Nat) (desc dflt : GoString)
    (hpp : r[i]? = some pp) (ha : pp.Anonymous = false) (hn : pp.Name ≠ B "Usage")
    (hb : pp.val.bindable = true) (htag : pp.Tag = c :: (desc ++ c :: dflt))
    (hc : c < 128) (hs : c ∉ [9, 10, 11, 12, 13, 32])
    (hl : ¬ ((65 ≤ c ∧ c ≤ 90) ∨ (97 ≤ c ∧ c ≤ 122)))
    (h1 : c ∉ desc) (h2 : c ∉ dflt) :
    tagParts pp.Tag = some [desc, TrimRight dflt] ∧
      partZero [desc, TrimRight dflt] = TrimSpace desc ∧
      partOne [desc, TrimRight dflt] = TrimSpace dflt ∧
      ((walk lib prog r).panic = none →
        (walk lib prog r).ssvalue[i]? =
            some { pp with val := convertDefault lib pp.val (TrimSpace dflt) } ∧
          flagFor i pp (TrimSpace desc) (convertDefault lib pp.val (TrimSpace dflt)) ∈
            (walk lib prog r).flags.formal) ∧
      (tagParts (B "do not inflate | 42") = some [B "do not inflate ", B " 42"] ∧
        partZero [B "do not inflate ", B " 42"] = B "do not inflate" ∧
        partOne [B "do not inflate ", B " 42"] = B "42") := by
  have hnl : Contains letters [c] = false := by
    cases h : Contains letters [c] with
    | false => rfl
    | true => exact absurd ((Contains_letters c).1 h) hl
  have ht : TrimSpace pp.Tag = c :: (desc ++ c :: TrimRight dflt) := by
    rw [htag]; exact TrimSpace_sep c desc dflt hc hs
  have h2t : c ∉ TrimRight dflt := fun h => h2 ((TrimRight_initial dflt).subset h)
  have hsc : splitChar c = c := by simp [splitChar, hnl]
  have hst : splitTag c (desc ++ c :: TrimRight dflt) = desc ++ splitChar c :: TrimRight dflt := by
    simp [splitTag, hnl, hsc]
  have hparts : tagParts pp.Tag = some [desc, TrimRight dflt] :=
    tagParts_one_delim pp.Tag c _ desc (TrimRight dflt) ht hst (by rw [hsc]; exact h1)
      (by rw [hsc]; exact h2t)
  have hp1 : partOne [desc, TrimRight dflt] = TrimSpace dflt := by
    show TrimSpace (TrimRight dflt) = TrimSpace dflt
    exact TrimSpace_TrimRight dflt
  refine ⟨hparts, rfl, hp1, ?_, by decide⟩
  intro hok
  have hw := walk_two_parts lib prog r i pp desc (TrimRight dflt) hpp ha hn hb hparts hok
  rw [TrimSpace_TrimRight] at hw
  exact ⟨hw.1, hw.2.1⟩

/-- C11 at the field of the package documentation, `"! is a command ! 'yes | head'"`. -/
theorem C11_leading_delimiter_witness :
    tagParts (B "! is a command ! 'yes | head'") =
        some [B " is a command ", B " 'yes | head'"] ∧
      partZero [B " is a command ", B " 'yes | head'"] = B "is a command" ∧
      partOne [B " is a command ", B " 'yes | head'"] = B "'yes | head'" ∧
      (walk lib0 (B "prog") recBang).ssvalue[1]? =
        some ⟨B "SomeCommand", [], B "! is a command ! 'yes | head'", false,
          .string (B "'yes | head'")⟩ :=
  have h := C11_leading_delimiter lib0 (B "prog") recBang 1
    ⟨B "SomeCommand", [], B "! is a command ! 'yes | head'", false, .string []⟩ 33
    (B " is a command ") (B " 'yes | head'") (by decide) (by decide) (by decide) (by decide)
    (by decide) (by decide) (by decide) (by decide) (by decide) (by decide)
  ⟨h.1.trans (by decide), h.2.1.trans (by decide), h.2.2.1.trans (by decide),
    (h.2.2.2.1 (by decide)).1.trans (by decide)⟩

/-! ## The walk depends on the types of the fields only -/

theorem store_map_skel (r : Record) (i : Nat) (v : Value) :
    (store r i v).map skel = store (r.map skel) i v.erase := by
  induction r generalizing i with
  | nil => rfl
  | cons pp r ih =>
    cases i with
    | zero => rfl
    | succ i => simp only [store, List.map_cons, ih]

theorem store_skel_congr (r r2 : Record) (i : Nat) (v v2 : Value)
    (h : r.map skel = r2.map skel) (hv : v.erase = v2.erase) :
    (store r i v).map skel = (store r2 i v2).map skel := by
  rw [store_map_skel, store_map_skel, h, hv]

theorem lookup_core (f : FlagSet) (name : GoString) :
    f.core.lookup name = (f.lookup name).map Flag.core := by
  unfold FlagSet.lookup FlagSet.core
  simp only []
  induction f.formal with
  | nil => rfl
  | cons fl l ih =>
    simp only [List.map_cons, List.find?_cons]
    have : (Flag.core fl).Name = fl.Name := rfl
    rw [this]
    cases decide (fl.Name = name) with
    | true => rfl
    | false => exact ih

theorem lookup_congr (f f2 : FlagSet) (name : GoString) (h : f.core = f2.core) :
    (f.lookup name).map Flag.core = (f2.lookup name).map Flag.core := by
  rw [← lookup_core, ← lookup_core, h]

theorem core_eq_iff (a b : WalkState) :
    a.core = b.core ↔
      a.ssvalue.map skel = b.ssvalue.map skel ∧ a.moreusage = b.moreusage ∧
        a.flags.core = b.flags.core ∧ a.argsptr = b.argsptr ∧
        a.hasBoolArg = b.hasBoolArg ∧ a.panic = b.panic := by
  cases a; cases b
  simp [WalkState.core]

theorem flags_core_eq_iff (f g : FlagSet) :
    f.core = g.core ↔
      f.name = g.name ∧ f.parsed = g.parsed ∧ f.actual = g.actual ∧
        f.formal.map Flag.core = g.formal.map Flag.core ∧ f.args = g.args := by
  cases f; cases g
  simp [FlagSet.core]

theorem SetValue_congr (a b : WalkState) (ii : Nat) (v v2 : Value) (h : a.core = b.core)
    (hv : v.erase = v2.erase) : (a.SetValue ii v).core = (b.SetValue ii v2).core := by
  have h0 := h
  rw [core_eq_iff] at h
  obtain ⟨hs, hm, hf, hap, hb, hp⟩ := h
  unfold WalkState.SetValue
  rw [hp]
  by_cases hpan : b.panic.isSome = true
  · rw [if_pos hpan, if_pos hpan]; exact h0
  · rw [if_neg hpan, if_neg hpan]
    have hget : (a.ssvalue[ii]?).map skel = (b.ssvalue[ii]?).map skel := by
      rw [← List.getElem?_map, ← List.getElem?_map, hs]
    cases ha : a.ssvalue[ii]? with
    | none =>
      cases hb2 : b.ssvalue[ii]? with
      | none => exact h0
      | some q => rw [ha, hb2] at hget; simp at hget
    | some p =>
      cases hb2 : b.ssvalue[ii]? with
      | none => rw [ha, hb2] at hget; simp at hget
      | some q =>
        rw [ha, hb2] at hget
        simp only [Option.map_some', Option.some.injEq] at hget
        have hpk : p.PkgPath = q.PkgPath := by
          show (skel p).PkgPath = (skel q).PkgPath
          rw [hget]
        simp only [hpk]
        by_cases hx : q.PkgPath = []
        · rw [if_pos hx, if_pos hx, core_eq_iff]
          exact ⟨store_skel_congr _ _ ii v v2 hs hv, hm, hf, hap, hb, rfl⟩
        · rw [if_neg hx, if_neg hx, core_eq_iff]
          exact ⟨hs, hm, hf, hap, hb, rfl⟩

theorem flagVar_congr (a b : WalkState) (kind : FlagKind) (ii : Nat) (name : GoString)
    (v v2 : Value) (usage : GoString) (h : a.core = b.core) (hv : v.erase = v2.erase) :
    (a.flagVar kind ii name v usage).core = (b.flagVar kind ii name v2 usage).core := by
  have h0 := h
  rw [core_eq_iff] at h
  obtain ⟨hs, hm, hf, hap, hb, hp⟩ := h
  unfold WalkState.flagVar
  rw [hp]
  by_cases hpan : b.panic.isSome = true
  · rw [if_pos hpan, if_pos hpan]; exact h0
  · rw [if_neg hpan, if_neg hpan]
    dsimp only
    have hl : (a.flags.lookup name).isSome = (b.flags.lookup name).isSome := by
      have := congrArg Option.isSome (lookup_congr a.flags b.flags name hf)
      simpa using this
    rw [hl]
    by_cases hx : (b.flags.lookup name).isSome = true
    · rw [if_pos hx, if_pos hx, core_eq_iff]
      exact ⟨store_skel_congr _ _ ii v v2 hs hv, hm, hf, hap, hb, rfl⟩
    · rw [if_neg hx, if_neg hx, core_eq_iff]
      refine ⟨store_skel_congr _ _ ii v v2 hs hv, hm, ?_, hap, hb, rfl⟩
      rw [flags_core_eq_iff] at hf ⊢
      obtain ⟨f1, f2, f3, f4, f5⟩ := hf
      refine ⟨f1, f2, f3, ?_, f5⟩
      show (a.flags.formal ++ [_]).map Flag.core = (b.flags.formal ++ [_]).map Flag.core
      rw [List.map_append, List.map_append, f4]
      simp [Flag.core, hv]

theorem markBool_congr (a b : WalkState) (h : a.core = b.core) :
    a.markBool.core = b.markBool.core := by
  have h0 := h
  rw [core_eq_iff] at h
  obtain ⟨hs, hm, hf, hap, hb, hp⟩ := h
  unfold WalkState.markBool
  rw [hp]
  by_cases hx : b.panic.isSome = true
  · rw [if_pos hx, if_pos hx]; exact h0
  · rw [if_neg hx, if_neg hx, core_eq_iff]; exact ⟨hs, hm, hf, hap, rfl, rfl⟩

theorem skel_eq (p q : StructField) (h : skel p = skel q) :
    p.Name = q.Name ∧ p.PkgPath = q.PkgPath ∧ p.Tag = q.Tag ∧ p.Anonymous = q.Anonymous ∧
      p.val.erase = q.val.erase := by
  cases p; cases q
  simpa [skel] using h

/-- Two values with the same erasure are of the same type. -/
theorem erase_cases (v w : Value) (h : v.erase = w.erase) :
    (∃ s t, v = .string s ∧ w = .string t) ∨ (∃ s t, v = .int s ∧ w = .int t) ∨
      (∃ s t, v = .bool s ∧ w = .bool t) ∨ (∃ s t, v = .int64 s ∧ w = .int64 t) ∨
      (∃ s t, v = .float64 s ∧ w = .float64 t) ∨ (∃ s t, v = .strings s ∧ w = .strings t) ∨
      (∃ typ s t, v = .namedString typ s ∧ w = .namedString typ t) ∨
      (∃ typ, v = .other typ ∧ w = .other typ) := by
  cases v <;> cases w <;> simp [Value.erase] at h <;> simp [h]

theorem registerCurrent_congr (ii : Nat) (p q : StructField) (part0 : GoString)
    (a b : WalkState) (h : a.core = b.core) (hpq : skel p = skel q) :
    (registerCurrent ii p part0 a).core = (registerCurrent ii q part0 b).core := by
  obtain ⟨hn, _, _, _, he⟩ := skel_eq p q hpq
  unfold registerCurrent
  rw [hn]
  rcases erase_cases _ _ he with ⟨s, t, hv, hw⟩ | ⟨s, t, hv, hw⟩ | ⟨s, t, hv, hw⟩ |
    ⟨s, t, hv, hw⟩ | ⟨s, t, hv, hw⟩ | ⟨s, t, hv, hw⟩ | ⟨typ, s, t, hv, hw⟩ | ⟨typ, hv, hw⟩ <;>
    rw [hv, hw] <;>
    first
    | exact h
    | exact flagVar_congr a b _ ii _ _ _ _ h rfl
    | exact markBool_congr _ _ (flagVar_congr a b _ ii _ _ _ _ h rfl)

theorem registerDefault_congr (lib : Lib) (ii : Nat) (p q : StructField)
    (part0 part1 : GoString) (a b : WalkState) (h : a.core = b.core) (hpq : skel p = skel q) :
    (registerDefault lib ii p part0 part1 a).core =
      (registerDefault lib ii q part0 part1 b).core := by
  obtain ⟨hn, _, _, _, he⟩ := skel_eq p q hpq
  unfold registerDefault
  rw [hn]
  rcases erase_cases _ _ he with ⟨s, t, hv, hw⟩ | ⟨s, t, hv, hw⟩ | ⟨s, t, hv, hw⟩ |
    ⟨s, t, hv, hw⟩ | ⟨s, t, hv, hw⟩ | ⟨s, t, hv, hw⟩ | ⟨typ, s, t, hv, hw⟩ | ⟨typ, hv, hw⟩ <;>
    rw [hv, hw] <;>
    first
    | exact h
    | exact flagVar_congr _ _ _ ii _ _ _ _ (SetValue_congr a b ii _ _ h rfl) rfl
    | exact markBool_congr _ _
        (flagVar_congr _ _ _ ii _ _ _ _ (SetValue_congr a b ii _ _ h rfl) rfl)

theorem TypeString_erase (v w : Value) (h : v.erase = w.erase) :
    v.TypeString = w.TypeString := by
  rcases erase_cases _ _ h with ⟨s, t, hv, hw⟩ | ⟨s, t, hv, hw⟩ | ⟨s, t, hv, hw⟩ |
    ⟨s, t, hv, hw⟩ | ⟨s, t, hv, hw⟩ | ⟨s, t, hv, hw⟩ | ⟨typ, s, t, hv, hw⟩ | ⟨typ, hv, hw⟩ <;>
    rw [hv, hw] <;> rfl

theorem usageLine_congr (p q : StructField) (parts : List GoString) (hpq : skel p = skel q) :
    usageLine p parts = usageLine q parts := by
  obtain ⟨hn, _, _, _, he⟩ := skel_eq p q hpq
  unfold usageLine
  rw [hn, TypeString_erase _ _ he]

theorem bindField_congr (lib : Lib) (ii : Nat) (p q : StructField) (parts : List GoString)
    (a b : WalkState) (h : a.core = b.core) (hpq : skel p = skel q) :
    (bindField lib ii p parts a).core = (bindField lib ii q parts b).core := by
  have h1 : ({ a with moreusage := a.moreusage ++ usageLine p parts } : WalkState).core =
      ({ b with moreusage := b.moreusage ++ usageLine q parts } : WalkState).core := by
    rw [core_eq_iff] at h ⊢
    obtain ⟨hs, hm, hf, hap, hb, hp⟩ := h
    exact ⟨hs, by show a.moreusage ++ _ = b.moreusage ++ _; rw [hm, usageLine_congr p q parts hpq],
      hf, hap, hb, hp⟩
  unfold bindField
  dsimp only
  by_cases h0 : parts.length > 0
  · rw [if_pos h0, if_pos h0]
    by_cases hl1 : parts.length = 1
    · rw [if_pos hl1, if_pos hl1, if_neg (by omega), if_neg (by omega)]
      exact registerCurrent_congr ii p q _ _ _ h1 hpq
    · rw [if_neg hl1, if_neg hl1]
      by_cases hl2 : parts.length = 2
      · rw [if_pos hl2, if_pos hl2]
        exact registerDefault_congr lib ii p q _ _ _ _ h1 hpq
      · rw [if_neg hl2, if_neg hl2]
        exact h1
  · rw [if_neg h0, if_neg h0, if_neg (by omega), if_neg (by omega), if_neg (by omega),
      if_neg (by omega)]
    exact h

/-- One iteration of the loop does the same to two states that differ in the contents of
the values only. -/
theorem walkField_congr (lib : Lib) (ii : Nat) (a b : WalkState) (h : a.core = b.core) :
    (walkField lib ii a).core = (walkField lib ii b).core := by
  have h0 := h
  rw [core_eq_iff] at h
  obtain ⟨hs, hm, hf, hap, hb, hp⟩ := h
  unfold walkField
  rw [hp]
  by_cases hpan : b.panic.isSome = true
  · rw [if_pos hpan, if_pos hpan]; exact h0
  · rw [if_neg hpan, if_neg hpan]
    have hget : (a.ssvalue[ii]?).map skel = (b.ssvalue[ii]?).map skel := by
      rw [← List.getElem?_map, ← List.getElem?_map, hs]
    cases ha : a.ssvalue[ii]? with
    | none =>
      cases hb2 : b.ssvalue[ii]? with
      | none => exact h0
      | some q => rw [ha, hb2] at hget; simp at hget
    | some p =>
      cases hb2 : b.ssvalue[ii]? with
      | none => rw [ha, hb2] at hget; simp at hget
      | some q =>
        rw [ha, hb2] at hget
        simp only [Option.map_some', Option.some.injEq] at hget
        obtain ⟨hn, _, ht, han, he⟩ := skel_eq p q hget
        simp only []
        rw [hn, ht, han]
        by_cases hA : q.Anonymous = true
        · rw [if_pos hA, if_pos hA]; exact h0
        · rw [if_neg hA, if_neg hA]
          by_cases hU : q.Name = B "Usage"
          · rw [if_pos hU, if_pos hU]; exact h0
          · rw [if_neg hU, if_neg hU]
            have hbind : (match tagParts q.Tag with
                | none => a
                | some parts => bindField lib ii p parts a).core =
                (match tagParts q.Tag with
                | none => b
                | some parts => bindField lib ii q parts b).core := by
              cases htp : tagParts q.Tag with
              | none => exact h0
              | some parts => exact bindField_congr lib ii p q parts a b h0 hget
            rcases erase_cases _ _ he with ⟨s, t, hv, hw⟩ | ⟨s, t, hv, hw⟩ | ⟨s, t, hv, hw⟩ |
              ⟨s, t, hv, hw⟩ | ⟨s, t, hv, hw⟩ | ⟨s, t, hv, hw⟩ | ⟨typ, s, t, hv, hw⟩ |
              ⟨typ, hv, hw⟩ <;>
              rw [hv, hw] <;>
              first
              | exact hbind
              | (rw [core_eq_iff]; exact ⟨hs, hm, hf, rfl, hb, rfl⟩)

theorem walkUpTo_congr (lib : Lib) (prog : GoString) (r r2 : Record)
    (h : r.map skel = r2.map skel) (n : Nat) :
    (walkUpTo lib prog r n).core = (walkUpTo lib prog r2 n).core := by
  induction n with
  | zero =>
    rw [core_eq_iff]
    exact ⟨h, rfl, rfl, rfl, rfl, rfl⟩
  | succ n ih =>
    rw [walkUpTo_succ, walkUpTo_succ]
    exact walkField_congr lib n _ _ ih

/-- The walk does the same to two structs that differ in the contents of the values only. -/
theorem walk_congr (lib : Lib) (prog : GoString) (r r2 : Record)
    (h : r.map skel = r2.map skel) : (walk lib prog r).core = (walk lib prog r2).core := by
  have hl : r.length = r2.length := by
    have := congrArg List.length h
    simpa using this
  unfold walk
  rw [hl]
  exact walkUpTo_congr lib prog r r2 h r2.length

theorem FieldByName_skel (name : GoString) (a b : Record) (h : a.map skel = b.map skel) :
    (FieldByName name a).map (fun p => (p.1, skel p.2)) =
      (FieldByName name b).map (fun p => (p.1, skel p.2)) := by
  induction a generalizing b with
  | nil => cases b with | nil => rfl | cons q b => simp at h
  | cons p a ih =>
    cases b with
    | nil => simp at h
    | cons q b =>
      simp only [List.map_cons, List.cons.injEq] at h
      have hn : p.Name = q.Name := (skel_eq p q h.1).1
      have := ih b h.2
      unfold FieldByName
      rw [hn]
      by_cases hq : q.Name = name
      · simp [hq, h.1]
      · simp only [hq, if_false, Option.map_map]
        cases ha : FieldByName name a <;> cases hb : FieldByName name b <;>
          rw [ha, hb] at this <;> simp at this ⊢
        exact this

/-- The usage write does the same to two states that differ in the contents of the values
only. -/
theorem writeUsage_congr (prog : GoString) (a b : WalkState) (h : a.core = b.core) :
    (writeUsage prog a).core = (writeUsage prog b).core := by
  have h0 := h
  rw [core_eq_iff] at h
  obtain ⟨hs, hm, hf, hap, hb, hp⟩ := h
  unfold writeUsage
  rw [hp]
  by_cases hpan : b.panic.isSome = true
  · rw [if_pos hpan, if_pos hpan]; exact h0
  · rw [if_neg hpan, if_neg hpan]
    have hfb := FieldByName_skel (B "Usage") a.ssvalue b.ssvalue hs
    cases ha : FieldByName (B "Usage") a.ssvalue with
    | none =>
      cases hb2 : FieldByName (B "Usage") b.ssvalue with
      | none => rw [core_eq_iff]; exact ⟨hs, hm, hf, hap, hb, rfl⟩
      | some q => rw [ha, hb2] at hfb; simp at hfb
    | some kp =>
      cases hb2 : FieldByName (B "Usage") b.ssvalue with
      | none => rw [ha, hb2] at hfb; simp at hfb
      | some kq =>
        obtain ⟨k, p⟩ := kp
        obtain ⟨k2, q⟩ := kq
        rw [ha, hb2] at hfb
        simp only [Option.map_some', Option.some.injEq, Prod.mk.injEq] at hfb
        obtain ⟨hk, hpq⟩ := hfb
        subst hk
        obtain ⟨_, hx, ht, _, he⟩ := skel_eq p q hpq
        simp only []
        rw [hx, ht, hm]
        by_cases hxx : q.PkgPath = []
        · rw [if_pos hxx, if_pos hxx]
          rcases erase_cases _ _ he with ⟨s, t, hv, hw⟩ | ⟨s, t, hv, hw⟩ | ⟨s, t, hv, hw⟩ |
            ⟨s, t, hv, hw⟩ | ⟨s, t, hv, hw⟩ | ⟨s, t, hv, hw⟩ | ⟨typ, s, t, hv, hw⟩ |
            ⟨typ, hv, hw⟩ <;>
            rw [hv, hw] <;>
            first
            | (rw [core_eq_iff]; exact ⟨hs, rfl, hf, hap, hb, rfl⟩)
            | (rw [core_eq_iff]
               exact ⟨store_skel_congr _ _ k _ _ hs rfl, rfl, hf, hap, hb, rfl⟩)
        · rw [if_neg hxx, if_neg hxx, core_eq_iff]
          exact ⟨hs, rfl, hf, hap, hb, rfl⟩

theorem preParse_congr (lib : Lib) (prog : GoString) (r r2 : Record)
    (h : r.map skel = r2.map skel) :
    (preParse lib prog r).core = (preParse lib prog r2).core :=
  writeUsage_congr prog _ _ (walk_congr lib prog r r2 h)

/-! ## The flag parser depends on the names, kinds and targets of the flags only -/

theorem Set_eq (lib : Lib) (fl : Flag) (value : GoString) (rec : Record) :
    fl.Set lib value rec =
      (store rec fl.target (setValue lib fl.kind value).1, (setValue lib fl.kind value).2) := by
  unfold Flag.Set setValue
  cases fl.kind <;> rfl

theorem setValue_erase (lib : Lib) (kind : FlagKind) (value : GoString) :
    (setValue lib kind value).1.erase = kind.zero := by
  cases kind <;> rfl

theorem uniform_none (f g : FlagSet) (rec rec2 : Record) (s : Bool) (e : Option FlagError)
    (f1 g1 : FlagSet) (h : f1.core = g1.core) :
    Uniform f g rec rec2 ⟨s, e, f1, rec⟩ ⟨s, e, g1, rec2⟩ :=
  ⟨rfl, rfl, h, [], rfl, rfl, fun p hp => by cases hp⟩

theorem uniform_one (f g : FlagSet) (rec rec2 : Record) (s : Bool) (e : Option FlagError)
    (f1 g1 : FlagSet) (h : f1.core = g1.core) (fl : Flag) (hfl : fl ∈ f.formal) (v : Value)
    (hv : v.erase = fl.kind.zero) :
    Uniform f g rec rec2 ⟨s, e, f1, store rec fl.target v⟩ ⟨s, e, g1, store rec2 fl.target v⟩ :=
  ⟨rfl, rfl, h, [(fl.target, v)], rfl, rfl, fun p hp => by
    simp only [List.mem_singleton] at hp
    subst hp
    exact ⟨fl, hfl, rfl, hv⟩⟩

theorem core_args (f g : FlagSet) (h : f.core = g.core) (l : List GoString) :
    ({ f with args := l } : FlagSet).core = ({ g with args := l } : FlagSet).core := by
  rw [flags_core_eq_iff] at h ⊢
  exact ⟨h.1, h.2.1, h.2.2.1, h.2.2.2.1, rfl⟩

theorem core_actual (f g : FlagSet) (h : f.core = g.core) (n : GoString) :
    ({ f with actual := n :: f.actual } : FlagSet).core =
      ({ g with actual := n :: g.actual } : FlagSet).core := by
  rw [flags_core_eq_iff] at h ⊢
  exact ⟨h.1, h.2.1, by show n :: f.actual = n :: g.actual; rw [h.2.2.1], h.2.2.2.1, h.2.2.2.2⟩

theorem core_args_actual (f g : FlagSet) (h : f.core = g.core) (l : List GoString)
    (n : GoString) :
    ({ f with args := l, actual := n :: f.actual } : FlagSet).core =
      ({ g with args := l, actual := n :: g.actual } : FlagSet).core := by
  rw [flags_core_eq_iff] at h ⊢
  exact ⟨h.1, h.2.1, by show n :: f.actual = n :: g.actual; rw [h.2.2.1], h.2.2.2.1, rfl⟩

theorem setFlag_uniform (lib : Lib) (f g : FlagSet) (rec rec2 : Record) (name : GoString)
    (hasValue : Bool) (value : GoString) (h : f.core = g.core) :
    Uniform f g rec rec2 (setFlag lib f rec name hasValue value)
      (setFlag lib g rec2 name hasValue value) := by
  have hl := lookup_congr f g name h
  have hargs : f.args = g.args := ((flags_core_eq_iff f g).1 h).2.2.2.2
  unfold setFlag
  cases hf : f.lookup name with
  | none =>
    cases hg : g.lookup name with
    | some fl2 => rw [hf, hg] at hl; simp at hl
    | none =>
      simp only []
      by_cases hh : name = B "help" ∨ name = B "h"
      · rw [if_pos hh, if_pos hh]; exact uniform_none f g rec rec2 _ _ f g h
      · rw [if_neg hh, if_neg hh]; exact uniform_none f g rec rec2 _ _ f g h
  | some fl =>
    cases hg : g.lookup name with
    | none => rw [hf, hg] at hl; simp at hl
    | some fl2 =>
      rw [hf, hg] at hl
      simp only [Option.map_some', Option.some.injEq] at hl
      have hk : fl2.kind = fl.kind := (congrArg Flag.kind hl).symm
      have ht : fl2.target = fl.target := (congrArg Flag.target hl).symm
      have hmem : fl ∈ f.formal := List.mem_of_find?_eq_some hf
      have hc := (flags_core_eq_iff f g).1 h
      simp only [Set_eq, hk, ht, ← hargs]
      by_cases hb : fl.kind = .boolValue
      · rw [if_pos hb, if_pos hb]
        by_cases hr : (setValue lib fl.kind (if hasValue = true then value else B "true")).2 = true
        · rw [if_pos hr, if_pos hr]
          refine uniform_one f g rec rec2 _ _ _ _ ?_ fl hmem _ (setValue_erase lib _ _)
          rw [flags_core_eq_iff]
          refine ⟨hc.1, hc.2.1, ?_, hc.2.2.2.1, ?_⟩ <;> simp [hc.2.2.1]
        · rw [if_neg hr, if_neg hr]
          refine uniform_one f g rec rec2 _ _ _ _ ?_ fl hmem _ (setValue_erase lib _ _)
          rw [flags_core_eq_iff]
          exact ⟨hc.1, hc.2.1, hc.2.2.1, hc.2.2.2.1, hargs⟩
      · rw [if_neg hb, if_neg hb]
        cases hasValue with
        | true =>
          simp only []
          by_cases hr : (setValue lib fl.kind value).2 = true
          · rw [if_pos hr, if_pos hr]
            refine uniform_one f g rec rec2 _ _ _ _ ?_ fl hmem _ (setValue_erase lib _ _)
            rw [flags_core_eq_iff]
            refine ⟨hc.1, hc.2.1, ?_, hc.2.2.2.1, ?_⟩ <;> simp [hc.2.2.1]
          · rw [if_neg hr, if_neg hr]
            refine uniform_one f g rec rec2 _ _ _ _ ?_ fl hmem _ (setValue_erase lib _ _)
            rw [flags_core_eq_iff]
            exact ⟨hc.1, hc.2.1, hc.2.2.1, hc.2.2.2.1, hargs⟩
        | false =>
          cases hfa : f.args with
          | nil =>
            simp only []
            refine uniform_none f g rec rec2 _ _ _ _ ?_
            exact h
          | cons next rest1 =>
            simp only []
            by_cases hr : (setValue lib fl.kind next).2 = true
            · rw [if_pos hr, if_pos hr]
              refine uniform_one f g rec rec2 _ _ _ _ ?_ fl hmem _ (setValue_erase lib _ _)
              rw [flags_core_eq_iff]
              refine ⟨hc.1, hc.2.1, ?_, hc.2.2.2.1, ?_⟩ <;> simp [hc.2.2.1]
            · rw [if_neg hr, if_neg hr]
              refine uniform_one f g rec rec2 _ _ _ _ ?_ fl hmem _ (setValue_erase lib _ _)
              rw [flags_core_eq_iff]
              exact ⟨hc.1, hc.2.1, hc.2.2.1, hc.2.2.2.1, rfl⟩

theorem applyStores_append (L1 L2 : List (Nat × Value)) (rec : Record) :
    applyStores (L1 ++ L2) rec = applyStores L2 (applyStores L1 rec) := by
  unfold applyStores
  rw [List.foldl_append]

theorem parseOne_uniform (lib : Lib) (f g : FlagSet) (rec rec2 : Record)
    (h : f.core = g.core) :
    Uniform f g rec rec2 (parseOne lib f rec) (parseOne lib g rec2) := by
  have hargs : f.args = g.args := ((flags_core_eq_iff f g).1 h).2.2.2.2
  unfold parseOne
  rw [← hargs]
  cases hfa : f.args with
  | nil => exact uniform_none f g rec rec2 _ _ f g h
  | cons s rest =>
    simp only []
    by_cases h1 : s.length < 2 ∨ s.head? ≠ some 45
    · rw [if_pos h1, if_pos h1]; exact uniform_none f g rec rec2 _ _ f g h
    · rw [if_neg h1, if_neg h1]
      by_cases h2 : (if s[1]? = some 45 then 2 else 1) = 2 ∧ s.length = 2
      · rw [if_pos h2, if_pos h2]
        exact uniform_none f g rec rec2 _ _ _ _ (core_args f g h rest)
      · rw [if_neg h2, if_neg h2]
        by_cases h3 : (s.drop (if s[1]? = some 45 then 2 else 1)).length = 0 ∨
            (s.drop (if s[1]? = some 45 then 2 else 1)).head? = some 45 ∨
            (s.drop (if s[1]? = some 45 then 2 else 1)).head? = some 61
        · rw [if_pos h3, if_pos h3]; exact uniform_none f g rec rec2 _ _ f g h
        · rw [if_neg h3, if_neg h3]
          have := setFlag_uniform lib { f with args := rest } { g with args := rest } rec rec2
            ((s.drop (if s[1]? = some 45 then 2 else 1)).take 1 ++
              (((s.drop (if s[1]? = some 45 then 2 else 1)).drop 1).span (fun c => c != 61)).1)
            (decide ((((s.drop (if s[1]? = some 45 then 2 else 1)).drop 1).span
              (fun c => c != 61)).2 ≠ []))
            ((((s.drop (if s[1]? = some 45 then 2 else 1)).drop 1).span
              (fun c => c != 61)).2.drop 1)
            (core_args f g h rest)
          exact ⟨this.seen, this.err, this.core, this.stores⟩

theorem parseLoop_uniform (lib : Lib) (fuel : Nat) :
    ∀ (f g : FlagSet) (rec rec2 : Record), f.core = g.core →
      Uniform f g rec rec2 (parseLoop lib fuel f rec) (parseLoop lib fuel g rec2) := by
  induction fuel with
  | zero =>
    intro f g rec rec2 h
    exact uniform_none f g rec rec2 _ _ f g h
  | succ n ih =>
    intro f g rec rec2 h
    have h1 := parseOne_uniform lib f g rec rec2 h
    have e1 : parseLoop lib (n + 1) f rec =
        if (parseOne lib f rec).seen then
          parseLoop lib n (parseOne lib f rec).f (parseOne lib f rec).ssvalue
        else parseOne lib f rec := rfl
    have e2 : parseLoop lib (n + 1) g rec2 =
        if (parseOne lib g rec2).seen then
          parseLoop lib n (parseOne lib g rec2).f (parseOne lib g rec2).ssvalue
        else parseOne lib g rec2 := rfl
    rw [e1, e2, ← h1.seen]
    by_cases hs : (parseOne lib f rec).seen = true
    · rw [if_pos hs, if_pos hs]
      have h2 := ih (parseOne lib f rec).f (parseOne lib g rec2).f (parseOne lib f rec).ssvalue
        (parseOne lib g rec2).ssvalue h1.core
      obtain ⟨L1, a1, b1, t1⟩ := h1.stores
      obtain ⟨L2, a2, b2, t2⟩ := h2.stores
      have hformal : (parseOne lib f rec).f.formal = f.formal :=
        (stepFrame_parseOne lib 0 [] f rec).formal
      refine ⟨h2.seen, h2.err, h2.core, L1 ++ L2, ?_, ?_, ?_⟩
      · rw [applyStores_append, ← a1]; exact a2
      · rw [applyStores_append, ← b1]; exact b2
      · intro p hp
        rcases List.mem_append.1 hp with hp | hp
        · exact t1 p hp
        · obtain ⟨fl, hfl, e⟩ := t2 p hp
          exact ⟨fl, by rw [← hformal]; exact hfl, e⟩
    · rw [if_neg hs, if_neg hs]
      exact h1

/-! ## What a sequence of stores leaves in a field -/

theorem lastStore_cons (p : Nat × Value) (L : List (Nat × Value)) (i : Nat) :
    lastStore (p :: L) i = (lastStore L i).or (if p.1 = i then some p.2 else none) := by
  unfold lastStore
  rw [List.reverse_cons, List.find?_append]
  cases L.reverse.find? (fun q => decide (q.1 = i)) with
  | some q => rfl
  | none =>
    by_cases h : p.1 = i
    · simp [h]
    · simp [h]

theorem applyStores_cons (p : Nat × Value) (L : List (Nat × Value)) (rec : Record) :
    applyStores (p :: L) rec = applyStores L (store rec p.1 p.2) := rfl

theorem applyStores_get (L : List (Nat × Value)) :
    ∀ (rec : Record) (i : Nat), (applyStores L rec)[i]? =
      match lastStore L i with
      | none => rec[i]?
      | some v => (rec[i]?).map (fun pp => { pp with val := v }) := by
  induction L with
  | nil => intro rec i; rfl
  | cons p L ih =>
    intro rec i
    rw [applyStores_cons, ih, lastStore_cons]
    cases hl : lastStore L i with
    | some w =>
      simp only [Option.or_some]
      by_cases h : i = p.1
      · subst h
        rw [store_get?_eq]
        cases rec[p.1]? <;> rfl
      · rw [store_get?_ne _ _ _ _ h]
    | none =>
      simp only [Option.none_or]
      by_cases h : i = p.1
      · subst h
        rw [store_get?_eq]
        simp
      · rw [store_get?_ne _ _ _ _ h]
        have : ¬ p.1 = i := fun e => h e.symm
        simp [this]

theorem store_skel_same (rec : Record) (j : Nat) (v : Value)
    (h : ∀ q, (rec.map skel)[j]? = some q → v.erase = q.val) :
    (store rec j v).map skel = rec.map skel := by
  induction rec generalizing j with
  | nil => rfl
  | cons pp rec ih =>
    cases j with
    | zero =>
      have := h (skel pp) (by simp)
      simp only [store, List.map_cons, List.cons.injEq, and_true]
      show ({ pp with val := v.erase } : StructField) = { pp with val := pp.val.erase }
      rw [this]; rfl
    | succ j =>
      simp only [store, List.map_cons, List.cons.injEq, true_and]
      exact ih j (fun q hq => h q (by simpa using hq))

/-- Stores of values of the fields' own types leave the types of all fields as they are. -/
theorem applyStores_skel (L : List (Nat × Value)) :
    ∀ rec : Record, (∀ p ∈ L, ∀ q, (rec.map skel)[p.1]? = some q → p.2.erase = q.val) →
      (applyStores L rec).map skel = rec.map skel := by
  induction L with
  | nil => intro rec _; rfl
  | cons p L ih =>
    intro rec h
    have h1 := store_skel_same rec p.1 p.2 (h p (List.mem_cons_self p L))
    rw [applyStores_cons, ih (store rec p.1 p.2) ?_, h1]
    intro p2 hp2 q hq
    rw [h1] at hq
    exact h p2 (List.mem_cons_of_mem p hp2) q hq

/-! ## What lines 29-117 leave in each field -/

theorem writeUsage_other (prog : GoString) (st : WalkState) (k : Nat) (pu : StructField)
    (hf : FieldByName (B "Usage") st.ssvalue = some (k, pu)) (i : Nat) (hi : i ≠ k) :
    (writeUsage prog st).ssvalue[i]? = st.ssvalue[i]? := by
  unfold writeUsage
  by_cases hp : st.panic.isSome = true
  · rw [if_pos hp]
  · rw [if_neg hp, hf]
    simp only []
    by_cases hx : pu.PkgPath = []
    · rw [if_pos hx]
      cases pu.val <;> simp only [] <;> first | rfl | exact store_get?_ne _ _ _ _ hi
    · rw [if_neg hx]

theorem walk_usage_index (lib : Lib) (prog : GoString) (r : Record) (k : Nat)
    (pu : StructField) (hf : FieldByName (B "Usage") r = some (k, pu)) :
    ∃ pw, FieldByName (B "Usage") (walk lib prog r).ssvalue = some (k, pw) := by
  have hidx := FieldByName_index (B "Usage") (walk lib prog r).ssvalue r
    (walk_inv lib prog r).desc
  rw [hf] at hidx
  cases hc : FieldByName (B "Usage") (walk lib prog r).ssvalue with
  | none => rw [hc] at hidx; simp at hidx
  | some kp =>
    obtain ⟨k2, pw⟩ := kp
    rw [hc] at hidx
    simp only [Option.map_some', Option.some.injEq] at hidx
    subst hidx
    exact ⟨pw, rfl⟩

/-- The struct after the walk and the usage write, field by field. -/
theorem preParse_field (lib : Lib) (prog : GoString) (r : Record) (k : Nat)
    (pu : StructField) (hf : FieldByName (B "Usage") r = some (k, pu))
    (hok : (preParse lib prog r).panic = none) (i : Nat) :
    (preParse lib prog r).ssvalue[i]? =
      (r[i]?).map (preField lib (usageText prog pu.Tag r) k i) := by
  obtain ⟨_, _, _, _, _, wp, _⟩ := writeUsage_frame prog (walk lib prog r)
  have hw := wp hok
  by_cases hi : i = k
  · subst hi
    rw [(preParse_usage lib prog r i pu hf hok).1, (FieldByName_spec _ _ _ _ hf).1]
    simp [preField]
  · obtain ⟨pw, hpw⟩ := walk_usage_index lib prog r k pu hf
    rw [preParse, writeUsage_other prog _ k pw hpw i hi]
    cases hr : r[i]? with
    | none =>
      have := desc_get? _ _ (walk_inv lib prog r).desc i
      rw [hr] at this
      simpa using this
    | some pp =>
      rw [walk_seed lib prog r i pp hr hw]
      simp [preField, hi]

theorem convertDefault_erase (lib : Lib) (v : Value) (text : GoString) :
    (convertDefault lib v text).erase = v.erase := by
  cases v <;> rfl

theorem seedField_skel (lib : Lib) (pp : StructField) : skel (seedField lib pp) = skel pp := by
  unfold seedField
  split
  · rfl
  · split
    · simp only [skel, convertDefault_erase]
    · rfl

theorem seedField_desc (lib : Lib) (pp : StructField) :
    descOf (seedField lib pp) = descOf pp := by
  have := skel_eq _ _ (seedField_skel lib pp)
  simp only [descOf, this.1, this.2.1, this.2.2.1, this.2.2.2.1]

theorem convertDefault_twice (lib : Lib) (v : Value) (text : GoString) :
    convertDefault lib (convertDefault lib v text) text = convertDefault lib v text := by
  cases v <;> rfl

theorem bindable_erase (v w : Value) (h : v.erase = w.erase) : v.bindable = w.bindable := by
  rcases erase_cases _ _ h with ⟨s, t, hv, hw⟩ | ⟨s, t, hv, hw⟩ | ⟨s, t, hv, hw⟩ |
    ⟨s, t, hv, hw⟩ | ⟨s, t, hv, hw⟩ | ⟨s, t, hv, hw⟩ | ⟨typ, s, t, hv, hw⟩ | ⟨typ, hv, hw⟩ <;>
    rw [hv, hw] <;> rfl

/-- Seeding a field that was seeded already changes nothing. -/
theorem seedField_twice (lib : Lib) (pp : StructField) :
    seedField lib (seedField lib pp) = seedField lib pp := by
  by_cases h : pp.Anonymous = true ∨ pp.Name = B "Usage" ∨ pp.val.bindable = false
  · have e : seedField lib pp = pp := by unfold seedField; rw [if_pos h]
    rw [e, e]
  · cases ht : tagParts pp.Tag with
    | none =>
      have e : seedField lib pp = pp := by unfold seedField; rw [if_neg h, ht]
      rw [e, e]
    | some parts =>
      by_cases h2 : ∃ p0 p1, parts = [p0, p1]
      · obtain ⟨p0, p1, rfl⟩ := h2
        have e : seedField lib pp =
            { pp with val := convertDefault lib pp.val (TrimSpace p1) } := by
          unfold seedField; rw [if_neg h, ht]
        rw [e]
        unfold seedField
        have hb : (convertDefault lib pp.val (TrimSpace p1)).bindable = pp.val.bindable :=
          bindable_erase _ _ (convertDefault_erase lib _ _)
        simp only [hb, if_neg h, ht, convertDefault_twice]
      · have e : seedField lib pp = pp := by
          unfold seedField; rw [if_neg h, ht]
          split
          · rename_i p0 p1 heq
            simp only [Option.some.injEq] at heq
            exact absurd ⟨p0, p1, heq⟩ h2
          · rfl
        rw [e, e]

theorem withText_twice (v : Value) (text : GoString) :
    (v.withText text).withText text = v.withText text := by
  cases v <;> rfl

/-- What lines 29-117 leave in a field they leave there again. -/
theorem preField_twice (lib : Lib) (text : GoString) (k i : Nat) (pp : StructField) :
    preField lib text k i (preField lib text k i pp) = preField lib text k i pp := by
  unfold preField
  by_cases h : i = k
  · simp only [if_pos h, withText_twice]
  · simp only [if_neg h, seedField_twice]

theorem preField_desc (lib : Lib) (text : GoString) (k i : Nat) (pp : StructField) :
    descOf (preField lib text k i pp) = descOf pp := by
  unfold preField
  split
  · rfl
  · exact seedField_desc lib pp

theorem flagKind_zero (v : Value) (h : v.bindable = true) : v.flagKind.zero = v.erase := by
  cases v <;> first | rfl | (simp [Value.bindable] at h)

theorem isFlagField_bindable (pp : StructField) (h : isFlagField pp = true) :
    pp.val.bindable = true := by
  unfold isFlagField at h
  simp only [Bool.and_eq_true] at h
  exact h.1.2

/-- The struct after the walk and the usage write has the types of the struct before. -/
theorem preParse_skel (lib : Lib) (prog : GoString) (r : Record) (k : Nat)
    (pu : StructField) (hf : FieldByName (B "Usage") r = some (k, pu))
    (hok : (preParse lib prog r).panic = none) :
    (preParse lib prog r).ssvalue.map skel = r.map skel := by
  apply List.ext_getElem?
  intro i
  rw [List.getElem?_map, List.getElem?_map, preParse_field lib prog r k pu hf hok i]
  cases hr : r[i]? with
  | none => rfl
  | some pp =>
    simp only [Option.map_some', Option.some.injEq]
    unfold preField
    by_cases hi : i = k
    · rw [if_pos hi]
      subst hi
      have hpu : pp = pu := by
        have := (FieldByName_spec _ _ _ _ hf).1
        rw [hr] at this
        exact Option.some.inj this
      subst hpu
      rcases (preParse_usage lib prog r i pp hf hok).2.2 with ⟨s, hs⟩ | ⟨typ, s, hs⟩
      · simp only [skel, hs]; rfl
      · simp only [skel, hs]; rfl
    · rw [if_neg hi]
      exact seedField_skel lib pp

theorem Parse_usage_field (lib : Lib) (prog : GoString) (args : List GoString) (r : Record)
    (hok : (Parse lib prog args (.pointerToStruct r)).panic = none) :
    ∃ k pu, FieldByName (B "Usage") r = some (k, pu) := by
  have hpre := (Parse_ok lib prog args r hok).1
  cases hf : FieldByName (B "Usage") r with
  | none => exact absurd hpre (preParse_no_usage lib prog r hf).1
  | some kp => exact ⟨kp.1, kp.2, rfl⟩

/-- When `Parse` succeeds, the struct has the types it had before. -/
theorem Parse_skel (lib : Lib) (prog : GoString) (args : List GoString) (r : Record)
    (hok : (Parse lib prog args (.pointerToStruct r)).panic = none) :
    (Parse lib prog args (.pointerToStruct r)).ssvalue.map skel = r.map skel := by
  obtain ⟨hpre, _, _, _, hss⟩ := Parse_ok lib prog args r hok
  obtain ⟨k, pu, hf⟩ := Parse_usage_field lib prog args r hok
  obtain ⟨wf, wa, _, _, _, _, _⟩ := writeUsage_frame prog (walk lib prog r)
  have hps := preParse_skel lib prog r k pu hf hpre
  have hU := parseLoop_uniform lib (args.length + 1)
    { (preParse lib prog r).flags with parsed := true, args := args }
    { (preParse lib prog r).flags with parsed := true, args := args }
    (preParse lib prog r).ssvalue (preParse lib prog r).ssvalue rfl
  obtain ⟨L, hL, _, hty⟩ := hU.stores
  have hres : ((preParse lib prog r).flags.Parse lib (preParse lib prog r).ssvalue
      args).ssvalue.map skel = r.map skel := by
    show (parseLoop lib (args.length + 1) _ _).ssvalue.map skel = _
    rw [hL, applyStores_skel L _ ?_, hps]
    intro p hp q hq
    obtain ⟨fl, hfl, ht, hz⟩ := hty p hp
    have hfl2 : fl ∈ (walk lib prog r).flags.formal := by
      rw [← wf]; exact hfl
    obtain ⟨pp, hpp, hff, _, hkind⟩ := walk_flag_target lib prog r fl hfl2
    rw [hps, List.getElem?_map, ← ht, hpp] at hq
    simp only [Option.map_some', Option.some.injEq] at hq
    rw [hz, hkind, flagKind_zero _ (isFlagField_bindable pp hff), ← hq]
    rfl
  rw [hss]
  cases hap : (preParse lib prog r).argsptr with
  | none => exact hres
  | some ka =>
    simp only []
    rw [store_skel_same _ ka _ ?_, hres]
    intro q hq
    rw [hres, List.getElem?_map] at hq
    have hka : (walk lib prog r).argsptr = some ka := by rw [← wa]; exact hap
    obtain ⟨_, pp, l, hpp, hv⟩ := (walk_inv lib prog r).argsptr ka hka
    rw [hpp] at hq
    simp only [Option.map_some', Option.some.injEq] at hq
    rw [← hq]
    show Value.strings [] = pp.val.erase
    rw [hv]; rfl

theorem finish_eq (lib : Lib) (args : List GoString) (st : WalkState)
    (hp : st.panic = none)
    (hg : ¬ (st.hasBoolArg = true ∧ args.any (isBoolWord lib) = true))
    (he : (st.flags.Parse lib st.ssvalue args).err = none) :
    (finish lib args st).panic = none ∧
      (finish lib args st).ssvalue =
        match st.argsptr with
        | some k =>
          store (st.flags.Parse lib st.ssvalue args).ssvalue k
            (.strings (st.flags.Parse lib st.ssvalue args).f.args)
        | none => (st.flags.Parse lib st.ssvalue args).ssvalue := by
  unfold finish boolGuard
  simp only [hp, Option.isSome_none, Bool.false_eq_true, if_false, hg, he]
  cases st.argsptr <;> exact ⟨rfl, rfl⟩

theorem capture_get (ap : Option Nat) (R : Record) (w : Value) (i : Nat) :
    (match ap with
      | some ka => store R ka w
      | none => R)[i]? = capture (decide (ap = some i)) w R[i]? := by
  unfold capture
  cases ap with
  | none => simp
  | some ka =>
    by_cases h : i = ka
    · subst h; simp [store_get?_eq]
    · have : ¬ ka = i := fun e => h e.symm
      simp [store_get?_ne _ _ _ _ h, this]

/-- A field that was made by the walk and the usage write, then by the stores `o` of the
flag parser, then by the copy of the positional arguments, is made again by the same three
steps. -/
theorem twice_field (pf : StructField → StructField) (h2 : ∀ p, pf (pf p) = pf p)
    (hd : ∀ p, descOf (pf p) = descOf p) (o : Option Value) (c : Bool) (w : Value)
    (x : Option StructField) :
    capture c w (overStore o ((capture c w (overStore o (x.map pf))).map pf)) =
      capture c w (overStore o (x.map pf)) := by
  cases x with
  | none => cases o <;> cases c <;> rfl
  | some pp =>
    cases o with
    | none =>
      cases c with
      | false =>
        show some (pf (pf pp)) = some (pf pp)
        rw [h2]
      | true =>
        show some ({ pf { pf pp with val := w } with val := w } : StructField) =
          some { pf pp with val := w }
        rw [with_val_eq (pf { pf pp with val := w }) (pf pp) w (by rw [hd]; rfl)]
    | some v =>
      cases c with
      | false =>
        show some ({ pf { pf pp with val := v } with val := v } : StructField) =
          some { pf pp with val := v }
        rw [with_val_eq (pf { pf pp with val := v }) (pf pp) v (by rw [hd]; rfl)]
      | true =>
        show some ({ ({ pf { ({ pf pp with val := v } : StructField) with val := w } with
            val := v } : StructField) with val := w } : StructField) =
          some { ({ pf pp with val := v } : StructField) with val := w }
        rw [with_val_eq
          ({ pf { ({ pf pp with val := v } : StructField) with val := w } with val := v })
          ({ pf pp with val := v }) w
          (by
            show descOf (pf { ({ pf pp with val := v } : StructField) with val := w }) =
              descOf (pf pp)
            rw [hd]; rfl)]

theorem skel_skel (p : StructField) : skel (skel p) = skel p := by
  cases p with
  | mk n pk t a v => cases v <;> rfl

theorem lineOf_congr (p q : StructField) (h : skel p = skel q) : lineOf p = lineOf q := by
  obtain ⟨hn, _, ht, ha, he⟩ := skel_eq p q h
  unfold lineOf
  rw [hn, ht, ha]
  by_cases hc : q.Anonymous = true ∨ q.Name = B "Usage"
  · rw [if_pos hc, if_pos hc]
  · rw [if_neg hc, if_neg hc]
    have hl : (match tagParts q.Tag with
        | none => ([] : GoString)
        | some parts => usageLine p parts) =
        (match tagParts q.Tag with
        | none => ([] : GoString)
        | some parts => usageLine q parts) := by
      cases tagParts q.Tag with
      | none => rfl
      | some parts => exact usageLine_congr p q parts h
    rcases erase_cases _ _ he with ⟨s, t, hv, hw⟩ | ⟨s, t, hv, hw⟩ | ⟨s, t, hv, hw⟩ |
      ⟨s, t, hv, hw⟩ | ⟨s, t, hv, hw⟩ | ⟨s, t, hv, hw⟩ | ⟨typ, s, t, hv, hw⟩ | ⟨typ, hv, hw⟩ <;>
      rw [hv, hw] <;>
      first
      | rfl
      | exact hl

/-- The usage text depends on the types of the fields only. -/
theorem usageText_congr (prog tag : GoString) (r r2 : Record) (h : r.map skel = r2.map skel) :
    usageText prog tag r = usageText prog tag r2 := by
  have hl : ∀ x : Record, x.map lineOf = (x.map skel).map lineOf := by
    intro x
    rw [List.map_map]
    apply List.map_congr_left
    intro p _
    exact lineOf_congr p (skel p) (skel_skel p).symm
  unfold usageText usageLines
  rw [hl r, hl r2, h]

/-- C19: when `Parse` succeeds on a struct, a second call with the same program name and
the same arguments on the struct that the first call left succeeds too, and leaves the
struct as it is: every field, the flag fields, the `[]string` field and `Usage` among them,
holds the value it held after the first call. -/
theorem C19_idempotent (lib : Lib) (prog : GoString) (args : List GoString) (r : Record)
    (hok : (Parse lib prog args (.pointerToStruct r)).panic = none) :
    (Parse lib prog args
        (.pointerToStruct (Parse lib prog args (.pointerToStruct r)).ssvalue)).panic = none ∧
      (Parse lib prog args
        (.pointerToStruct (Parse lib prog args (.pointerToStruct r)).ssvalue)).ssvalue =
        (Parse lib prog args (.pointerToStruct r)).ssvalue := by
  obtain ⟨hpre, hg, herr, _, hss⟩ := Parse_ok lib prog args r hok
  obtain ⟨k, pu, hf⟩ := Parse_usage_field lib prog args r hok
  have hskel := Parse_skel lib prog args r hok
  generalize (Parse lib prog args (.pointerToStruct r)).ssvalue = r2 at hss hskel ⊢
  have hcore := preParse_congr lib prog r r2 hskel.symm
  have hc := (core_eq_iff _ _).1 hcore
  obtain ⟨_, _, cf, cap, cb, cp⟩ := hc
  have hpre2 : (preParse lib prog r2).panic = none := by rw [← cp]; exact hpre
  have hg2 : ¬ ((preParse lib prog r2).hasBoolArg = true ∧
      args.any (isBoolWord lib) = true) := by rw [← cb]; exact hg
  have hfc := (flags_core_eq_iff _ _).1 cf
  have hU := parseLoop_uniform lib (args.length + 1)
    { (preParse lib prog r).flags with parsed := true, args := args }
    { (preParse lib prog r2).flags with parsed := true, args := args }
    (preParse lib prog r).ssvalue (preParse lib prog r2).ssvalue
    (by rw [flags_core_eq_iff]; exact ⟨hfc.1, rfl, hfc.2.2.1, hfc.2.2.2.1, rfl⟩)
  have e1 : (preParse lib prog r).flags.Parse lib (preParse lib prog r).ssvalue args =
      parseLoop lib (args.length + 1)
        { (preParse lib prog r).flags with parsed := true, args := args }
        (preParse lib prog r).ssvalue := rfl
  have e2 : (preParse lib prog r2).flags.Parse lib (preParse lib prog r2).ssvalue args =
      parseLoop lib (args.length + 1)
        { (preParse lib prog r2).flags with parsed := true, args := args }
        (preParse lib prog r2).ssvalue := rfl
  rw [e1] at herr hss
  have herr2 : ((preParse lib prog r2).flags.Parse lib (preParse lib prog r2).ssvalue
      args).err = none := by rw [e2, ← hU.err]; exact herr
  have hargs := ((flags_core_eq_iff _ _).1 hU.core).2.2.2.2
  obtain ⟨L, hL, hL2, _⟩ := hU.stores
  have hP2 : Parse lib prog args (.pointerToStruct r2) =
      finish lib args (preParse lib prog r2) := rfl
  obtain ⟨hpanic2, hss2⟩ := finish_eq lib args (preParse lib prog r2) hpre2 hg2 herr2
  rw [hP2]
  refine ⟨hpanic2, ?_⟩
  rw [hss2, e2, ← hargs, ← cap]
  obtain ⟨k2, pu2, hf2, hsk2⟩ : ∃ k2 pu2, FieldByName (B "Usage") r2 = some (k2, pu2) ∧
      (k2 = k ∧ skel pu2 = skel pu) := by
    have := FieldByName_skel (B "Usage") r2 r hskel
    rw [hf] at this
    cases hc2 : FieldByName (B "Usage") r2 with
    | none => rw [hc2] at this; simp at this
    | some kp =>
      rw [hc2] at this
      simp only [Option.map_some', Option.some.injEq, Prod.mk.injEq] at this
      exact ⟨kp.1, kp.2, rfl, this⟩
  obtain ⟨hk2, hpu2⟩ := hsk2
  subst hk2
  have htag : pu2.Tag = pu.Tag := (skel_eq _ _ hpu2).2.2.1
  have htext : usageText prog pu2.Tag r2 = usageText prog pu.Tag r := by
    rw [htag]; exact usageText_congr prog pu.Tag r2 r hskel
  apply List.ext_getElem?
  intro i
  have hr2 : r2[i]? = capture (decide ((preParse lib prog r).argsptr = some i))
      (.strings (parseLoop lib (args.length + 1)
        { (preParse lib prog r).flags with parsed := true, args := args }
        (preParse lib prog r).ssvalue).f.args)
      (overStore (lastStore L i)
        ((r[i]?).map (preField lib (usageText prog pu.Tag r) k2 i))) := by
    rw [hss, capture_get, hL, applyStores_get, preParse_field lib prog r k2 pu hf hpre i]
    rfl
  rw [capture_get, hL2, applyStores_get, preParse_field lib prog r2 k2 pu2 hf2 hpre2 i, htext]
  show capture _ _ (overStore (lastStore L i) _) = _
  rw [hr2]
  exact twice_field _ (preField_twice lib _ k2 i) (preField_desc lib _ k2 i) _ _ _ _

/-- C19 at a struct with a string flag that has a default and a `[]string` field, called
with `-Name=x p1`: the first call leaves `Name = x` and `Rest = [p1]`, and so does the
second. -/
theorem C19_idempotent_witness :
    (Parse lib0 (B "prog") [B "-Name=x", B "p1"] (.pointerToStruct recIdem)).panic = none ∧
      (Parse lib0 (B "prog") [B "-Name=x", B "p1"]
        (.pointerToStruct (Parse lib0 (B "prog") [B "-Name=x", B "p1"]
          (.pointerToStruct recIdem)).ssvalue)).panic = none ∧
      ((Parse lib0 (B "prog") [B "-Name=x", B "p1"]
        (.pointerToStruct (Parse lib0 (B "prog") [B "-Name=x", B "p1"]
          (.pointerToStruct recIdem)).ssvalue)).ssvalue.map (·.val)).drop 1 =
        [.string (B "x"), .strings [B "p1"]] :=
  have h := C19_idempotent lib0 (B "prog") [B "-Name=x", B "p1"] recIdem (by decide)
  ⟨by decide, h.1, (congrArg (fun l => (l.map (·.val)).drop 1) h.2).trans (by decide)⟩

end Sflag
